import Mathlib

/-!
# mkanban: automation engine, daemon, git sync and description checkboxes

A shallow embedding of the automation core of the task-board daemon
(`internal/domain/entity`, `internal/domain/valueobject`,
`internal/application/usecase/action`), of the request routing, subscriber registry,
scheduler tick and time tracking of the daemon, of the git sync strategy
(`internal/application/strategy`) and of the checkbox parser of task descriptions
(`internal/domain/service`), together with theorems about them.

Conventions of the embedding

* Go pointers that may be `nil` are `Option`s; slices are `List`s; maps with string
  keys are association lists read with the first matching key.
* `time.Time` is an instant counted in nanoseconds (`Int`), taken away from the ends
  of the range the library can represent, where `Add` is exact; `time.Duration` is a
  signed 64 bit count of nanoseconds, so arithmetic written on a `Duration` in the
  program wraps modulo `2 ^ 64`.
* `time.Now()` is a clock reading handed in by the caller.
* A Go call either returns, panics, or does not come back; `Exec` records which.
  Recursive code takes a fuel argument and answers `Exec.timeout` when it runs out.
* A task object is told apart by its address `ptr`; a change made through a task pointer
  is a change of every task of the board with that address.
* The order in which Go ranges over a map is a parameter of the code that ranges.
* Texts are valid UTF-8. The regular expressions of the program are written out as
  matching functions on lists of characters, each with the pattern it stands for.
-/

namespace MKanban

/-! ## Outcomes of running Go code -/

/-- Outcome of a call: a returned value, a run-time panic, or fuel exhausted. -/
inductive Exec (α : Type) where
  | ret (a : α)
  | panic
  | timeout
  deriving DecidableEq, Repr

/-- Go `error` values; the sentinel errors of `errors.go` are told apart by their text. -/
structure Error where
  msg : String
  deriving DecidableEq, Repr

def ErrTaskNotFound : Error := ⟨"task not found"⟩
def ErrColumnNotFound : Error := ⟨"column not found"⟩
def ErrActionDisabled : Error := ⟨"action is disabled"⟩

/-! ## Time -/

/-- Instants of `time.Time`, in nanoseconds. -/
abbrev Time := Int

/-- Values of `time.Duration`: nanoseconds held in an `int64`. -/
abbrev Duration := Int

/-- Two's complement reading of an integer as an `int64`. -/
def wrapInt64 (x : Int) : Int := (x + 2 ^ 63) % 2 ^ 64 - 2 ^ 63

/-- Unary minus on a `time.Duration` (an `int64`). -/
def Duration.neg (d : Duration) : Duration := wrapInt64 (-d)

/-- The minimum value of a `time.Duration`. -/
def minDuration : Duration := -2 ^ 63

/-- The maximum value of a `time.Duration`. -/
def maxDuration : Duration := 2 ^ 63 - 1

/-- Reports `t.After(u)`. -/
def Time.After (t u : Time) : Bool := decide (u < t)

/-- Reports `t.Before(u)`. -/
def Time.Before (t u : Time) : Bool := decide (t < u)

/-- Reports `t.Equal(u)`. -/
def Time.Equal (t u : Time) : Bool := decide (t = u)

/-- Computes `t.Add(d)`. -/
def Time.Add (t : Time) (d : Duration) : Time := t + d

/-! ## Value objects -/

/-- Type `valueobject.Priority` is an `int`. -/
abbrev Priority := Int

def PriorityNone : Priority := 0
def PriorityLow : Priority := 1
def PriorityMedium : Priority := 2
def PriorityHigh : Priority := 3
def PriorityCritical : Priority := 4

/-- Table `priorityNames`. -/
def priorityNames : List (Priority × String) :=
  [(PriorityNone, "none"), (PriorityLow, "low"), (PriorityMedium, "medium"),
   (PriorityHigh, "high"), (PriorityCritical, "critical")]

/-- Method `Priority.String`: the name in the table, `"none"` when there is none. -/
def Priority.String (p : Priority) : String :=
  match priorityNames.lookup p with
  | some name => name
  | none => "none"

/-- Method `Priority.IsValid`. -/
def Priority.IsValid (p : Priority) : Bool := (priorityNames.lookup p).isSome

/-- Type `valueobject.Status` is an `int`. -/
abbrev Status := Int

def StatusTodo : Status := 0
def StatusInProgress : Status := 1
def StatusBlocked : Status := 2
def StatusInReview : Status := 3
def StatusDone : Status := 4

/-- Table `statusNames`. -/
def statusNames : List (Status × String) :=
  [(StatusTodo, "todo"), (StatusInProgress, "in_progress"), (StatusBlocked, "blocked"),
   (StatusInReview, "in_review"), (StatusDone, "done")]

/-- Method `Status.String`: the name in the table, `"todo"` when there is none. -/
def Status.String (s : Status) : String :=
  match statusNames.lookup s with
  | some name => name
  | none => "todo"

/-- Method `Status.IsValid`. -/
def Status.IsValid (s : Status) : Bool := (statusNames.lookup s).isSome

/-- Struct `valueobject.TaskID`. -/
structure TaskID where
  pfx : String
  number : Int
  slug : String
  deriving DecidableEq, Repr

/-- Method `TaskID.Equal`; `other` is a pointer and may be nil. -/
def TaskID.Equal (t : TaskID) (other : Option TaskID) : Bool :=
  match other with
  | none => false
  | some o => t.pfx == o.pfx && t.number == o.number && t.slug == o.slug

/-- Formatting verb `%03d`: decimal digits padded with zeros to width three, the sign
counting towards the width. -/
def fmt03d (n : Int) : String :=
  if n < 0 then "-" ++ String.mk (List.leftpad 2 '0' (toString (-n).toNat).data)
  else String.mk (List.leftpad 3 '0' (toString n.toNat).data)

/-- Method `TaskID.String`: the text `PREFIX-NUMBER-slug`. -/
def TaskID.String (t : TaskID) : String :=
  t.pfx ++ "-" ++ fmt03d t.number ++ "-" ++ t.slug

/-! ## Entities -/

/-- Struct `entity.Task`, with the fields the automation core reads. Tasks are handled
through pointers in the program; `ptr` is the address of the task object, which tells
two task objects with equal contents apart. -/
structure Task where
  id : TaskID
  title : String
  description : String
  priority : Priority
  status : Status
  tags : List String
  metadata : List (String × String)
  createdAt : Time
  modifiedAt : Time
  dueDate : Option Time
  completedDate : Option Time := none
  ptr : Nat := 0
  deriving DecidableEq, Repr

def Task.ID (t : Task) : TaskID := t.id
def Task.Priority (t : Task) : Priority := t.priority
def Task.Status (t : Task) : Status := t.status
def Task.Tags (t : Task) : List String := t.tags
def Task.CreatedAt (t : Task) : Time := t.createdAt
def Task.DueDate (t : Task) : Option Time := t.dueDate

/-- Method `Task.IsOverdue`; `now` is the reading of `time.Now()`. -/
def Task.IsOverdue (t : Task) (now : Time) : Bool :=
  match t.dueDate with
  | none => false
  | some due => if t.status == StatusDone then false else Time.Before due now

/-- Method `Task.GetMetadata`: the value and whether the key exists. -/
def Task.GetMetadata (t : Task) (key : String) : String × Bool :=
  match t.metadata.lookup key with
  | some v => (v, true)
  | none => ("", false)

/-- Struct `entity.Column`. -/
structure Column where
  name : String
  displayName : String
  description : String
  order : Int
  wipLimit : Int
  tasks : List Task
  deriving DecidableEq, Repr

def Column.Name (c : Column) : String := c.name
def Column.DisplayName (c : Column) : String := c.displayName

/-- Method `Column.GetTask`: the first task of the column whose ID equals `taskID`. -/
def Column.GetTask (c : Column) (taskID : Option TaskID) : Except Error Task :=
  match c.tasks.find? (fun task => task.ID.Equal taskID) with
  | some task => .ok task
  | none => .error ErrTaskNotFound

/-- Struct `entity.Board`. -/
structure Board where
  id : String
  projectID : String
  name : String
  pfx : String
  description : String
  columns : List Column
  nextTaskNum : Int
  deriving DecidableEq, Repr

def Board.ID (b : Board) : String := b.id

/-- Method `Board.GetColumn`: by normalized name or by display name. -/
def Board.GetColumn (b : Board) (columnName : String) : Except Error Column :=
  match b.columns.find? (fun column => column.Name == columnName || column.DisplayName == columnName) with
  | some column => .ok column
  | none => .error ErrColumnNotFound

/-- Loop of `Board.FindTask` over the columns still to visit. -/
def Board.FindTask.loop (taskID : Option TaskID) : List Column → Except Error (Task × Column)
  | [] => .error ErrTaskNotFound
  | column :: rest =>
    match column.GetTask taskID with
    | .ok task => .ok (task, column)
    | .error _ => Board.FindTask.loop taskID rest

/-- Method `Board.FindTask`: the task and the column holding it. -/
def Board.FindTask (b : Board) (taskID : Option TaskID) : Except Error (Task × Column) :=
  Board.FindTask.loop taskID b.columns

/-! ## Conditions -/

/-- Dynamic values held in a Go `interface{}`: the nil interface, `bool`, `int`,
`string` and `[]string`. These are the dynamic types of the values the engine reads
from a task, together with `int` standing for any other comparable type. -/
inductive Value where
  | nil
  | bool (b : Bool)
  | int (i : Int)
  | str (s : String)
  | strs (l : List String)
  deriving DecidableEq, Repr

/-- Go `==` on two interface values: false on different dynamic types, a run-time
panic on two values of the uncomparable type `[]string`, equality of the dynamic
values otherwise. -/
def ifaceEq (a b : Value) : Exec Bool :=
  match a, b with
  | .strs _, .strs _ => .panic
  | x, y => .ret (decide (x = y))

/-- Function `containsString`: whether a slice contains a string. -/
def containsString : List String → String → Bool
  | [], _ => false
  | s :: rest, str => if s == str then true else containsString rest str

/-- Library function `strings.Contains`: `substr` occurs within `s`. -/
def stringsContains (s substr : String) : Bool := decide (substr.data <:+: s.data)

/-- Type `ConditionOperator` is a string. -/
abbrev ConditionOperator := String

def OperatorEquals : ConditionOperator := "eq"
def OperatorNotEquals : ConditionOperator := "ne"
def OperatorContains : ConditionOperator := "contains"
def OperatorNotContains : ConditionOperator := "not_contains"
def OperatorGreaterThan : ConditionOperator := "gt"
def OperatorLessThan : ConditionOperator := "lt"
def OperatorIn : ConditionOperator := "in"
def OperatorNotIn : ConditionOperator := "not_in"

/-- Struct `entity.Condition`. -/
structure Condition where
  Field : String
  Operator : ConditionOperator
  Value : MKanban.Value
  deriving DecidableEq, Repr

/-- Method `Condition.compareValues`. Every call uses one unit of fuel; the
`not_contains` case calls `compareValues` again on the same condition. -/
def Condition.compareValues (c : Condition) (actualValue : MKanban.Value) : Nat → Exec Bool
  | 0 => .timeout
  | fuel + 1 =>
    if c.Operator = OperatorEquals then
      ifaceEq actualValue c.Value
    else if c.Operator = OperatorNotEquals then
      match ifaceEq actualValue c.Value with
      | .ret b => .ret (!b)
      | .panic => .panic
      | .timeout => .timeout
    else if c.Operator = OperatorContains then
      match actualValue, c.Value with
      | .strs tags, .str val => .ret (containsString tags val)
      | .str str, .str val => .ret (stringsContains str val)
      | _, _ => .ret false
    else if c.Operator = OperatorNotContains then
      match c.compareValues actualValue fuel with
      | .ret b => .ret (!b)
      | .panic => .panic
      | .timeout => .timeout
    else if c.Operator = OperatorIn then
      match c.Value, actualValue with
      | .strs values, .str str => .ret (containsString values str)
      | _, _ => .ret false
    else if c.Operator = OperatorNotIn then
      match c.Value, actualValue with
      | .strs values, .str str => .ret (!containsString values str)
      | _, _ => .ret false
    else
      .ret false

/-- Method `Condition.Evaluate`: reads the field off the task or the column and
compares it. `column` may be nil; `now` is the clock read by `IsOverdue`. -/
def Condition.Evaluate (c : Condition) (task : Task) (column : Option Column)
    (now : Time) (fuel : Nat) : Exec Bool :=
  if c.Field = "priority" then
    c.compareValues (.str task.Priority.String) fuel
  else if c.Field = "status" then
    c.compareValues (.str task.Status.String) fuel
  else if c.Field = "column" then
    match column with
    | some col => c.compareValues (.str col.Name) fuel
    | none => c.compareValues .nil fuel
  else if c.Field = "tags" then
    c.compareValues (.strs task.Tags) fuel
  else if c.Field = "has_due_date" then
    c.compareValues (.bool task.DueDate.isSome) fuel
  else if c.Field = "is_overdue" then
    c.compareValues (.bool (task.IsOverdue now)) fuel
  else
    match task.GetMetadata c.Field with
    | (val, true) => c.compareValues (.str val) fuel
    | (_, false) => .ret false

/-- Type `LogicalOperator` is a string. -/
abbrev LogicalOperator := String

def LogicalAnd : LogicalOperator := "AND"
def LogicalOr : LogicalOperator := "OR"

/-- Struct `entity.ConditionGroup`. -/
structure ConditionGroup where
  Conditions : List Condition
  Operator : LogicalOperator
  deriving DecidableEq, Repr

/-- The `LogicalAnd` loop of `ConditionGroup.Evaluate`. -/
def ConditionGroup.Evaluate.andLoop (task : Task) (column : Option Column) (now : Time)
    (fuel : Nat) : List Condition → Exec Bool
  | [] => .ret true
  | condition :: rest =>
    match condition.Evaluate task column now fuel with
    | .ret false => .ret false
    | .ret true => ConditionGroup.Evaluate.andLoop task column now fuel rest
    | .panic => .panic
    | .timeout => .timeout

/-- The `LogicalOr` loop of `ConditionGroup.Evaluate`. -/
def ConditionGroup.Evaluate.orLoop (task : Task) (column : Option Column) (now : Time)
    (fuel : Nat) : List Condition → Exec Bool
  | [] => .ret false
  | condition :: rest =>
    match condition.Evaluate task column now fuel with
    | .ret true => .ret true
    | .ret false => ConditionGroup.Evaluate.orLoop task column now fuel rest
    | .panic => .panic
    | .timeout => .timeout

/-- Method `ConditionGroup.Evaluate`. -/
def ConditionGroup.Evaluate (cg : ConditionGroup) (task : Task) (column : Option Column)
    (now : Time) (fuel : Nat) : Exec Bool :=
  if cg.Conditions.length = 0 then
    .ret true
  else if cg.Operator = LogicalAnd then
    ConditionGroup.Evaluate.andLoop task column now fuel cg.Conditions
  else if cg.Operator = LogicalOr then
    ConditionGroup.Evaluate.orLoop task column now fuel cg.Conditions
  else
    .ret true

/-! ## Triggers -/

/-- Type `valueobject.ScheduleType` is a string. -/
abbrev ScheduleType := String

def ScheduleTypeAbsolute : ScheduleType := "absolute"
def ScheduleTypeRelativeDueDate : ScheduleType := "relative_due_date"
def ScheduleTypeRelativeCreation : ScheduleType := "relative_creation"
def ScheduleTypeRecurring : ScheduleType := "recurring"

/-- Struct `valueobject.Schedule`; `Typ` is its field `Type`. -/
structure Schedule where
  Typ : ScheduleType
  Time : Option MKanban.Time
  Offset : Option Duration
  CronExpr : String
  deriving DecidableEq, Repr

/-- Constructor `NewAbsoluteSchedule`. -/
def NewAbsoluteSchedule (t : Time) : Schedule :=
  { Typ := ScheduleTypeAbsolute, Time := some t, Offset := none, CronExpr := "" }

/-- Constructor `NewRelativeDueDateSchedule`. -/
def NewRelativeDueDateSchedule (offset : Duration) : Schedule :=
  { Typ := ScheduleTypeRelativeDueDate, Time := none, Offset := some offset, CronExpr := "" }

/-- Constructor `NewRelativeCreationSchedule`. -/
def NewRelativeCreationSchedule (offset : Duration) : Schedule :=
  { Typ := ScheduleTypeRelativeCreation, Time := none, Offset := some offset, CronExpr := "" }

/-- Method `Schedule.IsValid`. -/
def Schedule.IsValid (s : Schedule) : Bool :=
  if s.Typ = ScheduleTypeAbsolute then s.Time.isSome
  else if s.Typ = ScheduleTypeRelativeDueDate ∨ s.Typ = ScheduleTypeRelativeCreation then
    s.Offset.isSome
  else if s.Typ = ScheduleTypeRecurring then decide (s.CronExpr ≠ "")
  else false

/-- Type `valueobject.EventType` is a string. -/
abbrev EventType := String

def EventTaskCreated : EventType := "task.created"
def EventTaskMoved : EventType := "task.moved"

/-- Struct `entity.DomainEvent`; `Typ` is its field `Type`. -/
structure DomainEvent where
  ID : String
  Typ : EventType
  Timestamp : Time
  BoardID : String
  ColumnID : String
  TaskID : Option MKanban.TaskID
  Metadata : List (String × Value)
  deriving DecidableEq, Repr

/-- Struct `entity.TriggerContext`. -/
structure TriggerContext where
  CurrentTime : Time
  Task : Option MKanban.Task
  Column : Option MKanban.Column
  Board : Option MKanban.Board
  Event : Option DomainEvent
  LastRun : Option Time
  deriving DecidableEq, Repr

/-- Struct `entity.TimeTrigger`. -/
structure TimeTrigger where
  schedule : Schedule
  deriving DecidableEq, Repr

/-- Method `TimeTrigger.evaluateAbsolute`. -/
def TimeTrigger.evaluateAbsolute (t : TimeTrigger) (ctx : TriggerContext) : Bool :=
  match t.schedule.Time with
  | none => false
  | some scheduled =>
    if Time.After ctx.CurrentTime scheduled || Time.Equal ctx.CurrentTime scheduled then
      match ctx.LastRun with
      | some lastRun => if Time.After lastRun scheduled then false else true
      | none => true
    else
      false

/-- Method `TimeTrigger.evaluateRelativeDueDate`. -/
def TimeTrigger.evaluateRelativeDueDate (t : TimeTrigger) (ctx : TriggerContext) : Bool :=
  match ctx.Task with
  | none => false
  | some task =>
    match task.DueDate, t.schedule.Offset with
    | some dueDate, some offset =>
      let triggerTime := Time.Add dueDate (Duration.neg offset)
      if Time.After ctx.CurrentTime triggerTime || Time.Equal ctx.CurrentTime triggerTime then
        match ctx.LastRun with
        | some lastRun => if Time.After lastRun triggerTime then false else true
        | none => true
      else
        false
    | _, _ => false

/-- Method `TimeTrigger.evaluateRelativeCreation`. -/
def TimeTrigger.evaluateRelativeCreation (t : TimeTrigger) (ctx : TriggerContext) : Bool :=
  match ctx.Task, t.schedule.Offset with
  | some task, some offset =>
    let triggerTime := Time.Add task.CreatedAt offset
    if Time.After ctx.CurrentTime triggerTime || Time.Equal ctx.CurrentTime triggerTime then
      match ctx.LastRun with
      | some lastRun => if Time.After lastRun triggerTime then false else true
      | none => true
    else
      false
  | _, _ => false

/-- Method `TimeTrigger.evaluateRecurring`: not implemented in the program, always false. -/
def TimeTrigger.evaluateRecurring (_t : TimeTrigger) (_ctx : TriggerContext) : Bool := false

/-- Method `TimeTrigger.ShouldTrigger`. -/
def TimeTrigger.ShouldTrigger (t : TimeTrigger) (ctx : TriggerContext) : Bool :=
  if t.schedule.Typ = ScheduleTypeAbsolute then t.evaluateAbsolute ctx
  else if t.schedule.Typ = ScheduleTypeRelativeDueDate then t.evaluateRelativeDueDate ctx
  else if t.schedule.Typ = ScheduleTypeRelativeCreation then t.evaluateRelativeCreation ctx
  else if t.schedule.Typ = ScheduleTypeRecurring then t.evaluateRecurring ctx
  else false

/-- Struct `entity.EventTrigger`. -/
structure EventTrigger where
  eventType : EventType
  deriving DecidableEq, Repr

/-- Method `EventTrigger.ShouldTrigger`. -/
def EventTrigger.ShouldTrigger (t : EventTrigger) (ctx : TriggerContext) : Bool :=
  match ctx.Event with
  | none => false
  | some event => decide (event.Typ = t.eventType)

/-- Interface `entity.Trigger`, with its two implementations. -/
inductive Trigger where
  | time (t : TimeTrigger)
  | event (t : EventTrigger)
  deriving DecidableEq, Repr

/-- Type `entity.TriggerType` is a string. -/
abbrev TriggerType := String

def TriggerTypeTime : TriggerType := "time"
def TriggerTypeEvent : TriggerType := "event"

/-- Method `Trigger.Type` (`Type` is reserved in Lean). -/
def Trigger.Typ : Trigger → TriggerType
  | .time _ => TriggerTypeTime
  | .event _ => TriggerTypeEvent

/-- Method `Trigger.ShouldTrigger`, dispatched on the implementation. -/
def Trigger.ShouldTrigger : Trigger → TriggerContext → Bool
  | .time t, ctx => t.ShouldTrigger ctx
  | .event t, ctx => t.ShouldTrigger ctx

/-! ## Actions

The effects of an action reach the outside through the collaborators of its context.
The state they act on is a parameter `σ`; every collaborator call takes the state and
hands it back. -/

/-- Interface `entity.Notifier`. -/
structure Notifier (σ : Type) where
  SendNotification : String → String → List (String × String) → σ → Option Error × σ

/-- Interface `entity.ScriptRunner`. -/
structure ScriptRunner (σ : Type) where
  RunScript : String → List (String × String) → σ → Option Error × σ

/-- Interface `entity.TaskMutator`. -/
structure TaskMutator (σ : Type) where
  UpdateTask : String → Task → σ → Option Error × σ
  MoveTask : String → Option TaskID → String → σ → Option Error × σ
  CreateTask : String → String → Task → σ → Option Error × σ

/-- Struct `entity.ActionContext`. -/
structure ActionContext (σ : Type) where
  Task : Option MKanban.Task
  Column : Option MKanban.Column
  Board : Option MKanban.Board
  Event : Option DomainEvent
  Notifier : Option (MKanban.Notifier σ)
  ScriptRunner : Option (MKanban.ScriptRunner σ)
  TaskMutator : Option (MKanban.TaskMutator σ)

/-- Type `entity.ActionTypeEnum` is a string. -/
abbrev ActionTypeEnum := String

/-- Interface `entity.ActionType`: `Type`, `Execute` and `Validate`. `Execute` returns
nil (`none`) or an error, or panics, and may change the state. -/
structure ActionType (σ : Type) where
  Typ : ActionTypeEnum
  Execute : ActionContext σ → σ → Exec (Option Error) × σ
  Validate : Option Error

/-- Type `valueobject.ActionScope` is a string. -/
abbrev ActionScope := String

def ActionScopeGlobal : ActionScope := "global"
def ActionScopeBoard : ActionScope := "board"
def ActionScopeColumn : ActionScope := "column"
def ActionScopeTask : ActionScope := "task"

/-- Method `ActionScope.IsValid`. -/
def ActionScope.IsValid (s : ActionScope) : Bool :=
  decide (s = ActionScopeGlobal ∨ s = ActionScopeBoard ∨ s = ActionScopeColumn ∨
    s = ActionScopeTask)

/-- Struct `entity.Action`. -/
structure Action (σ : Type) where
  id : String
  name : String
  description : String
  scope : ActionScope
  scopeID : String
  enabled : Bool
  trigger : Trigger
  actionType : ActionType σ
  conditions : Option ConditionGroup
  createdAt : Time
  modifiedAt : Time
  lastRun : Option Time

/-- Method `Action.LastRun`: a copy of the last run time. -/
def Action.LastRun {σ : Type} (a : Action σ) : Option Time := a.lastRun

/-- Method `Action.MarkAsRun`; `now` is the reading of `time.Now()`. -/
def Action.MarkAsRun {σ : Type} (a : Action σ) (now : Time) : Action σ :=
  { a with lastRun := some now, modifiedAt := now }

/-- Method `Action.ShouldExecute`. -/
def Action.ShouldExecute {σ : Type} (a : Action σ) (ctx : TriggerContext) (now : Time)
    (fuel : Nat) : Exec Bool :=
  if !a.enabled then
    .ret false
  else if !a.trigger.ShouldTrigger ctx then
    .ret false
  else
    match a.conditions, ctx.Task with
    | some conditions, some task =>
      match conditions.Evaluate task ctx.Column now fuel with
      | .ret true => .ret true
      | .ret false => .ret false
      | .panic => .panic
      | .timeout => .timeout
    | _, _ => .ret true

/-- Method `Action.Execute`: the returned error (or panic), the action afterwards and
the state afterwards. `now` is the clock read by `MarkAsRun`. -/
def Action.Execute {σ : Type} (a : Action σ) (actCtx : ActionContext σ) (now : Time)
    (w : σ) : Exec (Option Error) × Action σ × σ :=
  if !a.enabled then
    (.ret (some ErrActionDisabled), a, w)
  else
    match a.actionType.Execute actCtx w with
    | (.ret (some err), w1) => (.ret (some err), a, w1)
    | (.ret none, w1) => (.ret none, a.MarkAsRun now, w1)
    | (.panic, w1) => (.panic, a, w1)
    | (.timeout, w1) => (.timeout, a, w1)

/-- Method `Action.MatchesScope`. -/
def Action.MatchesScope {σ : Type} (a : Action σ) (boardID columnID taskID : String) : Bool :=
  if a.scope = ActionScopeGlobal then true
  else if a.scope = ActionScopeBoard then decide (a.scopeID = boardID)
  else if a.scope = ActionScopeColumn then decide (a.scopeID = columnID)
  else if a.scope = ActionScopeTask then decide (a.scopeID = taskID)
  else false

/-! ## Evaluating the actions -/

/-- Interface `repository.ActionRepository`, the methods the use cases call: the
enabled actions, and `UpdateLastRun`, which acts on the state behind the repository. -/
structure ActionRepository (σ : Type) where
  ListEnabled : Except Error (List (Action σ))
  UpdateLastRun : String → σ → Option Error × σ

/-- Interface `repository.BoardRepository`, the method the evaluation calls: the board
pointer and the error it returns. -/
structure BoardRepository where
  FindByID : String → Option Board × Option Error

/-- Struct `EvaluateActionsUseCase`. -/
structure EvaluateActionsUseCase (σ : Type) where
  actionRepo : ActionRepository σ
  boardRepo : BoardRepository

/-- Struct `EvaluationContext`. -/
structure EvaluationContext where
  BoardID : String
  ColumnID : String
  TaskID : String
  Event : Option DomainEvent
  CurrentTime : Time

/-- Struct `EvaluationResult`. -/
structure EvaluationResult (σ : Type) where
  Action : MKanban.Action σ
  Context : TriggerContext

/-- The board of `EvaluateActionsUseCase.Execute`: looked up when `BoardID` is not
empty, nil when the lookup fails. -/
def EvaluateActionsUseCase.resolveBoard {σ : Type} (uc : EvaluateActionsUseCase σ)
    (evalCtx : EvaluationContext) : Option Board :=
  if evalCtx.BoardID ≠ "" then
    match uc.boardRepo.FindByID evalCtx.BoardID with
    | (_, some _) => none
    | (board, none) => board
  else
    none

/-- The task and column of `EvaluateActionsUseCase.Execute`: the column is looked up by
`ColumnID`; when `TaskID` is not empty both are then assigned from
`board.FindTask(nil)`. -/
def EvaluateActionsUseCase.resolveTaskColumn (board : Option Board)
    (evalCtx : EvaluationContext) : Option Task × Option Column :=
  let column : Option Column :=
    match board with
    | some b =>
      if evalCtx.ColumnID ≠ "" then
        match b.GetColumn evalCtx.ColumnID with
        | .ok c => some c
        | .error _ => none
      else none
    | none => none
  match board with
  | some b =>
    if evalCtx.TaskID ≠ "" then
      match b.FindTask none with
      | .ok (t, c) => (some t, some c)
      | .error _ => (none, none)
    else (none, column)
  | none => (none, column)

/-- The loop of `EvaluateActionsUseCase.Execute` over the enabled actions. -/
def EvaluateActionsUseCase.loop {σ : Type} (evalCtx : EvaluationContext)
    (board : Option Board) (column : Option Column) (task : Option Task) (now : Time)
    (fuel : Nat) : List (EvaluationResult σ) → List (Action σ) → Exec (List (EvaluationResult σ))
  | results, [] => .ret results
  | results, action :: rest =>
    if !action.MatchesScope evalCtx.BoardID evalCtx.ColumnID evalCtx.TaskID then
      EvaluateActionsUseCase.loop evalCtx board column task now fuel results rest
    else
      let triggerCtx : TriggerContext :=
        { CurrentTime := evalCtx.CurrentTime, Task := task, Column := column, Board := board,
          Event := evalCtx.Event, LastRun := action.LastRun }
      match action.ShouldExecute triggerCtx now fuel with
      | .ret true =>
        EvaluateActionsUseCase.loop evalCtx board column task now fuel
          (results ++ [{ Action := action, Context := triggerCtx }]) rest
      | .ret false => EvaluateActionsUseCase.loop evalCtx board column task now fuel results rest
      | .panic => .panic
      | .timeout => .timeout

/-- Method `EvaluateActionsUseCase.Execute`: the actions that should trigger, each with
the trigger context built for it. -/
def EvaluateActionsUseCase.Execute {σ : Type} (uc : EvaluateActionsUseCase σ)
    (evalCtx : EvaluationContext) (now : Time) (fuel : Nat) :
    Exec (Except Error (List (EvaluationResult σ))) :=
  match uc.actionRepo.ListEnabled with
  | .error err => .ret (.error err)
  | .ok actions =>
    let board := uc.resolveBoard evalCtx
    let tc := EvaluateActionsUseCase.resolveTaskColumn board evalCtx
    match EvaluateActionsUseCase.loop evalCtx board tc.2 tc.1 now fuel [] actions with
    | .ret results => .ret (.ok results)
    | .panic => .panic
    | .timeout => .timeout

/-! ## Daemon: wire protocol and request routing -/

def RequestGetBoard : String := "get_board"
def RequestListBoards : String := "list_boards"
def RequestCreateBoard : String := "create_board"
def RequestAddTask : String := "add_task"
def RequestMoveTask : String := "move_task"
def RequestUpdateTask : String := "update_task"
def RequestDeleteTask : String := "delete_task"
def RequestAddColumn : String := "add_column"
def RequestDeleteColumn : String := "delete_column"
def RequestGetActiveBoard : String := "get_active_board"
def RequestCreateAction : String := "create_action"
def RequestUpdateAction : String := "update_action"
def RequestDeleteAction : String := "delete_action"
def RequestGetAction : String := "get_action"
def RequestListActions : String := "list_actions"
def RequestEnableAction : String := "enable_action"
def RequestDisableAction : String := "disable_action"
def RequestSubscribe : String := "subscribe"
def RequestUnsubscribe : String := "unsubscribe"
def RequestPing : String := "ping"
def RequestStartTimer : String := "start_timer"
def RequestStopTimer : String := "stop_timer"
def RequestGetActiveTimers : String := "get_active_timers"
def RequestListTimeLogs : String := "list_time_logs"
def RequestAddTimeEntry : String := "add_time_entry"
def RequestCreateProject : String := "create_project"
def RequestGetProject : String := "get_project"
def RequestListProjects : String := "list_projects"
def RequestUpdateProject : String := "update_project"
def RequestDeleteProject : String := "delete_project"
def RequestScheduleTask : String := "schedule_task"
def RequestCreateMeeting : String := "create_meeting"

/-- The request types `protocol.go` declares under `Action request types`. -/
def actionRequestTypes : List String :=
  [RequestCreateAction, RequestUpdateAction, RequestDeleteAction, RequestGetAction,
   RequestListActions, RequestEnableAction, RequestDisableAction]

/-- Struct `daemon.Request`; `Typ` is its field `Type`. -/
structure Request where
  Typ : String
  Payload : Value
  deriving DecidableEq, Repr

/-- Struct `daemon.Response`. -/
structure Response where
  Success : Bool
  Data : Value
  Error : String
  deriving DecidableEq, Repr

/-- The handler methods of `Server` that `handleRequest` dispatches to. Each reads and
changes the state `σ` behind the server (repositories, managers) and answers with a
response. -/
structure RequestHandlers (σ : Type) where
  handleGetBoard : Request → σ → Response × σ
  handleListBoards : σ → Response × σ
  handleCreateBoard : Request → σ → Response × σ
  handleAddTask : Request → σ → Response × σ
  handleMoveTask : Request → σ → Response × σ
  handleUpdateTask : Request → σ → Response × σ
  handleDeleteTask : Request → σ → Response × σ
  handleAddColumn : Request → σ → Response × σ
  handleDeleteColumn : Request → σ → Response × σ
  handleGetActiveBoard : Request → σ → Response × σ
  handleStartTimer : Request → σ → Response × σ
  handleStopTimer : Request → σ → Response × σ
  handleGetActiveTimers : σ → Response × σ
  handleListTimeLogs : Request → σ → Response × σ
  handleAddTimeEntry : Request → σ → Response × σ
  handleCreateProject : Request → σ → Response × σ
  handleGetProject : Request → σ → Response × σ
  handleListProjects : σ → Response × σ
  handleUpdateProject : Request → σ → Response × σ
  handleDeleteProject : Request → σ → Response × σ
  handleScheduleTask : Request → σ → Response × σ
  handleCreateMeeting : Request → σ → Response × σ

/-- The response of the `default` case of `handleRequest`. -/
def unknownRequestType (req : Request) : Response :=
  { Success := false, Data := .nil, Error := "unknown request type: " ++ req.Typ }

/-- Method `Server.handleRequest`: the switch on the request type. -/
def handleRequest {σ : Type} (h : RequestHandlers σ) (req : Request) (s : σ) : Response × σ :=
  if req.Typ = RequestGetBoard then h.handleGetBoard req s
  else if req.Typ = RequestListBoards then h.handleListBoards s
  else if req.Typ = RequestCreateBoard then h.handleCreateBoard req s
  else if req.Typ = RequestAddTask then h.handleAddTask req s
  else if req.Typ = RequestMoveTask then h.handleMoveTask req s
  else if req.Typ = RequestUpdateTask then h.handleUpdateTask req s
  else if req.Typ = RequestDeleteTask then h.handleDeleteTask req s
  else if req.Typ = RequestAddColumn then h.handleAddColumn req s
  else if req.Typ = RequestDeleteColumn then h.handleDeleteColumn req s
  else if req.Typ = RequestGetActiveBoard then h.handleGetActiveBoard req s
  else if req.Typ = RequestPing then ({ Success := true, Data := .str "pong", Error := "" }, s)
  else if req.Typ = RequestStartTimer then h.handleStartTimer req s
  else if req.Typ = RequestStopTimer then h.handleStopTimer req s
  else if req.Typ = RequestGetActiveTimers then h.handleGetActiveTimers s
  else if req.Typ = RequestListTimeLogs then h.handleListTimeLogs req s
  else if req.Typ = RequestAddTimeEntry then h.handleAddTimeEntry req s
  else if req.Typ = RequestCreateProject then h.handleCreateProject req s
  else if req.Typ = RequestGetProject then h.handleGetProject req s
  else if req.Typ = RequestListProjects then h.handleListProjects s
  else if req.Typ = RequestUpdateProject then h.handleUpdateProject req s
  else if req.Typ = RequestDeleteProject then h.handleDeleteProject req s
  else if req.Typ = RequestScheduleTask then h.handleScheduleTask req s
  else if req.Typ = RequestCreateMeeting then h.handleCreateMeeting req s
  else (unknownRequestType req, s)

/-! ## Persistence of actions -/

/-- Struct `config.ScheduleConfig`. -/
structure ScheduleConfig where
  Typ : String
  Time : String
  Offset : String
  CronExpr : String
  deriving DecidableEq, Repr

/-- Struct `config.TriggerConfig`. -/
structure TriggerConfig where
  Typ : String
  Schedule : Option ScheduleConfig
  Event : String
  deriving DecidableEq, Repr

/-- Struct `config.ActionTypeConfig`, with the fields of the notification and script
variants. -/
structure ActionTypeConfig where
  Typ : String
  Title : String
  Message : String
  ScriptPath : String
  deriving DecidableEq, Repr

/-- Struct `config.ConditionConfig`. -/
structure ConditionConfig where
  Field : String
  Operator : String
  Value : MKanban.Value
  deriving DecidableEq, Repr

/-- Struct `StorageAction`: an action in storage format. -/
structure StorageAction where
  ID : String
  Name : String
  Description : String
  Scope : String
  ScopeID : String
  Enabled : Bool
  Trigger : TriggerConfig
  ActionType : ActionTypeConfig
  Conditions : List ConditionConfig
  CreatedAt : String
  ModifiedAt : String
  LastRun : Option String
  deriving DecidableEq, Repr

/-- Method `toStorageAction`: copies the identity fields and the two time stamps and
leaves trigger, action type, conditions and last run at their zero values.
`format` is `time.Time.Format` with the layout of the program. -/
def toStorageAction {σ : Type} (format : Time → String) (action : Action σ) : StorageAction :=
  { ID := action.id, Name := action.name, Description := action.description,
    Scope := action.scope, ScopeID := action.scopeID, Enabled := action.enabled,
    Trigger := { Typ := "", Schedule := none, Event := "" },
    ActionType := { Typ := "", Title := "", Message := "", ScriptPath := "" },
    Conditions := [],
    CreatedAt := format action.createdAt, ModifiedAt := format action.modifiedAt,
    LastRun := none }

/-- Method `fromStorageAction`: a placeholder in the program, it returns the error
`not implemented` for every storage action. -/
def fromStorageAction {σ : Type} (_storageAction : StorageAction) : Except Error (Action σ) :=
  .error ⟨"not implemented"⟩

/-- The action files of `ActionRepositoryImpl`: one storage action per action ID, as
written and read back through YAML. -/
abbrev ActionFiles := List (String × StorageAction)

/-- Method `ActionRepositoryImpl.Create`: refuses an ID that has a file, else writes
the storage form of the action. -/
def ActionRepositoryImpl.Create {σ : Type} (format : Time → String) (files : ActionFiles)
    (action : Action σ) : Option Error × ActionFiles :=
  match files.lookup action.id with
  | some _ => (some ⟨"action already exists: " ++ action.id⟩, files)
  | none => (none, files ++ [(action.id, toStorageAction format action)])

/-- Method `ActionRepositoryImpl.GetByID`. -/
def ActionRepositoryImpl.GetByID {σ : Type} (files : ActionFiles) (id : String) :
    Except Error (Action σ) :=
  match files.lookup id with
  | none => .error ⟨"action not found"⟩
  | some storageAction => fromStorageAction storageAction

/-- Method `ActionRepositoryImpl.ListAll`: the files that convert to an action; a file
whose conversion fails is skipped. -/
def ActionRepositoryImpl.ListAll {σ : Type} (files : ActionFiles) : List (Action σ) :=
  files.filterMap (fun f =>
    match fromStorageAction f.2 with
    | .ok action => some action
    | .error _ => none)

/-- Method `ActionRepositoryImpl.ListEnabled`. -/
def ActionRepositoryImpl.ListEnabled {σ : Type} (files : ActionFiles) : List (Action σ) :=
  (ActionRepositoryImpl.ListAll files).filter (fun action => action.enabled)

/-! ## Task IDs, tasks and boards: construction and mutation -/

def ErrWIPLimitExceeded : Error := ⟨"work-in-progress limit exceeded"⟩
def ErrTaskAlreadyExists : Error := ⟨"task already exists"⟩
def ErrEmptyTaskName : Error := ⟨"task name cannot be empty"⟩
def ErrInvalidTaskID : Error := ⟨"invalid task ID format"⟩
def ErrInvalidPriority : Error := ⟨"invalid priority value"⟩
def ErrInvalidStatus : Error := ⟨"invalid status value"⟩
def ErrNotifierNotAvailable : Error := ⟨"notifier service not available"⟩
def ErrScriptRunnerNotAvailable : Error := ⟨"script runner service not available"⟩
def ErrTaskMutatorNotAvailable : Error := ⟨"task mutator service not available"⟩
def ErrInvalidNotificationTitle : Error := ⟨"notification title cannot be empty"⟩
def ErrInvalidNotificationMessage : Error := ⟨"notification message cannot be empty"⟩
def ErrInvalidScriptPath : Error := ⟨"script path cannot be empty"⟩
def ErrInvalidTargetColumn : Error := ⟨"target column cannot be empty"⟩

/-- Character class `[A-Z]`. -/
def isUpperLetter (c : Char) : Bool := decide ('A' ≤ c ∧ c ≤ 'Z')

/-- Character class `[a-z]`. -/
def isLowerLetter (c : Char) : Bool := decide ('a' ≤ c ∧ c ≤ 'z')

/-- Character class `\d`, the ASCII digits. -/
def isDigit (c : Char) : Bool := decide ('0' ≤ c ∧ c ≤ '9')

/-- Character class `[a-z0-9]`. -/
def isLowerAlnum (c : Char) : Bool := isLowerLetter c || isDigit c

/-- Whether the text matches the pattern `^[A-Z]{3}$`. -/
def matchesThreeUpper (s : String) : Bool :=
  decide (s.data.length = 3) && s.data.all isUpperLetter

/-- Whether the text matches the pattern `^[a-z0-9]+(?:-[a-z0-9]+)*$`: the pieces between
hyphens are all non-empty runs of `[a-z0-9]`. -/
def matchesSlugPattern (s : String) : Bool :=
  (s.data.splitOn '-').all (fun piece => !piece.isEmpty && piece.all isLowerAlnum)

/-- Constructor `valueobject.NewTaskID`. -/
def NewTaskID (pfx : String) (number : Int) (slug : String) : Except Error TaskID :=
  if pfx.utf8ByteSize ≠ 3 then .error ⟨"prefix must be exactly 3 characters"⟩
  else if !matchesThreeUpper pfx then .error ⟨"prefix must be 3 uppercase letters"⟩
  else if number < 1 then .error ⟨"number must be positive"⟩
  else if slug = "" then .error ⟨"slug cannot be empty"⟩
  else if !matchesSlugPattern slug then
    .error ⟨"slug must be lowercase alphanumeric with hyphens"⟩
  else .ok { pfx := pfx, number := number, slug := slug }

/-- Assignment `m[k] = v` on a map with string keys. -/
def mapSet : List (String × String) → String → String → List (String × String)
  | [], k, v => [(k, v)]
  | (k1, v1) :: rest, k, v => if k1 = k then (k, v) :: rest else (k1, v1) :: mapSet rest k v

/-- Constructor `entity.NewTask`; `id` is a pointer and may be nil, `now` is the
reading of `time.Now()`. -/
def NewTask (id : Option TaskID) (title description : String) (priority : Priority)
    (status : Status) (now : Time) : Except Error Task :=
  match id with
  | none => .error ErrInvalidTaskID
  | some id =>
    if title = "" then .error ErrEmptyTaskName
    else if !priority.IsValid then .error ErrInvalidPriority
    else if !status.IsValid then .error ErrInvalidStatus
    else .ok { id := id, title := title, description := description, priority := priority,
               status := status, tags := [], metadata := [], createdAt := now,
               modifiedAt := now, dueDate := none, completedDate := none }

/-- Method `Task.UpdatePriority`. -/
def Task.UpdatePriority (t : Task) (priority : MKanban.Priority) (now : Time) : Except Error Task :=
  if !priority.IsValid then .error ErrInvalidPriority
  else .ok { t with priority := priority, modifiedAt := now }

/-- Method `Task.UpdateStatus`: also stamps the completed date when the status becomes
done and no completed date is set. -/
def Task.UpdateStatus (t : Task) (status : MKanban.Status) (now : Time) : Except Error Task :=
  if !status.IsValid then .error ErrInvalidStatus
  else
    let t1 := { t with status := status, modifiedAt := now }
    if status = StatusDone ∧ t.completedDate = none then
      .ok { t1 with completedDate := some now }
    else .ok t1

/-- Method `Task.AddTag`: a tag already present is left alone. -/
def Task.AddTag (t : Task) (tag : String) (now : Time) : Task :=
  if containsString t.tags tag then t
  else { t with tags := t.tags ++ [tag], modifiedAt := now }

/-- Method `Task.RemoveTag`: removes the first occurrence of the tag. -/
def Task.RemoveTag (t : Task) (tag : String) (now : Time) : Task :=
  if containsString t.tags tag then { t with tags := t.tags.erase tag, modifiedAt := now }
  else t

/-- Method `Task.SetMetadata`. -/
def Task.SetMetadata (t : Task) (key value : String) (now : Time) : Task :=
  { t with metadata := mapSet t.metadata key value, modifiedAt := now }

/-- Method `Task.MarkAsCompleted`. -/
def Task.MarkAsCompleted (t : Task) (now : Time) : Except Error Task :=
  match t.UpdateStatus StatusDone now with
  | .error err => .error err
  | .ok t1 =>
    match t1.completedDate with
    | none => .ok { t1 with completedDate := some now }
    | some _ => .ok t1

/-- Method `Board.GenerateNextTaskID`: the ID built from the board prefix, the next
task number and the slug handed in; on success the next task number goes up by one (an
`int`, so it wraps). Returns the ID and the board afterwards. -/
def Board.GenerateNextTaskID (b : Board) (slug : String) : Except Error (TaskID × Board) :=
  match NewTaskID b.pfx b.nextTaskNum slug with
  | .error err => .error err
  | .ok taskID => .ok (taskID, { b with nextTaskNum := wrapInt64 (b.nextTaskNum + 1) })

/-! ## The five action variants

Each `Execute` returns the error (or panic), the action context afterwards (a variant
changes the task or the board of the context in place) and the state afterwards.
`now` is the reading of `time.Now()` taken by the task methods. -/

/-- Struct `entity.NotificationAction`. -/
structure NotificationAction where
  Title : String
  Message : String
  Metadata : List (String × String)
  deriving DecidableEq, Repr

/-- Method `NotificationAction.interpolateTemplate`: the replacement of variables is
not implemented in the program, the template comes back unchanged. -/
def NotificationAction.interpolateTemplate {σ : Type} (_a : NotificationAction)
    (template : String) (_ctx : ActionContext σ) : String := template

/-- Method `NotificationAction.Execute`. -/
def NotificationAction.Execute {σ : Type} (a : NotificationAction) (ctx : ActionContext σ)
    (w : σ) : Exec (Option Error) × ActionContext σ × σ :=
  match ctx.Notifier with
  | none => (.ret (some ErrNotifierNotAvailable), ctx, w)
  | some notifier =>
    let title := a.interpolateTemplate a.Title ctx
    let message := a.interpolateTemplate a.Message ctx
    let r := notifier.SendNotification title message a.Metadata w
    (.ret r.1, ctx, r.2)

/-- Method `NotificationAction.Validate`. -/
def NotificationAction.Validate (a : NotificationAction) : Option Error :=
  if a.Title = "" then some ErrInvalidNotificationTitle
  else if a.Message = "" then some ErrInvalidNotificationMessage
  else none

/-- Struct `entity.ScriptAction`. -/
structure ScriptAction where
  ScriptPath : String
  EnvVars : List (String × String)
  deriving DecidableEq, Repr

/-- The environment `ScriptAction.Execute` builds: the configured variables, then the
variables of the task, the board and the column that are present. -/
def ScriptAction.buildEnv {σ : Type} (a : ScriptAction) (ctx : ActionContext σ) :
    List (String × String) :=
  let env0 := a.EnvVars.foldl (fun env kv => mapSet env kv.1 kv.2) []
  let env1 :=
    match ctx.Task with
    | some task =>
      mapSet (mapSet (mapSet (mapSet env0 "TASK_ID" task.ID.String) "TASK_TITLE" task.title)
        "TASK_PRIORITY" task.Priority.String) "TASK_STATUS" task.Status.String
    | none => env0
  let env2 :=
    match ctx.Board with
    | some board => mapSet (mapSet env1 "BOARD_ID" board.ID) "BOARD_NAME" board.name
    | none => env1
  match ctx.Column with
  | some column => mapSet env2 "COLUMN_NAME" column.Name
  | none => env2

/-- Method `ScriptAction.Execute`. -/
def ScriptAction.Execute {σ : Type} (a : ScriptAction) (ctx : ActionContext σ) (w : σ) :
    Exec (Option Error) × ActionContext σ × σ :=
  match ctx.ScriptRunner with
  | none => (.ret (some ErrScriptRunnerNotAvailable), ctx, w)
  | some runner =>
    let r := runner.RunScript a.ScriptPath (a.buildEnv ctx) w
    (.ret r.1, ctx, r.2)

/-- Method `ScriptAction.Validate`. -/
def ScriptAction.Validate (a : ScriptAction) : Option Error :=
  if a.ScriptPath = "" then some ErrInvalidScriptPath else none

/-- Struct `entity.TaskMutationAction`. -/
structure TaskMutationAction where
  UpdatePriority : Option Priority
  UpdateStatus : Option Status
  AddTags : List String
  RemoveTags : List String
  SetMetadata : List (String × String)
  deriving DecidableEq, Repr

/-- The tag and metadata changes of `TaskMutationAction.Execute`, applied in turn. -/
def TaskMutationAction.applyTags (a : TaskMutationAction) (task : Task) (now : Time) : Task :=
  let t1 := a.AddTags.foldl (fun t tag => t.AddTag tag now) task
  let t2 := a.RemoveTags.foldl (fun t tag => t.RemoveTag tag now) t1
  a.SetMetadata.foldl (fun t kv => t.SetMetadata kv.1 kv.2 now) t2

/-- The priority and status changes of `TaskMutationAction.Execute`: the first error
stops them, keeping what was already changed. -/
def TaskMutationAction.applyFields (a : TaskMutationAction) (task : Task) (now : Time) :
    Option Error × Task :=
  let r1 : Option Error × Task :=
    match a.UpdatePriority with
    | some priority =>
      match task.UpdatePriority priority now with
      | .ok t => (none, t)
      | .error err => (some err, task)
    | none => (none, task)
  match r1 with
  | (some err, t) => (some err, t)
  | (none, t) =>
    match a.UpdateStatus with
    | some status =>
      match t.UpdateStatus status now with
      | .ok t2 => (none, t2)
      | .error err => (some err, t)
    | none => (none, t)

/-- Method `TaskMutationAction.Execute`. The board of the context is read without a nil
check when the arguments of `UpdateTask` are evaluated. -/
def TaskMutationAction.Execute {σ : Type} (a : TaskMutationAction) (ctx : ActionContext σ)
    (now : Time) (w : σ) : Exec (Option Error) × ActionContext σ × σ :=
  match ctx.Task with
  | none => (.ret (some ErrTaskNotFound), ctx, w)
  | some task =>
    match ctx.TaskMutator with
    | none => (.ret (some ErrTaskMutatorNotAvailable), ctx, w)
    | some mutator =>
      match a.applyFields task now with
      | (some err, t) => (.ret (some err), { ctx with Task := some t }, w)
      | (none, t) =>
        let t3 := a.applyTags t now
        let ctx1 := { ctx with Task := some t3 }
        match ctx.Board with
        | none => (.panic, ctx1, w)
        | some board =>
          let r := mutator.UpdateTask board.ID t3 w
          (.ret r.1, ctx1, r.2)

/-- Method `TaskMutationAction.Validate`. -/
def TaskMutationAction.Validate (a : TaskMutationAction) : Option Error :=
  if a.UpdatePriority.any (fun p => !p.IsValid) then some ErrInvalidPriority
  else if a.UpdateStatus.any (fun s => !s.IsValid) then some ErrInvalidStatus
  else none

/-- Struct `entity.TaskMovementAction`. -/
structure TaskMovementAction where
  TargetColumn : String
  deriving DecidableEq, Repr

/-- Method `TaskMovementAction.Execute`. The board of the context is read without a nil
check when the arguments of `MoveTask` are evaluated. -/
def TaskMovementAction.Execute {σ : Type} (a : TaskMovementAction) (ctx : ActionContext σ)
    (w : σ) : Exec (Option Error) × ActionContext σ × σ :=
  match ctx.Task with
  | none => (.ret (some ErrTaskNotFound), ctx, w)
  | some task =>
    match ctx.TaskMutator with
    | none => (.ret (some ErrTaskMutatorNotAvailable), ctx, w)
    | some mutator =>
      match ctx.Board with
      | none => (.panic, ctx, w)
      | some board =>
        let r := mutator.MoveTask board.ID (some task.ID) a.TargetColumn w
        (.ret r.1, ctx, r.2)

/-- Method `TaskMovementAction.Validate`. -/
def TaskMovementAction.Validate (a : TaskMovementAction) : Option Error :=
  if a.TargetColumn = "" then some ErrInvalidTargetColumn else none

/-- Struct `entity.TaskCreationAction`. -/
structure TaskCreationAction where
  Title : String
  Description : String
  Priority : MKanban.Priority
  Status : MKanban.Status
  ColumnName : String
  Tags : List String
  Metadata : List (String × String)
  deriving DecidableEq, Repr

/-- Constructor `NewTaskCreationAction`. -/
def NewTaskCreationAction (title description columnName : String) : TaskCreationAction :=
  { Title := title, Description := description, Priority := PriorityMedium,
    Status := StatusTodo, ColumnName := columnName, Tags := [], Metadata := [] }

/-- Method `TaskCreationAction.Execute`. The board of the context is used without a nil
check, and the title itself is handed to `GenerateNextTaskID` as the slug. -/
def TaskCreationAction.Execute {σ : Type} (a : TaskCreationAction) (ctx : ActionContext σ)
    (now : Time) (w : σ) : Exec (Option Error) × ActionContext σ × σ :=
  match ctx.TaskMutator with
  | none => (.ret (some ErrTaskMutatorNotAvailable), ctx, w)
  | some mutator =>
    match ctx.Board with
    | none => (.panic, ctx, w)
    | some board =>
      match board.GenerateNextTaskID a.Title with
      | .error err => (.ret (some err), ctx, w)
      | .ok (taskID, board1) =>
        let ctx1 := { ctx with Board := some board1 }
        match NewTask (some taskID) a.Title a.Description a.Priority a.Status now with
        | .error err => (.ret (some err), ctx1, w)
        | .ok task =>
          let t1 := a.Tags.foldl (fun t tag => t.AddTag tag now) task
          let t2 := a.Metadata.foldl (fun t kv => t.SetMetadata kv.1 kv.2 now) t1
          let r := mutator.CreateTask board1.ID a.ColumnName t2 w
          (.ret r.1, ctx1, r.2)

/-- Method `TaskCreationAction.Validate`. -/
def TaskCreationAction.Validate (a : TaskCreationAction) : Option Error :=
  if a.Title = "" then some ErrEmptyTaskName
  else if a.ColumnName = "" then some ErrInvalidTargetColumn
  else if !a.Priority.IsValid then some ErrInvalidPriority
  else if !a.Status.IsValid then some ErrInvalidStatus
  else none

/-- The notification variant behind the interface `ActionType`. -/
def NotificationAction.asActionType {σ : Type} (a : NotificationAction) : ActionType σ :=
  { Typ := "notification", Validate := a.Validate,
    Execute := fun ctx w => ((a.Execute ctx w).1, (a.Execute ctx w).2.2) }

/-- The script variant behind the interface `ActionType`. -/
def ScriptAction.asActionType {σ : Type} (a : ScriptAction) : ActionType σ :=
  { Typ := "script", Validate := a.Validate,
    Execute := fun ctx w => ((a.Execute ctx w).1, (a.Execute ctx w).2.2) }

/-- The task mutation variant behind the interface `ActionType`. -/
def TaskMutationAction.asActionType {σ : Type} (a : TaskMutationAction) (now : Time) :
    ActionType σ :=
  { Typ := "task_mutation", Validate := a.Validate,
    Execute := fun ctx w => ((a.Execute ctx now w).1, (a.Execute ctx now w).2.2) }

/-- The task movement variant behind the interface `ActionType`. -/
def TaskMovementAction.asActionType {σ : Type} (a : TaskMovementAction) : ActionType σ :=
  { Typ := "task_movement", Validate := a.Validate,
    Execute := fun ctx w => ((a.Execute ctx w).1, (a.Execute ctx w).2.2) }

/-- The task creation variant behind the interface `ActionType`. -/
def TaskCreationAction.asActionType {σ : Type} (a : TaskCreationAction) (now : Time) :
    ActionType σ :=
  { Typ := "task_creation", Validate := a.Validate,
    Execute := fun ctx w => ((a.Execute ctx now w).1, (a.Execute ctx now w).2.2) }

/-! ## Executing actions and processing events -/

/-- Struct `ExecuteActionUseCase`. -/
structure ExecuteActionUseCase (σ : Type) where
  actionRepo : ActionRepository σ
  notifier : Option (Notifier σ)
  scriptRunner : Option (ScriptRunner σ)
  taskMutator : Option (TaskMutator σ)

/-- Struct `ExecutionRequest`. -/
structure ExecutionRequest (σ : Type) where
  Action : MKanban.Action σ
  TriggerContext : MKanban.TriggerContext

/-- Method `ExecuteActionUseCase.Execute`: builds the action context, executes the
action and, on success, asks the repository to update the last run (an error of that
call is only logged). Returns the error, the action afterwards and the state. `runAt`
is the clock read by `MarkAsRun`. -/
def ExecuteActionUseCase.Execute {σ : Type} (uc : ExecuteActionUseCase σ)
    (req : ExecutionRequest σ) (runAt : Time) (w : σ) :
    Exec (Option Error) × Action σ × σ :=
  let actionCtx : ActionContext σ :=
    { Task := req.TriggerContext.Task, Column := req.TriggerContext.Column,
      Board := req.TriggerContext.Board, Event := req.TriggerContext.Event,
      Notifier := uc.notifier, ScriptRunner := uc.scriptRunner,
      TaskMutator := uc.taskMutator }
  match req.Action.Execute actionCtx runAt w with
  | (.ret (some err), a, w1) => (.ret (some ⟨"action execution failed: " ++ err.msg⟩), a, w1)
  | (.ret none, a, w1) => (.ret none, a, (uc.actionRepo.UpdateLastRun a.id w1).2)
  | (.panic, a, w1) => (.panic, a, w1)
  | (.timeout, a, w1) => (.timeout, a, w1)

/-- Struct `ProcessEventUseCase`. -/
structure ProcessEventUseCase (σ : Type) where
  evaluateUseCase : EvaluateActionsUseCase σ
  executeUseCase : ExecuteActionUseCase σ
  actionRepo : ActionRepository σ

/-- The loop of `ProcessEventUseCase.Execute` over the triggered actions: an error of
one execution is logged and the loop goes on. Collects the actions as they are after
their execution. -/
def ProcessEventUseCase.loop {σ : Type} (uc : ProcessEventUseCase σ) (runAt : Time) :
    List (EvaluationResult σ) → List (Action σ) → σ → Exec (Option Error) × List (Action σ) × σ
  | [], done, w => (.ret none, done, w)
  | result :: rest, done, w =>
    match uc.executeUseCase.Execute
        { Action := result.Action, TriggerContext := result.Context } runAt w with
    | (.ret _, a, w1) => ProcessEventUseCase.loop uc runAt rest (done ++ [a]) w1
    | (.panic, a, w1) => (.panic, done ++ [a], w1)
    | (.timeout, a, w1) => (.timeout, done ++ [a], w1)

/-- Method `ProcessEventUseCase.Execute`: evaluates the actions for the event and
executes those that trigger. Returns the error, the executed actions as they are
afterwards and the state. `now` is the clock read for the evaluation context. -/
def ProcessEventUseCase.Execute {σ : Type} (uc : ProcessEventUseCase σ) (event : DomainEvent)
    (now runAt : Time) (fuel : Nat) (w : σ) : Exec (Option Error) × List (Action σ) × σ :=
  let evalCtx : EvaluationContext :=
    { BoardID := event.BoardID, ColumnID := event.ColumnID,
      TaskID := match event.TaskID with
        | some taskID => taskID.String
        | none => "",
      Event := some event, CurrentTime := now }
  match uc.evaluateUseCase.Execute evalCtx now fuel with
  | .ret (.error err) => (.ret (some ⟨"failed to evaluate actions: " ++ err.msg⟩), [], w)
  | .ret (.ok results) => ProcessEventUseCase.loop uc runAt results [] w
  | .panic => (.panic, [], w)
  | .timeout => (.timeout, [], w)

/-! ## Daemon: subscriber registry

The registry maps a board ID to the connections subscribed to it, and each connection
to its notification channel. Channels are objects shared between the registry and the
loop that writes them to the connection, so they live in a store and are named by their
position in it. One lock guards the registry; the operations are modelled one at a
time. -/

/-- Struct `daemon.Notification`; `Typ` is its field `Type`. -/
structure Notification where
  Typ : String
  BoardID : String
  Data : Value
  deriving DecidableEq, Repr

/-- A connection `net.Conn`, named by a number. -/
abbrev Conn := Nat

/-- A buffered Go channel of notifications: capacity, queued values, closed or not. -/
structure Chan where
  cap : Nat
  buf : List Notification
  closed : Bool
  deriving DecidableEq, Repr

/-- The statement `select { case ch <- n: default: }`: panics on a closed channel,
queues the value when the buffer has room, and does nothing otherwise. -/
def Chan.trySend (c : Chan) (n : Notification) : Exec Chan :=
  if c.closed then .panic
  else if c.buf.length < c.cap then .ret { c with buf := c.buf ++ [n] }
  else .ret c

/-- The statement `close(ch)`: panics on a channel that is closed already. -/
def Chan.close (c : Chan) : Exec Chan :=
  if c.closed then .panic else .ret { c with closed := true }

/-- A receive on the channel by the loop of `handleSubscribe`: the oldest queued
notification, if there is one, and the channel afterwards. -/
def Chan.recv (c : Chan) : Option Notification × Chan :=
  match c.buf with
  | [] => (none, c)
  | n :: rest => (some n, { c with buf := rest })

/-- The registry of `Server`: the channel store and the field `subscribers`. -/
structure Subscribers where
  chans : List Chan
  subscribers : List (String × List (Conn × Nat))
  deriving DecidableEq, Repr

/-- The registry of `NewServer`: no channel, no subscription. -/
def Subscribers.empty : Subscribers := { chans := [], subscribers := [] }

/-- Assignment `subscribers[conn] = ch` on the map of one board. -/
def connSet : List (Conn × Nat) → Conn → Nat → List (Conn × Nat)
  | [], conn, ch => [(conn, ch)]
  | (c1, ch1) :: rest, conn, ch =>
    if c1 = conn then (conn, ch) :: rest else (c1, ch1) :: connSet rest conn ch

/-- Assignment `s.subscribers[boardID] = subs`. -/
def boardSet : List (String × List (Conn × Nat)) → String → List (Conn × Nat) →
    List (String × List (Conn × Nat))
  | [], boardID, subs => [(boardID, subs)]
  | (b1, subs1) :: rest, boardID, subs =>
    if b1 = boardID then (boardID, subs) :: rest else (b1, subs1) :: boardSet rest boardID subs

/-- The registration of `Server.handleSubscribe`: makes a channel of capacity 10 and
stores it under the board and the connection, creating the map of the board when it is
missing. Returns the registry and the new channel. -/
def Server.register (s : Subscribers) (boardID : String) (conn : Conn) : Subscribers × Nat :=
  let notifChan := s.chans.length
  let subs := (s.subscribers.lookup boardID).getD []
  ({ chans := s.chans ++ [{ cap := 10, buf := [], closed := false }],
     subscribers := boardSet s.subscribers boardID (connSet subs conn notifChan) }, notifChan)

/-- The loop of `Server.notifySubscribers` over the subscribers of the board. -/
def Server.notifySubscribers.loop (notification : Notification) :
    List (Conn × Nat) → List Chan → Exec (List Chan)
  | [], chans => .ret chans
  | (_, ch) :: rest, chans =>
    match chans.get? ch with
    | none => Server.notifySubscribers.loop notification rest chans
    | some c =>
      match c.trySend notification with
      | .ret c1 => Server.notifySubscribers.loop notification rest (chans.set ch c1)
      | .panic => .panic
      | .timeout => .timeout

/-- Method `Server.notifySubscribers`: a send-or-drop to every subscriber of the
board. -/
def Server.notifySubscribers (s : Subscribers) (boardID : String)
    (notification : Notification) : Exec Subscribers :=
  match s.subscribers.lookup boardID with
  | none => .ret s
  | some subs =>
    match Server.notifySubscribers.loop notification subs s.chans with
    | .ret chans => .ret { s with chans := chans }
    | .panic => .panic
    | .timeout => .timeout

/-- The loop of `Server.cleanupSubscriber` over the boards: where the connection is
subscribed its channel is closed and its entry deleted, and a board left without
subscribers is deleted. -/
def Server.cleanupSubscriber.loop (conn : Conn) :
    List (String × List (Conn × Nat)) → List Chan →
      Exec (List (String × List (Conn × Nat)) × List Chan)
  | [], chans => .ret ([], chans)
  | (boardID, subs) :: rest, chans =>
    match subs.lookup conn with
    | none =>
      match Server.cleanupSubscriber.loop conn rest chans with
      | .ret (rest1, chans1) => .ret ((boardID, subs) :: rest1, chans1)
      | .panic => .panic
      | .timeout => .timeout
    | some ch =>
      let closing : Exec (List Chan) :=
        match chans.get? ch with
        | none => .ret chans
        | some c =>
          match c.close with
          | .ret c1 => .ret (chans.set ch c1)
          | .panic => .panic
          | .timeout => .timeout
      match closing with
      | .ret chans0 =>
        let subs1 := subs.filter (fun e => e.1 ≠ conn)
        match Server.cleanupSubscriber.loop conn rest chans0 with
        | .ret (rest1, chans1) =>
          if subs1.length = 0 then .ret (rest1, chans1)
          else .ret ((boardID, subs1) :: rest1, chans1)
        | .panic => .panic
        | .timeout => .timeout
      | .panic => .panic
      | .timeout => .timeout

/-- Method `Server.cleanupSubscriber`: removes a connection from all subscriptions. -/
def Server.cleanupSubscriber (s : Subscribers) (conn : Conn) : Exec Subscribers :=
  match Server.cleanupSubscriber.loop conn s.subscribers s.chans with
  | .ret (subscribers, chans) => .ret { chans := chans, subscribers := subscribers }
  | .panic => .panic
  | .timeout => .timeout

/-- What a send-or-drop leaves of an open channel: the value queued when there is room,
the channel as it was when it is full. -/
def Chan.afterSend (c : Chan) (n : Notification) : Chan :=
  if c.buf.length < c.cap then { c with buf := c.buf ++ [n] } else c

/-! ## Daemon: time tracking -/

def ErrInvalidTimeLogID : Error := ⟨"invalid time log ID"⟩
def ErrEmptyProjectID : Error := ⟨"project ID cannot be empty"⟩
def ErrInvalidTimeLogSource : Error := ⟨"invalid time log source"⟩
def ErrTimeLogAlreadyStopped : Error := ⟨"time log already stopped"⟩
def ErrInvalidEndTime : Error := ⟨"end time must be after start time"⟩

/-- Computes `t.Sub(u)`: the difference as a `time.Duration`, held at the minimum or the
maximum duration when it does not fit. -/
def Time.Sub (t u : Time) : Duration :=
  if t - u < minDuration then minDuration
  else if maxDuration < t - u then maxDuration
  else t - u

/-- Type `entity.TimeLogSource` is a string. -/
abbrev TimeLogSource := String

def TimeLogSourceManual : TimeLogSource := "manual"
def TimeLogSourceTimer : TimeLogSource := "timer"
def TimeLogSourceGit : TimeLogSource := "git"
def TimeLogSourceTmux : TimeLogSource := "tmux"

/-- Method `TimeLogSource.IsValid`. -/
def TimeLogSource.IsValid (s : TimeLogSource) : Bool :=
  decide (s = TimeLogSourceManual ∨ s = TimeLogSourceTimer ∨ s = TimeLogSourceGit ∨
    s = TimeLogSourceTmux)

/-- Struct `entity.TimeLog`. -/
structure TimeLog where
  id : String
  projectID : String
  taskID : Option TaskID
  source : TimeLogSource
  startTime : Time
  endTime : Option Time
  duration : Duration
  description : String
  metadata : List (String × String)
  createdAt : Time
  modifiedAt : Time
  deriving DecidableEq, Repr

/-- Constructor `entity.NewTimeLog`; `now` is the reading of `time.Now()`. -/
def NewTimeLog (id projectID : String) (source : TimeLogSource) (startTime now : Time) :
    Except Error TimeLog :=
  if id = "" then .error ErrInvalidTimeLogID
  else if projectID = "" then .error ErrEmptyProjectID
  else if !source.IsValid then .error ErrInvalidTimeLogSource
  else .ok { id := id, projectID := projectID, taskID := none, source := source,
             startTime := startTime, endTime := none, duration := 0, description := "",
             metadata := [], createdAt := now, modifiedAt := now }

/-- Method `TimeLog.IsRunning`. -/
def TimeLog.IsRunning (t : TimeLog) : Bool := t.endTime.isNone && decide (t.duration = 0)

/-- Method `TimeLog.SetTaskID`. -/
def TimeLog.SetTaskID (t : TimeLog) (taskID : Option TaskID) (now : Time) : TimeLog :=
  { t with taskID := taskID, modifiedAt := now }

/-- Method `TimeLog.SetMetadata`. -/
def TimeLog.SetMetadata (t : TimeLog) (key value : String) (now : Time) : TimeLog :=
  { t with metadata := mapSet t.metadata key value, modifiedAt := now }

/-- Method `TimeLog.Stop`. -/
def TimeLog.Stop (t : TimeLog) (endTime now : Time) : Except Error TimeLog :=
  if !t.IsRunning then .error ErrTimeLogAlreadyStopped
  else if Time.Before endTime t.startTime then .error ErrInvalidEndTime
  else .ok { t with endTime := some endTime, duration := Time.Sub endTime t.startTime,
                    modifiedAt := now }

/-- Struct `entity.Project`, with the fields the time tracking reads. -/
structure Project where
  id : String
  name : String
  workingDir : String
  deriving DecidableEq, Repr

def Project.ID (p : Project) : String := p.id

/-- Struct `entity.Session`. -/
structure Session where
  name : String
  workingDir : String
  sessionType : String
  deriving DecidableEq, Repr

def Session.WorkingDir (s : Session) : String := s.workingDir

/-- Struct `TimeTrackingManager`: the flag `config.TimeTracking.AutoTrack`, the manual
timers (`activeTimers`), the auto timers, and the project and task of the last poll. -/
structure TimeTrackingManager where
  autoTrack : Bool
  activeTimers : List (String × TimeLog)
  autoTimers : List (String × TimeLog)
  currentProject : Option Project
  currentTaskID : Option TaskID
  deriving DecidableEq, Repr

/-- Assignment `timers[key] = log` on a timer map. -/
def timerSet : List (String × TimeLog) → String → TimeLog → List (String × TimeLog)
  | [], key, log => [(key, log)]
  | (k1, l1) :: rest, key, log =>
    if k1 = key then (key, log) :: rest else (k1, l1) :: timerSet rest key log

/-- The key of a timer: the task ID string when there is a task, the project ID
otherwise. -/
def timerKey (projectID : String) (taskID : Option TaskID) : String :=
  match taskID with
  | some id => id.String
  | none => projectID

/-- The loop of `pauseAutoTimersLocked`: stops every running auto timer and saves it;
errors of `Stop` and `Save` are dropped. `save` is `timeLogRepo.Save`. -/
def TimeTrackingManager.pauseLoop {σ : Type} (save : TimeLog → σ → Option Error × σ)
    (now : Time) : List (String × TimeLog) → σ → σ
  | [], w => w
  | (_, timer) :: rest, w =>
    if timer.IsRunning then
      let stopped :=
        match timer.Stop now now with
        | .ok t => t
        | .error _ => timer
      TimeTrackingManager.pauseLoop save now rest (save stopped w).2
    else TimeTrackingManager.pauseLoop save now rest w

/-- Method `TimeTrackingManager.pauseAutoTimersLocked`. -/
def TimeTrackingManager.pauseAutoTimersLocked {σ : Type} (tm : TimeTrackingManager)
    (save : TimeLog → σ → Option Error × σ) (now : Time) (w : σ) : TimeTrackingManager × σ :=
  ({ tm with autoTimers := [], currentProject := none, currentTaskID := none },
    TimeTrackingManager.pauseLoop save now tm.autoTimers w)

/-- Method `TimeTrackingManager.startAutoTimerLocked`: does nothing when the manual
timers hold the key; otherwise makes a log, saves it and stores it under the key.
`newID` is the value of `uuid.New().String()`. -/
def TimeTrackingManager.startAutoTimerLocked {σ : Type} (tm : TimeTrackingManager)
    (save : TimeLog → σ → Option Error × σ) (project : Project) (taskID : Option TaskID)
    (newID : String) (now : Time) (w : σ) : TimeTrackingManager × σ :=
  let key := timerKey project.ID taskID
  match tm.activeTimers.lookup key with
  | some _ => (tm, w)
  | none =>
    match NewTimeLog newID project.ID TimeLogSourceTmux now now with
    | .error _ => (tm, w)
    | .ok log =>
      let log1 := if taskID.isSome then log.SetTaskID taskID now else log
      let log2 := (log1.SetMetadata "session_type" "tmux" now).SetMetadata
        "auto_tracked" "true" now
      match save log2 w with
      | (some _, w1) => (tm, w1)
      | (none, w1) => ({ tm with autoTimers := timerSet tm.autoTimers key log2 }, w1)

/-- Method `TimeTrackingManager.syncAutoTracking`, one poll. `session` is what
`sessionTracker.GetActiveSession` returns, `detect` what `detectProjectAndTask` finds
for a session. -/
def TimeTrackingManager.syncAutoTracking {σ : Type} (tm : TimeTrackingManager)
    (save : TimeLog → σ → Option Error × σ) (session : Option Session × Option Error)
    (detect : Session → Option Project × Option TaskID) (newID : String) (now : Time)
    (w : σ) : TimeTrackingManager × σ :=
  if !tm.autoTrack then (tm, w)
  else
    match session with
    | (_, some _) => tm.pauseAutoTimersLocked save now w
    | (none, none) => tm.pauseAutoTimersLocked save now w
    | (some activeSession, none) =>
      let project := (detect activeSession).1
      let taskID := (detect activeSession).2
      let projectChanged : Bool :=
        match tm.currentProject, project with
        | none, some _ => true
        | some _, none => true
        | some cur, some p => decide (cur.ID ≠ p.ID)
        | none, none => false
      let taskChanged : Bool :=
        match tm.currentTaskID, taskID with
        | none, some _ => true
        | some _, none => true
        | some cur, some t => !cur.Equal (some t)
        | none, none => false
      if projectChanged || taskChanged then
        let paused := tm.pauseAutoTimersLocked save now w
        let tm1 := { paused.1 with currentProject := project, currentTaskID := taskID }
        match project with
        | some p => tm1.startAutoTimerLocked save p taskID newID now paused.2
        | none => (tm1, paused.2)
      else (tm, w)

/-! ## Boards: adding, removing and moving tasks -/

/-- Method `Column.CanAddTask`. -/
def Column.CanAddTask (c : Column) : Bool :=
  if c.wipLimit = 0 then true else decide ((c.tasks.length : Int) < c.wipLimit)

/-- Method `Column.AddTask` (for a task pointer that is not nil). -/
def Column.AddTask (c : Column) (task : Task) : Except Error Column :=
  if 0 < c.wipLimit ∧ c.wipLimit ≤ (c.tasks.length : Int) then .error ErrWIPLimitExceeded
  else if c.tasks.any (fun existingTask => existingTask.ID.Equal (some task.ID)) then
    .error ErrTaskAlreadyExists
  else .ok { c with tasks := c.tasks ++ [task] }

/-- Method `Column.RemoveTask`: removes the first task whose ID equals `taskID`; returns
that task and the column afterwards. -/
def Column.RemoveTask (c : Column) (taskID : Option TaskID) : Except Error (Task × Column) :=
  match c.tasks.find? (fun task => task.ID.Equal taskID) with
  | some task =>
    .ok (task, { c with tasks := c.tasks.eraseP (fun task => task.ID.Equal taskID) })
  | none => .error ErrTaskNotFound

/-- The position of the column `Board.FindTask` returns (the column pointer). -/
def Board.findTaskColumn (b : Board) (taskID : Option TaskID) : Option Nat :=
  b.columns.findIdx? (fun column => column.tasks.any (fun task => task.ID.Equal taskID))

/-- The position of the column `Board.GetColumn` returns (the column pointer). -/
def Board.getColumnIdx (b : Board) (columnName : String) : Option Nat :=
  b.columns.findIdx? (fun column => column.Name == columnName || column.DisplayName == columnName)

/-- Method `Board.MoveTask`: finds the task and its column, checks the limit of the
target column, removes the task from its column and adds it to the target; when adding
fails the task is added back to its column and the error returned. Returns the error
and the board afterwards. -/
def Board.MoveTask (b : Board) (taskID : Option TaskID) (targetColumnName : String) :
    Option Error × Board :=
  match b.FindTask taskID, b.findTaskColumn taskID with
  | .ok (task, sourceColumn), some src =>
    match b.getColumnIdx targetColumnName with
    | none => (some ErrColumnNotFound, b)
    | some tgt =>
      match b.columns.get? tgt with
      | none => (some ErrColumnNotFound, b)
      | some targetColumn =>
        if !targetColumn.CanAddTask then (some ErrWIPLimitExceeded, b)
        else
          match sourceColumn.RemoveTask taskID with
          | .error err => (some err, b)
          | .ok (_, source1) =>
            let cols1 := b.columns.set src source1
            match cols1.get? tgt with
            | none => (some ErrColumnNotFound, b)
            | some target1 =>
              match target1.AddTask task with
              | .ok target2 => (none, { b with columns := cols1.set tgt target2 })
              | .error err =>
                match source1.AddTask task with
                | .ok source2 => (some err, { b with columns := cols1.set src source2 })
                | .error _ => (some err, { b with columns := cols1 })
  | .ok _, none => (some ErrTaskNotFound, b)
  | .error err, _ => (some err, b)

/-- A change made through a task pointer: the task object at address `ptr` is replaced
by its image under `f`, wherever it is on the board. -/
def Board.updateTask (b : Board) (ptr : Nat) (f : Task → Task) : Board :=
  { b with columns := b.columns.map (fun c =>
      { c with tasks := c.tasks.map (fun t => if t.ptr = ptr then f t else t) }) }

/-- An address no task object on the board has. -/
def Board.freshPtr (b : Board) : Nat :=
  (b.columns.foldl (fun m c => c.tasks.foldl (fun m1 t => max m1 t.ptr) m) 0) + 1

/-! ## Slugs and branch names -/

/-- Collapses every run of hyphens into one (the replacement of `-+` by `-`): a hyphen
followed by a hyphen is left out. -/
def collapseHyphens : List Char → List Char
  | [] => []
  | c :: rest =>
    if c = '-' ∧ rest.head? = some '-' then collapseHyphens rest
    else c :: collapseHyphens rest

/-- Function `strings.Trim(s, "-")`. -/
def trimHyphens (s : List Char) : List Char :=
  ((s.dropWhile (fun d => d == '-')).reverse.dropWhile (fun d => d == '-')).reverse

/-- Function `slug.Generate`. `fold` stands for the first two steps, done by libraries:
the removal of diacritics (`transform.String` with NFD, mark removal, NFC) followed by
`strings.ToLower`. Then spaces and underscores become hyphens, every character outside
`[a-z0-9-]` is removed, runs of hyphens collapse, and hyphens are trimmed off both
ends. -/
def slug.Generate (fold : String → String) (s : String) : String :=
  let lowered := (fold s).data
  let hyphened := lowered.map (fun c => if c = ' ' ∨ c = '_' then '-' else c)
  let kept := hyphened.filter (fun c => isLowerAlnum c || c == '-')
  String.mk (trimHyphens (collapseHyphens kept))

/-- ASCII lowercasing, the `fold` of `slug.Generate` on ASCII text. -/
def asciiFold (s : String) : String := String.mk (s.data.map Char.toLower)

/-- The part `^([A-Z]{3})-(\d+)` of the branch patterns: three upper-case letters, a
hyphen and the longest run of digits (a shorter run is followed by a digit, not by the
hyphen that both patterns require next). Returns prefix, digits and the rest. -/
def matchTaskHead : List Char → Option (List Char × List Char × List Char)
  | a :: b :: c :: d :: rest =>
    if isUpperLetter a && isUpperLetter b && isUpperLetter c && d == '-' then
      if (rest.takeWhile isDigit).isEmpty then none
      else some ([a, b, c], rest.takeWhile isDigit, rest.dropWhile isDigit)
    else none
  | _ => none

/-- The part `-(.+)$` of the branch patterns: a hyphen and a non-empty rest without a
line feed (`.` does not match one). Returns the rest. -/
def matchTitle : List Char → Option (List Char)
  | d :: title =>
    if d == '-' && !title.isEmpty && title.all (fun c => c != '\n') then some title else none
  | [] => none

/-- The optional group `(?:-[a-z]+-\d+)` of the first branch pattern: a hyphen, the
longest run of lower-case letters, a hyphen and the longest run of digits. Returns what
follows the group. -/
def matchReference : List Char → Option (List Char)
  | d :: r1 =>
    if d == '-' && !(r1.takeWhile isLowerLetter).isEmpty then
      match r1.dropWhile isLowerLetter with
      | d2 :: r3 =>
        if d2 == '-' && !(r3.takeWhile isDigit).isEmpty then some (r3.dropWhile isDigit)
        else none
      | [] => none
    else none
  | [] => none

/-- The submatches of `^([A-Z]{3})-(\d+)(?:-[a-z]+-\d+)?-(.+)$` on the text: the
optional group is taken when the match can be completed with it, and left out
otherwise. -/
def matchReferencePattern (s : List Char) : Option (List Char × List Char × List Char) :=
  match matchTaskHead s with
  | none => none
  | some (p, ds, rest) =>
    match (matchReference rest).bind matchTitle with
    | some title => some (p, ds, title)
    | none =>
      match matchTitle rest with
      | some title => some (p, ds, title)
      | none => none

/-- The submatches of `^([A-Z]{3})-(\d+)-(.+)$` on the text. -/
def matchSimplePattern (s : List Char) : Option (List Char × List Char × List Char) :=
  match matchTaskHead s with
  | none => none
  | some (p, ds, rest) =>
    match matchTitle rest with
    | some title => some (p, ds, title)
    | none => none

/-- Function `strconv.Atoi` on a run of digits: the number, or an error when it does
not fit an `int`. -/
def atoiDigits (ds : List Char) : Option Int :=
  let n : Nat := ds.foldl (fun acc c => 10 * acc + (c.toNat - '0'.toNat)) 0
  if n < 2 ^ 63 then some (Int.ofNat n) else none

/-- Function `strings.SplitN(s, "-", 3)` when it gives three parts: the text before the
first hyphen, the text between the first two hyphens, and everything after. -/
def splitN3 (s : List Char) : Option (List Char × List Char × List Char) :=
  match s.dropWhile (fun c => c != '-') with
  | [] => none
  | _ :: r1 =>
    match r1.dropWhile (fun c => c != '-') with
    | [] => none
    | _ :: r2 =>
      some (s.takeWhile (fun c => c != '-'), r1.takeWhile (fun c => c != '-'), r2)

/-- Function `isLikelyReference`: the first part is two to four bytes of lower-case
letters and the second a non-empty run of digits. -/
def isLikelyReference (part1 part2 : String) : Bool :=
  if part1.utf8ByteSize < 2 ∨ 4 < part1.utf8ByteSize then false
  else if !part1.data.all isLowerLetter then false
  else if part2.utf8ByteSize = 0 then false
  else part2.data.all isDigit

/-- Function `parseBranchName`: prefix, number and title of a branch name, or no match
(`ok` false). -/
def parseBranchName (branchName : String) : Option (String × Int × String) :=
  match matchReferencePattern branchName.data with
  | some (p, ds, title) =>
    match atoiDigits ds with
    | none => none
    | some num => some (String.mk p, num, String.mk title)
  | none =>
    match matchSimplePattern branchName.data with
    | some (p, ds, remaining) =>
      match atoiDigits ds with
      | none => none
      | some num =>
        match splitN3 remaining with
        | some (part0, part1, part2) =>
          if isLikelyReference (String.mk part0) (String.mk part1) then
            some (String.mk p, num, String.mk part2)
          else some (String.mk p, num, String.mk remaining)
        | none => some (String.mk p, num, String.mk remaining)
    | none => none

/-! ## Git repository sync strategy -/

/-- Interface `service.VCSProvider`, the methods `Sync` calls. -/
structure VCSProvider where
  GetRepositoryRoot : String → Except Error String
  GetCurrentBranch : String → Except Error String
  ListBranches : String → Except Error (List String)

/-- Struct `GitRepoSyncStrategy`. -/
structure GitRepoSyncStrategy where
  vcsProvider : VCSProvider

/-- Assignment `existingBranchTasks[branchName] = task`. -/
def taskMapSet : List (String × Task) → String → Task → List (String × Task)
  | [], k, v => [(k, v)]
  | (k1, v1) :: rest, k, v => if k1 = k then (k, v) :: rest else (k1, v1) :: taskMapSet rest k v

/-- The verb `%t`. -/
def fmtBool (b : Bool) : String := if b then "true" else "false"

/-- The target column of a branch: `In Progress` for the current branch, `To Do` for
the others. -/
def targetColumnFor (isCurrent : Bool) : String := if isCurrent then "In Progress" else "To Do"

/-- The map `existingBranchTasks` that `Sync` builds: for every task of every column
with a `git_branch` in its metadata, the branch name mapped to the task; a later task
replaces an earlier one of the same branch. -/
def existingBranchTasks (board : Board) : List (String × Task) :=
  board.columns.foldl (fun m column =>
    column.tasks.foldl (fun m1 task =>
      match task.GetMetadata "git_branch" with
      | (branchName, true) => taskMapSet m1 branchName task
      | (_, false) => m1) m) []

/-- The task ID and title `createBranchTask` chooses: those parsed from the branch name
when it matches and they make a valid ID, else an ID generated by the board from the
slug of the branch name, with the branch name as title. Returns the error of
`GenerateNextTaskID`, or ID, title and board. -/
def GitRepoSyncStrategy.chooseTaskID (fold : String → String) (board : Board)
    (branchName : String) : Except Error (TaskID × String × Board) :=
  let generated : Except Error (TaskID × String × Board) :=
    match board.GenerateNextTaskID (slug.Generate fold branchName) with
    | .error err => .error ⟨"failed to generate task ID: " ++ err.msg⟩
    | .ok (taskID, board1) => .ok (taskID, branchName, board1)
  match parseBranchName branchName with
  | some (pfx, number, title) =>
    match NewTaskID pfx number (slug.Generate fold title) with
    | .ok tid => .ok (tid, title, board)
    | .error _ => generated
  | none => generated

/-- Method `GitRepoSyncStrategy.createBranchTask`. Returns the error and the board
afterwards. -/
def GitRepoSyncStrategy.createBranchTask (fold : String → String) (board : Board)
    (branchName : String) (isCurrent : Bool) (now : Time) : Option Error × Board :=
  let targetColumnName := targetColumnFor isCurrent
  match board.GetColumn targetColumnName, board.getColumnIdx targetColumnName with
  | .ok column, some idx =>
    if !column.CanAddTask then (none, board)
    else
      match GitRepoSyncStrategy.chooseTaskID fold board branchName with
      | .error err => (some err, board)
      | .ok (taskID, taskTitle, board1) =>
        match NewTask (some taskID) taskTitle ("Git branch: " ++ branchName) PriorityNone
            StatusTodo now with
        | .error err => (some ⟨"failed to create task: " ++ err.msg⟩, board1)
        | .ok task0 =>
          let task1 := { task0 with ptr := board.freshPtr }
          let task2 := (task1.SetMetadata "git_branch" branchName now).SetMetadata
            "is_current_branch" (fmtBool isCurrent) now
          match column.AddTask task2 with
          | .error err => (some ⟨"failed to add task to column: " ++ err.msg⟩, board1)
          | .ok column1 => (none, { board1 with columns := board1.columns.set idx column1 })
  | .ok _, none => (some ⟨"column " ++ targetColumnName ++ " not found: column not found"⟩, board)
  | .error err, _ =>
    (some ⟨"column " ++ targetColumnName ++ " not found: " ++ err.msg⟩, board)

/-- Method `GitRepoSyncStrategy.updateBranchTask`: sets `is_current_branch` on the task
object, then moves the task with that ID to the target column unless its column is the
target or `Done`; a failed move is dropped. Returns the error and the board. -/
def GitRepoSyncStrategy.updateBranchTask (board : Board) (task : Task) (isCurrent : Bool)
    (now : Time) : Option Error × Board :=
  let board1 := board.updateTask task.ptr
    (fun t => t.SetMetadata "is_current_branch" (fmtBool isCurrent) now)
  let targetColumnName := targetColumnFor isCurrent
  match board1.FindTask (some task.ID) with
  | .error err => (some ⟨"task not found in board: " ++ err.msg⟩, board1)
  | .ok (_, currentColumn) =>
    if currentColumn.Name ≠ targetColumnName then
      if currentColumn.Name ≠ "Done" then
        (none, (board1.MoveTask (some task.ID) targetColumnName).2)
      else (none, board1)
    else (none, board1)

/-- Method `GitRepoSyncStrategy.moveTaskToDone`. Returns the error and the board. -/
def GitRepoSyncStrategy.moveTaskToDone (board : Board) (task : Task) (now : Time) :
    Option Error × Board :=
  match board.FindTask (some task.ID) with
  | .error err => (some ⟨"task not found: " ++ err.msg⟩, board)
  | .ok (_, currentColumn) =>
    if currentColumn.Name = "Done" then (none, board)
    else
      match board.MoveTask (some task.ID) "Done" with
      | (some err, board1) => (some ⟨"failed to move task to Done: " ++ err.msg⟩, board1)
      | (none, board1) =>
        match task.MarkAsCompleted now with
        | .error err => (some ⟨"failed to mark task as completed: " ++ err.msg⟩, board1)
        | .ok _ =>
          (none, board1.updateTask task.ptr (fun t =>
            match t.MarkAsCompleted now with
            | .ok t1 => t1
            | .error _ => t))

/-- The loop of `Sync` over the branches: update the task of a branch that has one,
create a task for a branch that has none; the first error ends the sync. -/
def GitRepoSyncStrategy.processBranches (fold : String → String)
    (existing : List (String × Task)) (currentBranch : String) (now : Time) :
    List String → Board → Option Error × Board
  | [], board => (none, board)
  | branch :: rest, board =>
    let isCurrent := decide (branch = currentBranch)
    match existing.lookup branch with
    | some existingTask =>
      match GitRepoSyncStrategy.updateBranchTask board existingTask isCurrent now with
      | (some err, board1) =>
        (some ⟨"failed to update branch task " ++ branch ++ ": " ++ err.msg⟩, board1)
      | (none, board1) =>
        GitRepoSyncStrategy.processBranches fold existing currentBranch now rest board1
    | none =>
      match GitRepoSyncStrategy.createBranchTask fold board branch isCurrent now with
      | (some err, board1) =>
        (some ⟨"failed to create branch task " ++ branch ++ ": " ++ err.msg⟩, board1)
      | (none, board1) =>
        GitRepoSyncStrategy.processBranches fold existing currentBranch now rest board1

/-- The loop of `Sync` over the map of existing branch tasks: the task of a branch that
is gone is moved to `Done`; an error is dropped. -/
def GitRepoSyncStrategy.moveDeleted (branches : List String) (now : Time) :
    List (String × Task) → Board → Board
  | [], board => board
  | (branchName, task) :: rest, board =>
    if branchName ∈ branches then GitRepoSyncStrategy.moveDeleted branches now rest board
    else
      GitRepoSyncStrategy.moveDeleted branches now rest
        (GitRepoSyncStrategy.moveTaskToDone board task now).2

/-- Method `GitRepoSyncStrategy.Sync`. `order` is the order in which the map of
existing branch tasks is ranged over (any order, chosen by the run time). Returns the
error and the board afterwards. -/
def GitRepoSyncStrategy.Sync (s : GitRepoSyncStrategy) (fold : String → String)
    (order : List (String × Task) → List (String × Task)) (session : Session)
    (board : Board) (now : Time) : Option Error × Board :=
  match s.vcsProvider.GetRepositoryRoot session.WorkingDir with
  | .error err => (some ⟨"failed to get repository root: " ++ err.msg⟩, board)
  | .ok repoRoot =>
    match s.vcsProvider.GetCurrentBranch repoRoot with
    | .error err => (some ⟨"failed to get current branch: " ++ err.msg⟩, board)
    | .ok currentBranch =>
      match s.vcsProvider.ListBranches repoRoot with
      | .error err => (some ⟨"failed to list branches: " ++ err.msg⟩, board)
      | .ok branches =>
        let existing := existingBranchTasks board
        match GitRepoSyncStrategy.processBranches fold existing currentBranch now
            branches board with
        | (some err, board1) => (some err, board1)
        | (none, board1) =>
          (none, GitRepoSyncStrategy.moveDeleted branches now (order existing) board1)

/-! ## Branch tasks: what the sync reads of a board -/

/-- The branch a task stands for: the value under `git_branch` in its metadata. -/
def Task.branch (t : Task) : Option String := t.metadata.lookup "git_branch"

/-- What the sync reads of a task: its ID and its branch. -/
def Task.key (t : Task) : TaskID × Option String := (t.id, t.branch)

/-- All tasks of the board, column by column. -/
def Board.allTasks (b : Board) : List Task := b.columns.flatMap (fun c => c.tasks)

/-- What the sync reads of a column apart from its tasks. -/
def colView (c : Column) : String × String × Int := (c.name, c.displayName, c.wipLimit)

/-- The keys of the tasks in the column at position `k`. -/
def colKeysAt (cols : List Column) (k : Nat) : List (TaskID × Option String) :=
  match cols[k]? with
  | some c => c.tasks.map Task.key
  | none => []

/-- The columns after the first task with ID `x` of the column at `src` is taken out and
appended to the column at `tgt`. -/
def moveCols (cols : List Column) (src tgt : Nat) (x : TaskID) : List Column :=
  match cols[src]? with
  | none => cols
  | some cs =>
    match cs.tasks.find? (fun task => task.ID.Equal (some x)) with
    | none => cols
    | some t =>
      let cols1 := cols.set src
        { cs with tasks := cs.tasks.eraseP (fun task => task.ID.Equal (some x)) }
      match cols1[tgt]? with
      | none => cols1
      | some ct => cols1.set tgt { ct with tasks := ct.tasks ++ [t] }

/-- No column has a work-in-progress limit. -/
def NoWip (cols : List Column) : Prop := ∀ c ∈ cols, c.wipLimit = 0

/-- No column holds two tasks with the same ID. -/
def IdsNodup (cols : List Column) : Prop := ∀ c ∈ cols, (c.tasks.map Task.ID).Nodup

/-- The keys of all tasks of the columns. -/
def allKeys (cols : List Column) : List (TaskID × Option String) :=
  cols.flatMap (fun c => c.tasks.map Task.key)

/-- The key lists of the columns, in the order of the columns. -/
def keyLists (cols : List Column) : List (List (TaskID × Option String)) :=
  cols.map (fun c => c.tasks.map Task.key)

/-- The position of the first column with name or display name `n`, as `Board.GetColumn`
finds it. -/
def colIdx (cols : List Column) (n : String) : Option Nat :=
  cols.findIdx? (fun column => column.Name == n || column.DisplayName == n)

/-- The sync leaves a task of the column at `k` where it is when its destination is
`dest`: the column has that name or is `Done`, or the destination is missing or is the
column itself. -/
def NoMove (cols : List Column) (k : Nat) (dest : String) : Prop :=
  ∃ c, cols[k]? = some c ∧
    (c.name = dest ∨ c.name = "Done" ∨ colIdx cols dest = none ∨ colIdx cols dest = some k)

/-- Every task of branch `g` is where the sync leaves it, given the destination. -/
def SettledBranch (cols : List Column) (g dest : String) : Prop :=
  ∀ k q, q ∈ colKeysAt cols k → q.2 = some g → NoMove cols k dest

/-- The task IDs of the board are pairwise distinct. -/
def KeysUnique (cols : List Column) : Prop := ((allKeys cols).map Prod.fst).Nodup

/-- No two tasks of the board carry the same branch. -/
def BranchesUnique (cols : List Column) : Prop := ((allKeys cols).filterMap Prod.snd).Nodup

/-- What one step of the sync for branch `g` with destination `dest` does to the
columns; `created` tells whether the step made a new task. -/
structure Job (cols cols1 : List Column) (g dest : String) (created : Bool) : Prop where
  views : cols1.map colView = cols.map colView
  nodup : IdsNodup cols1
  keys : if created then ∃ z, (allKeys cols1).Perm ((z, some g) :: allKeys cols)
    else (allKeys cols1).Perm (allKeys cols)
  others : KeysUnique cols1 → ∀ k q, q.2 ≠ some g →
    (q ∈ colKeysAt cols1 k ↔ q ∈ colKeysAt cols k)
  settled : KeysUnique cols1 → BranchesUnique cols1 →
    SettledBranch cols1 g dest ∧ ∃ q ∈ allKeys cols1, q.2 = some g
  fix : created = false → KeysUnique cols → BranchesUnique cols → SettledBranch cols g dest →
    ∀ k, (colKeysAt cols1 k).Perm (colKeysAt cols k)

/-- A sequence of steps of the sync, each for one branch. -/
inductive Run : List (String × String × Bool) → List Column → List Column → Prop
  | nil (cols : List Column) : Run [] cols cols
  | cons {cols cols1 cols2 : List Column} {g dest : String} {created : Bool}
      {js : List (String × String × Bool)} :
      Job cols cols1 g dest created → Run js cols1 cols2 →
      Run ((g, dest, created) :: js) cols cols2

/-! ## Daemon: manual timers -/

def ErrTimeLogNotFound : Error := ⟨"time log not found"⟩

/-- Method `TimeLog.SetDescription`. -/
def TimeLog.SetDescription (t : TimeLog) (description : String) (now : Time) : TimeLog :=
  { t with description := description, modifiedAt := now }

/-- Constructor `NewTimeTrackingManager`: both timer maps empty, no current project or
task. `autoTrack` is the flag `config.TimeTracking.AutoTrack`. -/
def NewTimeTrackingManager (autoTrack : Bool) : TimeTrackingManager :=
  { autoTrack := autoTrack, activeTimers := [], autoTimers := [], currentProject := none,
    currentTaskID := none }

/-- Statement `delete(timers, key)` on a timer map. -/
def timerDelete (timers : List (String × TimeLog)) (key : String) : List (String × TimeLog) :=
  timers.filter (fun e => decide (e.1 ≠ key))

/-- Method `TimeTrackingManager.StartTimer`: the running manual timer of the key when
there is one; otherwise a new log, saved and stored under the key. Returns the log or
the error, the manager and the state afterwards. `newID` is the value of
`uuid.New().String()`, `now` the reading of `time.Now()`. -/
def TimeTrackingManager.StartTimer {σ : Type} (tm : TimeTrackingManager)
    (save : TimeLog → σ → Option Error × σ) (projectID : String) (taskID : Option TaskID)
    (description : String) (newID : String) (now : Time) (w : σ) :
    Except Error TimeLog × TimeTrackingManager × σ :=
  let key := timerKey projectID taskID
  let start : Except Error TimeLog × TimeTrackingManager × σ :=
    match NewTimeLog newID projectID TimeLogSourceTimer now now with
    | .error err => (.error err, tm, w)
    | .ok log =>
      let log1 := if taskID.isSome then log.SetTaskID taskID now else log
      let log2 := if description ≠ "" then log1.SetDescription description now else log1
      match save log2 w with
      | (some err, w1) => (.error err, tm, w1)
      | (none, w1) =>
        (.ok log2, { tm with activeTimers := timerSet tm.activeTimers key log2 }, w1)
  match tm.activeTimers.lookup key with
  | some existing => if existing.IsRunning then (.ok existing, tm, w) else start
  | none => start

/-- Method `TimeTrackingManager.StopTimer`: stops the running manual timer of the key,
saves it and takes it out of the map. The timer object is stopped before it is saved,
so it stays stopped in the map when saving fails. -/
def TimeTrackingManager.StopTimer {σ : Type} (tm : TimeTrackingManager)
    (save : TimeLog → σ → Option Error × σ) (projectID : String) (taskID : Option TaskID)
    (now : Time) (w : σ) : Except Error TimeLog × TimeTrackingManager × σ :=
  let key := timerKey projectID taskID
  match tm.activeTimers.lookup key with
  | none => (.error ErrTimeLogNotFound, tm, w)
  | some timer =>
    if !timer.IsRunning then (.error ErrTimeLogNotFound, tm, w)
    else
      match timer.Stop now now with
      | .error err => (.error err, tm, w)
      | .ok stopped =>
        match save stopped w with
        | (some err, w1) =>
          (.error err, { tm with activeTimers := timerSet tm.activeTimers key stopped }, w1)
        | (none, w1) =>
          (.ok stopped, { tm with activeTimers := timerDelete tm.activeTimers key }, w1)

/-- Method `TimeTrackingManager.GetActiveTimers`: the running logs of the manual map,
then those of the auto map (each map in the order in which it is ranged over). -/
def TimeTrackingManager.GetActiveTimers (tm : TimeTrackingManager) : List TimeLog :=
  ((tm.activeTimers.map Prod.snd).filter TimeLog.IsRunning) ++
    ((tm.autoTimers.map Prod.snd).filter TimeLog.IsRunning)

/-- The key under which the manager files a time log. -/
def TimeLog.key (t : TimeLog) : String := timerKey t.projectID t.taskID

/-! ## Board prefixes and new boards -/

def ErrInvalidBoardName : Error := ⟨"invalid board name"⟩
def ErrEmptyBoardName : Error := ⟨"board name cannot be empty"⟩

/-- Character class `[a-zA-Z0-9]`. -/
def isAlnum (c : Char) : Bool := isLowerLetter c || isUpperLetter c || isDigit c

/-- Function `valueobject.GenerateBoardPrefix`: the characters outside `[a-zA-Z0-9]` are
removed and the rest is put in upper case; an empty rest gives `BRD`, three or more
bytes give the first three, fewer are filled up with `X`. What is left after the
removal is ASCII, so bytes are characters and `strings.ToUpper` is the ASCII one. -/
def GenerateBoardPrefix (boardName : String) : String :=
  let cleaned := boardName.data.filter isAlnum
  let upper := cleaned.map Char.toUpper
  if upper.length = 0 then "BRD"
  else if 3 ≤ upper.length then String.mk (upper.take 3)
  else String.mk (upper ++ List.replicate (3 - upper.length) 'X')

/-- Constructor `entity.NewBoard`. -/
def NewBoard (id name description : String) : Except Error Board :=
  if id = "" then .error ErrInvalidBoardName
  else if name = "" then .error ErrEmptyBoardName
  else .ok { id := id, projectID := "", name := name, pfx := GenerateBoardPrefix name,
             description := description, columns := [], nextTaskNum := 1 }

/-! ## Columns: construction and limit -/

def ErrEmptyColumnName : Error := ⟨"column name cannot be empty"⟩
def ErrInvalidWIPLimit : Error := ⟨"wip limit must be positive"⟩

/-- Constructor `entity.NewColumn`: the display name is the name. The colour argument
is stored only and left out. -/
def NewColumn (name description : String) (order wipLimit : Int) : Except Error Column :=
  if name = "" then .error ErrEmptyColumnName
  else if wipLimit < 0 then .error ErrInvalidWIPLimit
  else .ok { name := name, displayName := name, description := description, order := order,
             wipLimit := wipLimit, tasks := [] }

/-- Method `Column.UpdateWIPLimit`. -/
def Column.UpdateWIPLimit (c : Column) (limit : Int) : Except Error Column :=
  if limit < 0 then .error ErrInvalidWIPLimit
  else .ok { c with wipLimit := limit }

/-- Method `Column.IsWIPLimitReached`. -/
def Column.IsWIPLimitReached (c : Column) : Bool :=
  if c.wipLimit = 0 then false else decide (c.wipLimit ≤ (c.tasks.length : Int))

/-- A call of one of the methods that change the tasks or the limit of a column. -/
inductive ColumnCall where
  | addTask (task : Option Task)
  | removeTask (taskID : Option TaskID)
  | updateWIPLimit (limit : Int)

/-- The column after a call; a call that returns an error leaves the column as it is
(`AddTask` of a nil task returns `ErrTaskNotFound`). -/
def Column.call (c : Column) : ColumnCall → Column
  | .addTask none => c
  | .addTask (some task) =>
    match c.AddTask task with
    | .ok c1 => c1
    | .error _ => c
  | .removeTask taskID =>
    match c.RemoveTask taskID with
    | .ok (_, c1) => c1
    | .error _ => c
  | .updateWIPLimit limit =>
    match c.UpdateWIPLimit limit with
    | .ok c1 => c1
    | .error _ => c

/-- The column after a sequence of calls. -/
def Column.calls (c : Column) (calls : List ColumnCall) : Column := calls.foldl Column.call c

/-- Whether a call sets no limit that is positive and below the number of tasks the
column holds. -/
def Column.limitFits (c : Column) : ColumnCall → Bool
  | .updateWIPLimit limit => decide (limit ≤ 0 ∨ (c.tasks.length : Int) ≤ limit)
  | _ => true

/-- Whether every call of the sequence fits the column at the moment it is made. -/
def Column.limitsFit : Column → List ColumnCall → Bool
  | _, [] => true
  | c, call :: rest => c.limitFits call && Column.limitsFit (c.call call) rest

/-! ## Daemon: the scheduler tick -/

/-- The evaluation context `ActionManager.checkTimeBasedActions` builds for a time
trigger: only `CurrentTime` is set, to the reading of `time.Now()`. -/
def tickContext (now : Time) : EvaluationContext :=
  { BoardID := "", ColumnID := "", TaskID := "", Event := none, CurrentTime := now }

/-! ## Task IDs read off a branch by the time tracking -/

/-- Function `valueobject.ParseTaskID`: the text is matched against
`^([A-Z]{3})-(\d+)-(.+)$` and the number read with `strconv.Atoi`; the parts are taken
as they are, without the checks of `NewTaskID`. -/
def ParseTaskID (id : String) : Except Error TaskID :=
  match matchSimplePattern id.data with
  | none => .error ⟨"invalid task ID format: " ++ id⟩
  | some (p, ds, slug) =>
    match atoiDigits ds with
    | none =>
      .error ⟨"invalid task number: strconv.Atoi: parsing \"" ++ String.mk ds ++
        "\": value out of range"⟩
    | some number => .ok { pfx := String.mk p, number := number, slug := String.mk slug }

/-- Character class `[a-z0-9-]`. -/
def isSlugChar (c : Char) : Bool := isLowerAlnum c || c == '-'

/-- The group `([A-Z]{3}-\d+-[a-z0-9-]+)` matched at the start of the text: three
upper-case letters, a hyphen, the longest run of digits, a hyphen and the longest
non-empty run of `[a-z0-9-]`. Returns the matched text. -/
def matchTaskIDText (s : List Char) : Option (List Char) :=
  match matchTaskHead s with
  | none => none
  | some (p, ds, rest) =>
    match rest with
    | d :: r1 =>
      if d == '-' && !(r1.takeWhile isSlugChar).isEmpty then
        some (p ++ '-' :: (ds ++ '-' :: r1.takeWhile isSlugChar))
      else none
    | [] => none

/-- The alternatives of the group `(?:feature|bugfix|fix|hotfix|chore|refactor)`. -/
def branchKinds : List String := ["feature", "bugfix", "fix", "hotfix", "chore", "refactor"]

/-- The part `^(?:feature|bugfix|fix|hotfix|chore|refactor)/` of the first pattern:
what follows the slash. No alternative followed by the slash is the start of another,
so at most one applies. -/
def stripBranchKind (s : List Char) : Option (List Char) :=
  branchKinds.findSome? (fun kind =>
    if (kind.data ++ ['/']).isPrefixOf s then some (s.drop (kind.data.length + 1)) else none)

/-- The submatch of the second pattern, `([A-Z]{3}-\d+-[a-z0-9-]+)` without anchor: the
match at the leftmost position that has one. -/
def searchTaskIDText : List Char → Option (List Char)
  | [] => none
  | c :: rest =>
    match matchTaskIDText (c :: rest) with
    | some m => some m
    | none => searchTaskIDText rest

/-- Method `TimeTrackingManager.extractTaskIDFromBranch`: the first of the two patterns
whose submatch `ParseTaskID` accepts gives the task ID; nil when neither does. -/
def extractTaskIDFromBranch (branch : String) : Option TaskID :=
  let first : Option TaskID :=
    match (stripBranchKind branch.data).bind matchTaskIDText with
    | some m => (ParseTaskID (String.mk m)).toOption
    | none => none
  match first with
  | some taskID => some taskID
  | none =>
    match searchTaskIDText branch.data with
    | some m => (ParseTaskID (String.mk m)).toOption
    | none => none

/-! ## Checkboxes in task descriptions

Texts are lists of characters here; a description is cut into lines at line feeds, as
`strings.Split(description, "\n")` does. The two patterns are read greedily, which is
the only way they match: every repetition is followed by a character outside its
class. -/

/-- Type `service.CheckboxState` is a string. -/
abbrev CheckboxState := String

def CheckboxTodo : CheckboxState := "[ ]"
def CheckboxInProgress : CheckboxState := "[~]"
def CheckboxDone : CheckboxState := "[x]"

/-- Function `strings.Split(s, sep)` for a separator of one character: the pieces
between the separators, an empty text giving one empty piece. -/
def splitOnChar (sep : Char) : List Char → List (List Char)
  | [] => [[]]
  | c :: rest =>
    if c = sep then [] :: splitOnChar sep rest
    else
      match splitOnChar sep rest with
      | piece :: pieces => (c :: piece) :: pieces
      | [] => [[c]]

/-- Function `strings.Join(lines, "\n")`. -/
def joinLines : List (List Char) → List Char
  | [] => []
  | [line] => line
  | line :: rest => line ++ '\n' :: joinLines rest

/-- Function `strings.Contains(s, sub)`. -/
def hasSubstr (s sub : List Char) : Bool := s.tails.any (fun t => sub.isPrefixOf t)

/-- Character class `\s` of the patterns: tab, line feed, form feed, carriage return
and space. -/
def isRegexSpace (c : Char) : Bool :=
  c == '\t' || c == '\n' || c == '\x0c' || c == '\r' || c == ' '

/-- Function `unicode.IsSpace`. -/
def isUnicodeSpace (c : Char) : Bool :=
  c == '\t' || c == '\n' || c == '\x0b' || c == '\x0c' || c == '\r' || c == ' ' ||
  c.toNat == 0x85 || c.toNat == 0xA0 || c.toNat == 0x1680 ||
  (decide (0x2000 ≤ c.toNat) && decide (c.toNat ≤ 0x200A)) ||
  c.toNat == 0x2028 || c.toNat == 0x2029 || c.toNat == 0x202F || c.toNat == 0x205F ||
  c.toNat == 0x3000

/-- Function `strings.TrimSpace`. -/
def TrimSpace (s : List Char) : List Char :=
  ((s.dropWhile isUnicodeSpace).reverse.dropWhile isUnicodeSpace).reverse

/-- The part `^(\s*)-\s+\[([ x~])\]\s+` that both patterns start with: indent, state
character and what follows the whitespace after the bracket. -/
def matchCheckboxHead (line : List Char) : Option (List Char × Char × List Char) :=
  match line.dropWhile isRegexSpace with
  | d :: r1 =>
    if d == '-' && !(r1.takeWhile isRegexSpace).isEmpty then
      match r1.dropWhile isRegexSpace with
      | open1 :: st :: close1 :: r2 =>
        if open1 == '[' && (st == ' ' || st == 'x' || st == '~') && close1 == ']' &&
            !(r2.takeWhile isRegexSpace).isEmpty then
          some (line.takeWhile isRegexSpace, st, r2.dropWhile isRegexSpace)
        else none
      | _ => none
    else none
  | [] => none

/-- The submatches of `checkboxPattern`, `^(\s*)-\s+\[([ x~])\]\s+(.*)$`: indent, state
character and content; the content holds no line feed. -/
def matchCheckbox (line : List Char) : Option (List Char × Char × List Char) :=
  match matchCheckboxHead line with
  | some (indent, st, content) =>
    if content.all (fun c => c != '\n') then some (indent, st, content) else none
  | none => none

/-- The submatches of `linkedCheckboxPattern`,
`^(\s*)-\s+\[([ x~])\]\s+\[([^\]]+)\]\(([^)]+)\)\s*(.*)$`: indent, state character,
link text, link URL and trailing text. -/
def matchLinked (line : List Char) :
    Option (List Char × Char × List Char × List Char × List Char) :=
  match matchCheckboxHead line with
  | some (indent, st, open1 :: r1) =>
    if open1 == '[' && !(r1.takeWhile (fun c => c != ']')).isEmpty then
      match r1.dropWhile (fun c => c != ']') with
      | _ :: open2 :: r2 =>
        if open2 == '(' && !(r2.takeWhile (fun c => c != ')')).isEmpty then
          match r2.dropWhile (fun c => c != ')') with
          | _ :: r3 =>
            if (r3.dropWhile isRegexSpace).all (fun c => c != '\n') then
              some (indent, st, r1.takeWhile (fun c => c != ']'),
                r2.takeWhile (fun c => c != ')'), r3.dropWhile isRegexSpace)
            else none
          | [] => none
        else none
      | _ => none
    else none
  | _ => none

/-- The body of the loop of `ParseSubtasks`: the subtask title a line gives, if any. -/
def subtaskOfLine (line : List Char) : Option String :=
  match matchCheckbox line with
  | some (_, state, content) =>
    if state == ' ' && !(TrimSpace content).isEmpty &&
        !hasSubstr (TrimSpace content) "](".data then
      some (String.mk (TrimSpace content))
    else none
  | none => none

/-- Function `service.ParseSubtasks`. -/
def ParseSubtasks (description : String) : List String :=
  (splitOnChar '\n' description.data).filterMap subtaskOfLine

/-- The body of the loop of `UpdateCheckboxState`: the line that goes to the result. -/
def updateLine (taskID : String) (state : CheckboxState) (line : List Char) : List Char :=
  match matchLinked line with
  | some (indent, _, linkText, linkURL, trailing) =>
    if hasSubstr linkURL taskID.data then
      indent ++ "- ".data ++ state.data ++ " [".data ++ linkText ++ "](".data ++ linkURL ++
        ")".data ++ trailing
    else line
  | none => line

/-- Function `service.UpdateCheckboxState`. -/
def UpdateCheckboxState (description taskID : String) (state : CheckboxState) : String :=
  String.mk (joinLines ((splitOnChar '\n' description.data).map (updateLine taskID state)))

/-- The switch of `GetCheckboxStates` from the state character to the state. -/
def checkboxStateOf (st : Char) : CheckboxState :=
  if st == ' ' then CheckboxTodo
  else if st == 'x' then CheckboxDone
  else if st == '~' then CheckboxInProgress
  else CheckboxTodo

/-- The body of the loop of `GetCheckboxStates`: a linked line sets the state under the
first part of its URL (cut at slashes) that holds a hyphen and is longer than three
bytes. -/
def addCheckboxState (states : List (String × String)) (line : List Char) :
    List (String × String) :=
  match matchLinked line with
  | some (_, st, _, linkURL, _) =>
    match (splitOnChar '/' linkURL).find?
        (fun part => hasSubstr part "-".data && decide (3 < (String.mk part).utf8ByteSize)) with
    | some part => mapSet states (String.mk part) (checkboxStateOf st)
    | none => states
  | none => states

/-- Function `service.GetCheckboxStates`: the map as a list of entries. -/
def GetCheckboxStates (description : String) : List (String × CheckboxState) :=
  (splitOnChar '\n' description.data).foldl addCheckboxState []

/-- Function `service.AllCheckboxesComplete`. -/
def AllCheckboxesComplete (description : String) : Bool :=
  let states := GetCheckboxStates description
  if states.length = 0 then false
  else states.all (fun entry => entry.2 == CheckboxDone)

/-- The loop of `AddSubtaskLink` while nothing is replaced yet: the first unchecked,
unlinked checkbox line with the title becomes a linked one, the lines after it stay. -/
def addLinkLines (subtaskTitle taskID columnName : String) : List (List Char) → List (List Char)
  | [] => []
  | line :: rest =>
    match matchCheckbox line with
    | some (indent, state, content) =>
      if state == ' ' && TrimSpace content = subtaskTitle.data &&
          !hasSubstr (TrimSpace content) "](".data then
        (indent ++ "- [ ] [".data ++ subtaskTitle.data ++ "](".data ++
          ("../../" ++ columnName ++ "/" ++ taskID ++ "/task.md").data ++ ")".data) :: rest
      else line :: addLinkLines subtaskTitle taskID columnName rest
    | none => line :: addLinkLines subtaskTitle taskID columnName rest

/-- Function `service.AddSubtaskLink`. -/
def AddSubtaskLink (description subtaskTitle taskID columnName : String) : String :=
  String.mk (joinLines (addLinkLines subtaskTitle taskID columnName
    (splitOnChar '\n' description.data)))

/-- The words of the specification for an unchecked checkbox item, `- [ ] text`: the
line is optional whitespace, a hyphen, whitespace, the box `[ ]`, whitespace and then
the content `raw`. Whitespace is what the pattern class `\s` holds. -/
def UncheckedItem (line raw : List Char) : Prop :=
  ∃ indent ws1 ws2 : List Char,
    line = indent ++ '-' :: (ws1 ++ '[' :: ' ' :: ']' :: (ws2 ++ raw)) ∧
    (∀ c ∈ indent, isRegexSpace c = true) ∧
    ws1 ≠ [] ∧ (∀ c ∈ ws1, isRegexSpace c = true) ∧
    ws2 ≠ [] ∧ (∀ c ∈ ws2, isRegexSpace c = true)

/-! ## Branch tasks in place -/

/-- The name of the column in which `Board.FindTask` finds a task with the ID of
`task`; this is the column `updateBranchTask` and `moveTaskToDone` compare with the
target. -/
def taskColumnName (board : Board) (task : Task) : Option String :=
  match board.FindTask (some task.ID) with
  | .ok (_, column) => some column.Name
  | .error _ => none

/-- Every branch task is where `Sync` wants it, for the branch list and the current
branch given: each listed branch has a task in the map of existing branch tasks, found
in the column named as the target of the branch or in `Done`, and the task of every
branch of the map that is not listed is found in `Done`. -/
def branchTasksInPlace (board : Board) (branches : List String) (currentBranch : String) :
    Bool :=
  branches.all (fun branch =>
    match (existingBranchTasks board).lookup branch with
    | some task =>
      taskColumnName board task == some (targetColumnFor (decide (branch = currentBranch))) ||
        taskColumnName board task == some "Done"
    | none => false) &&
  (existingBranchTasks board).all (fun entry =>
    decide (entry.1 ∈ branches) || taskColumnName board entry.2 == some "Done")

/-! ## Sample data -/

/-- A task due at instant 0. -/
def dueAtZero : Task :=
  { id := ⟨"ABC", 1, "report"⟩, title := "report", description := "", priority := PriorityMedium,
    status := StatusTodo, tags := [], metadata := [], createdAt := -1000, modifiedAt := -1000,
    dueDate := some 0 }

/-- A task of low priority, `ABC-001-report`. -/
def reportTask : Task :=
  { id := ⟨"ABC", 1, "report"⟩, title := "report", description := "", priority := PriorityLow,
    status := StatusTodo, tags := [], metadata := [], createdAt := 0, modifiedAt := 0,
    dueDate := none }

/-- A column `todo` holding `reportTask`. -/
def todoColumn : Column :=
  { name := "todo", displayName := "To Do", description := "", order := 0, wipLimit := 0,
    tasks := [reportTask] }

/-- A board `b1` with the column `todoColumn`. -/
def sampleBoard : Board :=
  { id := "b1", projectID := "", name := "Sample", pfx := "ABC", description := "",
    columns := [todoColumn], nextTaskNum := 2 }

/-- An enabled global action on `task.created`, for tasks of high priority only. -/
def highPriorityAction : Action Unit :=
  { id := "a1", name := "notify", description := "", scope := ActionScopeGlobal, scopeID := "",
    enabled := true, trigger := .event ⟨EventTaskCreated⟩,
    actionType := { Typ := "notification", Execute := fun _ w => (.ret none, w), Validate := none },
    conditions := some ⟨[⟨"priority", OperatorEquals, .str "high"⟩], LogicalAnd⟩,
    createdAt := 0, modifiedAt := 0, lastRun := none }

/-- A use case whose repositories hold `highPriorityAction` and `sampleBoard`. -/
def sampleUseCase : EvaluateActionsUseCase Unit :=
  { actionRepo := { ListEnabled := .ok [highPriorityAction],
                    UpdateLastRun := fun _ w => (none, w) },
    boardRepo := { FindByID := fun id => if id = "b1" then (some sampleBoard, none)
                                        else (none, some ⟨"board not found"⟩) } }

/-- The evaluation context of a `task.created` event for `ABC-001-report` on `b1`. -/
def sampleEvalCtx : EvaluationContext :=
  { BoardID := "b1", ColumnID := "todo", TaskID := "ABC-001-report",
    Event := some { ID := "e1", Typ := EventTaskCreated, Timestamp := 5, BoardID := "b1",
                    ColumnID := "todo", TaskID := some ⟨"ABC", 1, "report"⟩, Metadata := [] },
    CurrentTime := 5 }

/-- A condition that holds for tasks of high priority. -/
def isHighPriority : Condition := ⟨"priority", OperatorEquals, .str "high"⟩

/-- A condition with the operator `not_contains` on the tags. -/
def lacksUrgentTag : Condition := ⟨"tags", OperatorNotContains, .str "urgent"⟩

/-- A variant that counts its executions in the state and succeeds. -/
def countingVariant : ActionType Nat :=
  { Typ := "script", Execute := fun _ n => (.ret none, n + 1), Validate := none }

/-- An action on `task.created` with the counting variant and a condition group. -/
def countingAction (enabled : Bool) (scope : ActionScope) (scopeID : String) : Action Nat :=
  { id := "a2", name := "count", description := "", scope := scope, scopeID := scopeID,
    enabled := enabled, trigger := .event ⟨EventTaskCreated⟩, actionType := countingVariant,
    conditions := some ⟨[lacksUrgentTag], LogicalAnd⟩,
    createdAt := 0, modifiedAt := 0, lastRun := some 3 }

/-- An action context without task, board or collaborators. -/
def emptyActionContext : ActionContext Nat :=
  { Task := none, Column := none, Board := none, Event := none, Notifier := none,
    ScriptRunner := none, TaskMutator := none }

/-- A trigger context of a `task.created` event that carries no task. -/
def createdEventContext : TriggerContext :=
  { CurrentTime := 5, Task := none, Column := none, Board := none,
    Event := some { ID := "e1", Typ := EventTaskCreated, Timestamp := 5, BoardID := "b1",
                    ColumnID := "todo", TaskID := none, Metadata := [] },
    LastRun := some 3 }

/-- A task creation action with the title `Weekly Review` for the column `todo`. -/
def weeklyReview : TaskCreationAction := NewTaskCreationAction "Weekly Review" "" "todo"

/-- A task mutator that counts its calls in the state and succeeds. -/
def countingMutator : TaskMutator Nat :=
  { UpdateTask := fun _ _ n => (none, n + 1),
    MoveTask := fun _ _ _ n => (none, n + 1),
    CreateTask := fun _ _ _ n => (none, n + 1) }

/-- An action context with `sampleBoard` and the counting mutator. -/
def creationContext : ActionContext Nat :=
  { Task := none, Column := none, Board := some sampleBoard, Event := none, Notifier := none,
    ScriptRunner := none, TaskMutator := some countingMutator }

/-- A notifier that counts its calls in the state and succeeds. -/
def countingNotifier : Notifier Nat :=
  { SendNotification := fun _ _ _ n => (none, n + 1) }

/-- An enabled global notification action on `task.created` without conditions, last
run at instant 3. -/
def taskCreatedNotification : Action Nat :=
  { id := "a3", name := "announce", description := "", scope := ActionScopeGlobal,
    scopeID := "", enabled := true, trigger := .event ⟨EventTaskCreated⟩,
    actionType := (NotificationAction.mk "New task" "A task was created" []).asActionType,
    conditions := none, createdAt := 0, modifiedAt := 0, lastRun := some 3 }

/-- The use cases wired over a repository holding `taskCreatedNotification`, with the
counting notifier. -/
def notifyingUseCase : ProcessEventUseCase Nat :=
  { evaluateUseCase :=
      { actionRepo := { ListEnabled := .ok [taskCreatedNotification],
                        UpdateLastRun := fun _ w => (none, w) },
        boardRepo := { FindByID := fun _ => (none, some ⟨"board not found"⟩) } },
    executeUseCase :=
      { actionRepo := { ListEnabled := .ok [taskCreatedNotification],
                        UpdateLastRun := fun _ w => (none, w) },
        notifier := some countingNotifier, scriptRunner := none, taskMutator := none },
    actionRepo := { ListEnabled := .ok [taskCreatedNotification],
                    UpdateLastRun := fun _ w => (none, w) } }

/-- A `task.created` event for the task `ABC-001-report` on board `b1`. -/
def taskCreatedEvent : DomainEvent :=
  { ID := "e1", Typ := EventTaskCreated, Timestamp := 5, BoardID := "b1", ColumnID := "todo",
    TaskID := some ⟨"ABC", 1, "report"⟩, Metadata := [] }

/-- A notification of type `task_updated` for board `b1`, numbered in its data. -/
def updateNote (i : Int) : Notification := ⟨"task_updated", "b1", .int i⟩

/-- A registry where connection 1 has a full channel (ten queued notifications) and
connection 2 an empty one, both subscribed to board `b1`. -/
def fullAndEmpty : Subscribers :=
  { chans := [⟨10, [updateNote 0, updateNote 1, updateNote 2, updateNote 3, updateNote 4,
                    updateNote 5, updateNote 6, updateNote 7, updateNote 8, updateNote 9],
                false⟩,
              ⟨10, [], false⟩],
    subscribers := [("b1", [(1, 0), (2, 1)])] }

/-- A project `p1` worked on in `/work/p1`. -/
def projectOne : Project := { id := "p1", name := "One", workingDir := "/work/p1" }

/-- A running time log of project `p1` with the given ID and source, started at 0. -/
def runningLog (id : String) (source : TimeLogSource) : TimeLog :=
  { id := id, projectID := "p1", taskID := none, source := source, startTime := 0,
    endTime := none, duration := 0, description := "", metadata := [], createdAt := 0,
    modifiedAt := 0 }

/-- A manager after a poll started an auto timer for `p1` and the user then started a
manual timer for `p1`: both maps hold the key `p1`. -/
def bothTimers : TimeTrackingManager :=
  { autoTrack := true,
    activeTimers := [("p1", runningLog "manual-1" TimeLogSourceTimer)],
    autoTimers := [("p1", runningLog "auto-1" TimeLogSourceTmux)],
    currentProject := some projectOne, currentTaskID := none }

/-- A manager with a manual timer for `p1` and no auto timer, before the first poll. -/
def manualOnly : TimeTrackingManager :=
  { autoTrack := true,
    activeTimers := [("p1", runningLog "manual-1" TimeLogSourceTimer)],
    autoTimers := [], currentProject := none, currentTaskID := none }

/-- A session in the working directory of `p1`. -/
def sessionOne : Session := { name := "main", workingDir := "/work/p1", sessionType := "tmux" }

/-- A time log repository that keeps the saved logs in a list. -/
def saveToList (log : TimeLog) (saved : List TimeLog) : Option Error × List TimeLog :=
  (none, saved ++ [log])

/-- A repository with three branches, the current one matching the task pattern. -/
def gitProvider : VCSProvider :=
  { GetRepositoryRoot := fun _ => .ok "/repo"
    GetCurrentBranch := fun _ => .ok "FOR-002-simple-title"
    ListBranches := fun _ => .ok ["main", "FOR-002-simple-title", "feature/x"] }

/-- A task that stands for a branch. -/
def gitTask (pfx : String) (n : Int) (slug branch : String) (p : Nat) : Task :=
  { id := ⟨pfx, n, slug⟩, title := slug, description := "", priority := PriorityNone,
    status := StatusTodo, tags := [], metadata := [("git_branch", branch)], createdAt := 0,
    modifiedAt := 0, dueDate := none, ptr := p }

/-- A board without limits: the task of a deleted branch in `To Do`, the task of `main`
in `In Progress`. -/
def gitBoard : Board :=
  { id := "b1", projectID := "", name := "repo", pfx := "FOR", description := "",
    columns := [
      { name := "To Do", displayName := "To Do", description := "", order := 0, wipLimit := 0,
        tasks := [gitTask "FOR" 1 "old" "old-branch" 1] },
      { name := "In Progress", displayName := "In Progress", description := "", order := 1,
        wipLimit := 0, tasks := [gitTask "FOR" 2 "main" "main" 2] },
      { name := "Done", displayName := "Done", description := "", order := 2, wipLimit := 0,
        tasks := [] }],
    nextTaskNum := 3 }

/-- A repository with two branches, the current one new. -/
def wipProvider : VCSProvider :=
  { GetRepositoryRoot := fun _ => .ok "/repo"
    GetCurrentBranch := fun _ => .ok "feature-b"
    ListBranches := fun _ => .ok ["feature-b", "feature-a"] }

/-- A task without a branch. -/
def plainTask (n : Int) (slug : String) (p : Nat) : Task :=
  { id := ⟨"FOR", n, slug⟩, title := slug, description := "", priority := PriorityNone,
    status := StatusTodo, tags := [], metadata := [], createdAt := 0, modifiedAt := 0,
    dueDate := none, ptr := p }

/-- The default columns, `In Progress` with limit 3 and full. -/
def wipBoard : Board :=
  { id := "b1", projectID := "", name := "repo", pfx := "FOR", description := "",
    columns := [
      { name := "To Do", displayName := "To Do", description := "", order := 0, wipLimit := 0,
        tasks := [] },
      { name := "In Progress", displayName := "In Progress", description := "", order := 1,
        wipLimit := 3,
        tasks := [gitTask "FOR" 1 "feature-a" "feature-a" 1, plainTask 2 "docs" 2,
          plainTask 3 "tests" 3] },
      { name := "Done", displayName := "Done", description := "", order := 2, wipLimit := 0,
        tasks := [] }],
    nextTaskNum := 4 }

/-- The names of the columns with the IDs of their tasks. -/
def Board.layout (b : Board) : List (String × List String) :=
  b.columns.map (fun c => (c.name, c.tasks.map (fun t => t.id.String)))

/-- A new manager with auto tracking on, after a poll that finds the session of `p1`
(at time 10) and a call `StartTimer("p1", nil, "")` (at time 20). -/
def pollThenStart : TimeTrackingManager × List TimeLog :=
  let polled := (NewTimeTrackingManager true).syncAutoTracking saveToList
    (some sessionOne, none) (fun _ => (some projectOne, none)) "auto-1" 10 []
  let started := polled.1.StartTimer saveToList "p1" none "" "manual-1" 20 polled.2
  (started.2.1, started.2.2)

/-- A task with the ID `ABC-n-slug`. -/
def cardTask (n : Int) (slug : String) (p : Nat) : Task :=
  { id := ⟨"ABC", n, slug⟩, title := slug, description := "", priority := PriorityNone,
    status := StatusTodo, tags := [], metadata := [], createdAt := 0, modifiedAt := 0,
    dueDate := none, ptr := p }

/-- The calls that fill an unlimited column with three tasks and then set limit 2. -/
def fillThenLimit : List ColumnCall :=
  [.addTask (some (cardTask 1 "a" 1)), .addTask (some (cardTask 2 "b" 2)),
   .addTask (some (cardTask 3 "c" 3)), .updateWIPLimit 2]

/-- The calls that set limit 2, add three tasks, remove one and add one again. -/
def limitThenFill : List ColumnCall :=
  [.updateWIPLimit 2, .addTask (some (cardTask 1 "a" 1)), .addTask (some (cardTask 2 "b" 2)),
   .addTask (some (cardTask 3 "c" 3)), .removeTask (some ⟨"ABC", 1, "a"⟩),
   .addTask (some (cardTask 3 "c" 3))]

/-- An empty column `doing` without limit. -/
def doingColumn : Column :=
  { name := "doing", displayName := "doing", description := "", order := 1, wipLimit := 0,
    tasks := [] }

/-- A board where the column `done` already holds a task with the ID of the first
task of `todo`. -/
def twinBoard : Board :=
  { id := "b1", projectID := "", name := "Twin", pfx := "ABC", description := "",
    columns := [
      { name := "todo", displayName := "todo", description := "", order := 0, wipLimit := 0,
        tasks := [cardTask 1 "a" 1, cardTask 2 "b" 2] },
      { name := "done", displayName := "done", description := "", order := 1, wipLimit := 0,
        tasks := [cardTask 1 "a" 3] }],
    nextTaskNum := 3 }

/-- A description with two linked checkboxes in the column `to-do`, the first open and
the second done. -/
def todoLinks : String :=
  "- [ ] [A](../../to-do/FOR-002-a/task.md)\n- [x] [B](../../to-do/FOR-003-b/task.md)"

/-- A description with two linked checkboxes, the ID of the first being the start of
the ID of the second. -/
def fixLinks : String :=
  "- [ ] [Fix](../../to-do/FOR-001-fix/task.md)\n" ++
  "- [ ] [Fix tests](../../to-do/FOR-001-fix-tests/task.md)"

/-- A repository with the branches `main` (current) and `FOR-001-a`. -/
def twinProvider : VCSProvider :=
  { GetRepositoryRoot := fun _ => .ok "/repo"
    GetCurrentBranch := fun _ => .ok "main"
    ListBranches := fun _ => .ok ["main", "FOR-001-a"] }

/-- A board without limits whose only task, in `In Progress`, has the ID `FOR-001-a` and
stands for a branch that is gone. -/
def goneBoard : Board :=
  { id := "b1", projectID := "", name := "repo", pfx := "FOR", description := "",
    columns := [
      { name := "To Do", displayName := "To Do", description := "", order := 0, wipLimit := 0,
        tasks := [] },
      { name := "In Progress", displayName := "In Progress", description := "", order := 1,
        wipLimit := 0, tasks := [gitTask "FOR" 1 "a" "old-branch" 1] },
      { name := "Done", displayName := "Done", description := "", order := 2, wipLimit := 0,
        tasks := [] }],
    nextTaskNum := 2 }

/-! ## Theorems: triggers -/

section Triggers

/-- The fire / already-seen rule shared by the three time schedules, against the
instant `T`. -/
theorem fire_rule_iff (cur T : Time) (lastRun : Option Time) :
    (if Time.After cur T || Time.Equal cur T then
      match lastRun with
      | some lr => if Time.After lr T then false else true
      | none => true
    else false) = true ↔ T ≤ cur ∧ ∀ lr, lastRun = some lr → lr ≤ T := by
  unfold Time.After Time.Equal
  by_cases h : T ≤ cur
  · have hc : (decide (T < cur) || decide (cur = T)) = true := by
      rcases lt_or_eq_of_le h with h1 | h1
      · simp [h1]
      · simp [h1]
    rw [if_pos hc]
    cases lastRun with
    | none => simp [h]
    | some lr =>
      by_cases h2 : T < lr
      · simp [h, h2]
      · simp [h, h2, not_lt.mp h2]
  · have hc : ¬ ((decide (T < cur) || decide (cur = T)) = true) := by
      have h1 : ¬ T < cur := fun h1 => h (le_of_lt h1)
      have h2 : ¬ cur = T := fun h2 => h (le_of_eq h2.symm)
      simp [h1, h2]
    rw [if_neg hc]
    simp [h]

/-- Two's complement negation is exact away from the minimum `int64`. -/
theorem wrapInt64_neg (x : Int) (hlo : -2 ^ 63 < x) (hhi : x ≤ 2 ^ 63 - 1) :
    wrapInt64 (-x) = -x := by
  unfold wrapInt64
  omega

/-- Unary minus on a duration is exact except at the minimum duration. -/
theorem Duration.neg_eq (d : Duration) (hlo : minDuration < d) (hhi : d ≤ maxDuration) :
    Duration.neg d = -d := wrapInt64_neg d hlo hhi

/-- A time trigger with an absolute schedule is decided by `evaluateAbsolute`. -/
theorem ShouldTrigger_absolute (t : TimeTrigger) (ctx : TriggerContext)
    (hty : t.schedule.Typ = ScheduleTypeAbsolute) :
    (Trigger.time t).ShouldTrigger ctx = t.evaluateAbsolute ctx := by
  simp [Trigger.ShouldTrigger, TimeTrigger.ShouldTrigger, hty]

/-- A time trigger relative to the due date is decided by `evaluateRelativeDueDate`. -/
theorem ShouldTrigger_relativeDueDate (t : TimeTrigger) (ctx : TriggerContext)
    (hty : t.schedule.Typ = ScheduleTypeRelativeDueDate) :
    (Trigger.time t).ShouldTrigger ctx = t.evaluateRelativeDueDate ctx := by
  have h1 : ¬ ScheduleTypeRelativeDueDate = ScheduleTypeAbsolute := by decide
  simp [Trigger.ShouldTrigger, TimeTrigger.ShouldTrigger, hty, h1]

/-- A time trigger relative to creation is decided by `evaluateRelativeCreation`. -/
theorem ShouldTrigger_relativeCreation (t : TimeTrigger) (ctx : TriggerContext)
    (hty : t.schedule.Typ = ScheduleTypeRelativeCreation) :
    (Trigger.time t).ShouldTrigger ctx = t.evaluateRelativeCreation ctx := by
  have h1 : ¬ ScheduleTypeRelativeCreation = ScheduleTypeAbsolute := by decide
  have h2 : ¬ ScheduleTypeRelativeCreation = ScheduleTypeRelativeDueDate := by decide
  simp [Trigger.ShouldTrigger, TimeTrigger.ShouldTrigger, hty, h1, h2]

/-- C2. An absolute time trigger with instant `T` fires if and only if the current time
has reached `T` and the last run is absent or not later than `T`. -/
theorem C2_absolute_fires_iff (t : TimeTrigger) (T : Time) (ctx : TriggerContext)
    (hty : t.schedule.Typ = ScheduleTypeAbsolute) (hT : t.schedule.Time = some T) :
    (Trigger.time t).ShouldTrigger ctx = true ↔
      T ≤ ctx.CurrentTime ∧ (ctx.LastRun = none ∨ ∃ lr, ctx.LastRun = some lr ∧ lr ≤ T) := by
  rw [ShouldTrigger_absolute t ctx hty]
  unfold TimeTrigger.evaluateAbsolute
  rw [hT]
  have h := fire_rule_iff ctx.CurrentTime T ctx.LastRun
  simp only at h ⊢
  rw [h]
  cases hl : ctx.LastRun with
  | none => simp
  | some lr => simp

/-- C2, at an instance: the trigger scheduled for instant 100, asked at 150 after a run
at 90. -/
theorem C2_absolute_fires_iff_witness :
    (Trigger.time ⟨NewAbsoluteSchedule 100⟩).ShouldTrigger
        { CurrentTime := 150, Task := none, Column := none, Board := none, Event := none,
          LastRun := some 90 } = true ↔
      (100 : Time) ≤ 150 ∧ ((some 90 : Option Time) = none ∨
        ∃ lr, (some 90 : Option Time) = some lr ∧ lr ≤ 100) :=
  C2_absolute_fires_iff ⟨NewAbsoluteSchedule 100⟩ 100 _ rfl rfl

/-- C3, as stated, fails: with the last run exactly at the scheduled instant the
trigger still fires. -/
theorem C3_counterexample :
    (Trigger.time ⟨NewAbsoluteSchedule 100⟩).ShouldTrigger
        { CurrentTime := 100, Task := none, Column := none, Board := none, Event := none,
          LastRun := some 100 } = true := by
  decide

/-- C3, amended. An absolute time trigger with instant `T` does not fire while the
current time is before `T`, fires at `T` when there is no last run, and does not fire
once the last run is strictly later than `T`, whatever the current time. -/
theorem C3_absolute_cases (t : TimeTrigger) (T : Time) (ctx : TriggerContext)
    (hty : t.schedule.Typ = ScheduleTypeAbsolute) (hT : t.schedule.Time = some T) :
    (ctx.CurrentTime < T → (Trigger.time t).ShouldTrigger ctx = false) ∧
    (ctx.CurrentTime = T → ctx.LastRun = none → (Trigger.time t).ShouldTrigger ctx = true) ∧
    (∀ lr, ctx.LastRun = some lr → T < lr → (Trigger.time t).ShouldTrigger ctx = false) := by
  have h := C2_absolute_fires_iff t T ctx hty hT
  refine ⟨?_, ?_, ?_⟩
  · intro hlt
    rw [← Bool.not_eq_true, h]
    intro hh
    exact absurd hh.1 (not_le.mpr hlt)
  · intro hc hl
    rw [h]
    exact ⟨le_of_eq hc.symm, Or.inl hl⟩
  · intro lr hl hlt
    rw [← Bool.not_eq_true, h]
    rintro ⟨_, hh | ⟨lr1, h1, h2⟩⟩
    · rw [hl] at hh
      cases hh
    · rw [hl] at h1
      cases h1
      exact absurd h2 (not_le.mpr hlt)

/-- C3 amended, at an instance: the trigger scheduled for instant 100, asked at 100
with no last run. -/
theorem C3_absolute_cases_witness :
    (Trigger.time ⟨NewAbsoluteSchedule 100⟩).ShouldTrigger
        { CurrentTime := 100, Task := none, Column := none, Board := none, Event := none,
          LastRun := none } = true :=
  (C3_absolute_cases ⟨NewAbsoluteSchedule 100⟩ 100
    { CurrentTime := 100, Task := none, Column := none, Board := none, Event := none,
      LastRun := none } rfl rfl).2.1 rfl rfl

/-- A trigger relative to the due date, with an offset `d` other than the minimum
duration, fires if and only if the context has a task with a due date `D`, the current
time has reached `D - d`, and the last run is absent or not later than `D - d`. -/
theorem relativeDueDate_fires_iff (t : TimeTrigger) (d : Duration) (ctx : TriggerContext)
    (hty : t.schedule.Typ = ScheduleTypeRelativeDueDate) (hoff : t.schedule.Offset = some d)
    (hlo : minDuration < d) (hhi : d ≤ maxDuration) :
    (Trigger.time t).ShouldTrigger ctx = true ↔
      ∃ task D, ctx.Task = some task ∧ task.DueDate = some D ∧ D - d ≤ ctx.CurrentTime ∧
        (ctx.LastRun = none ∨ ∃ lr, ctx.LastRun = some lr ∧ lr ≤ D - d) := by
  rw [ShouldTrigger_relativeDueDate t ctx hty]
  unfold TimeTrigger.evaluateRelativeDueDate
  rw [hoff]
  cases hk : ctx.Task with
  | none => simp
  | some task =>
    cases hD : task.DueDate with
    | none => simp [hD]
    | some D =>
      have h := fire_rule_iff ctx.CurrentTime (Time.Add D (Duration.neg d)) ctx.LastRun
      have hadd : Time.Add D (Duration.neg d) = D - d := by
        rw [Duration.neg_eq d hlo hhi]
        exact (sub_eq_add_neg D d).symm
      simp only [hD] at h ⊢
      rw [h, hadd]
      cases hl : ctx.LastRun with
      | none => simp [hD]
      | some lr => simp [hD]

/-- A trigger relative to creation with offset `d` fires if and only if the context has
a task created at `C`, the current time has reached `C + d`, and the last run is absent
or not later than `C + d`. -/
theorem relativeCreation_fires_iff (t : TimeTrigger) (d : Duration) (ctx : TriggerContext)
    (hty : t.schedule.Typ = ScheduleTypeRelativeCreation) (hoff : t.schedule.Offset = some d) :
    (Trigger.time t).ShouldTrigger ctx = true ↔
      ∃ task, ctx.Task = some task ∧ task.CreatedAt + d ≤ ctx.CurrentTime ∧
        (ctx.LastRun = none ∨ ∃ lr, ctx.LastRun = some lr ∧ lr ≤ task.CreatedAt + d) := by
  rw [ShouldTrigger_relativeCreation t ctx hty]
  unfold TimeTrigger.evaluateRelativeCreation
  rw [hoff]
  cases hk : ctx.Task with
  | none => simp
  | some task =>
    have h := fire_rule_iff ctx.CurrentTime (Time.Add task.CreatedAt d) ctx.LastRun
    have hadd : Time.Add task.CreatedAt d = task.CreatedAt + d := rfl
    simp only at h ⊢
    rw [h, hadd]
    cases hl : ctx.LastRun with
    | none => simp
    | some lr => simp

/-- C4, on the program: with the minimum duration as offset the due-date trigger fires
at the due date itself, although the instant `D - d` lies `2 ^ 63` nanoseconds after
it: negating the offset overflows. -/
theorem C4_dueDate_minOffset_fires :
    (Trigger.time ⟨NewRelativeDueDateSchedule minDuration⟩).ShouldTrigger
        { CurrentTime := 0, Task := some dueAtZero, Column := none, Board := none,
          Event := none, LastRun := none } = true ∧
      ¬ ((0 : Time) - minDuration ≤ 0) := by
  decide

end Triggers

/-! ## Theorems: actions -/

section Actions

/-- C1. `ShouldExecute` returns true exactly when the action is enabled, its trigger
fires, and the action has no condition group, or the context has no task, or the group
evaluates true on the task and column of the context. It returns false exactly when one
of the three fails, and with no task in the context the group is not consulted. -/
theorem C1_ShouldExecute_iff {σ : Type} (a : Action σ) (ctx : TriggerContext) (now : Time) (fuel : Nat) :
    (a.ShouldExecute ctx now fuel = .ret true ↔
      a.enabled = true ∧ a.trigger.ShouldTrigger ctx = true ∧
        (a.conditions = none ∨ ctx.Task = none ∨
          ∃ g task, a.conditions = some g ∧ ctx.Task = some task ∧
            g.Evaluate task ctx.Column now fuel = .ret true)) ∧
    (a.ShouldExecute ctx now fuel = .ret false ↔
      a.enabled = false ∨ a.trigger.ShouldTrigger ctx = false ∨
        ∃ g task, a.conditions = some g ∧ ctx.Task = some task ∧
          g.Evaluate task ctx.Column now fuel = .ret false) ∧
    (ctx.Task = none →
      a.ShouldExecute ctx now fuel = .ret (a.enabled && a.trigger.ShouldTrigger ctx)) := by
  unfold Action.ShouldExecute
  cases he : a.enabled with
  | false => simp
  | true =>
    cases ht : a.trigger.ShouldTrigger ctx with
    | false => simp
    | true =>
      cases hc : a.conditions with
      | none => simp
      | some g =>
        cases hk : ctx.Task with
        | none => simp
        | some task =>
          cases hr : g.Evaluate task ctx.Column now fuel with
          | ret b => cases b <;> simp [hr]
          | panic => simp [hr]
          | timeout => simp [hr]

/-- C1, at an instance: an enabled action whose trigger fires, asked in a context
without a task, should execute although its condition group would never return. -/
theorem C1_ShouldExecute_iff_witness :
    (countingAction true ActionScopeGlobal "").ShouldExecute createdEventContext 5 10
      = .ret true :=
  (C1_ShouldExecute_iff (countingAction true ActionScopeGlobal "") createdEventContext 5 10).2.2
    rfl

/-- C8. A global action matches every scope context; a board, column or task action
matches exactly when its scope ID equals the board, column or task ID. -/
theorem C8_MatchesScope {σ : Type} (a : Action σ) (boardID columnID taskID : String) :
    (a.scope = ActionScopeGlobal → a.MatchesScope boardID columnID taskID = true) ∧
    (a.scope = ActionScopeBoard →
      (a.MatchesScope boardID columnID taskID = true ↔ a.scopeID = boardID)) ∧
    (a.scope = ActionScopeColumn →
      (a.MatchesScope boardID columnID taskID = true ↔ a.scopeID = columnID)) ∧
    (a.scope = ActionScopeTask →
      (a.MatchesScope boardID columnID taskID = true ↔ a.scopeID = taskID)) := by
  refine ⟨?_, ?_, ?_, ?_⟩ <;> intro h <;> unfold Action.MatchesScope <;> rw [h] <;>
    simp [ActionScopeGlobal, ActionScopeBoard, ActionScopeColumn, ActionScopeTask]

/-- C8, at an instance: a board action with scope ID `b1` matches the board `b1`. -/
theorem C8_MatchesScope_witness :
    (countingAction true ActionScopeBoard "b1").MatchesScope "b1" "todo" "ABC-001-report"
      = true :=
  ((C8_MatchesScope (countingAction true ActionScopeBoard "b1") "b1" "todo"
    "ABC-001-report").2.1 rfl).mpr rfl

/-- C10. A disabled action returns `ErrActionDisabled` and leaves the action and the
state as they were, whatever its variant would do; when the variant returns an error
the action returns that error with its last run unchanged; when the variant succeeds
the action returns nil and its last run is the time of the execution. -/
theorem C10_Execute {σ : Type} (a : Action σ) (actCtx : ActionContext σ) (now : Time) (w : σ) :
    (a.enabled = false →
      a.Execute actCtx now w = (.ret (some ErrActionDisabled), a, w)) ∧
    (∀ err w1, a.enabled = true → a.actionType.Execute actCtx w = (.ret (some err), w1) →
      a.Execute actCtx now w = (.ret (some err), a, w1)) ∧
    (∀ w1, a.enabled = true → a.actionType.Execute actCtx w = (.ret none, w1) →
      a.Execute actCtx now w = (.ret none, a.MarkAsRun now, w1) ∧
        (a.Execute actCtx now w).2.1.lastRun = some now) := by
  refine ⟨?_, ?_, ?_⟩
  · intro he
    simp [Action.Execute, he]
  · intro err w1 he hv
    simp [Action.Execute, he, hv]
  · intro w1 he hv
    simp [Action.Execute, he, hv, Action.MarkAsRun]

/-- C10, at an instance: the enabled counting action runs its variant once and is
stamped with the execution time 9; the disabled one leaves the counter alone. -/
theorem C10_Execute_witness :
    ((countingAction true ActionScopeGlobal "").Execute emptyActionContext 9 0).1 = .ret none ∧
    ((countingAction true ActionScopeGlobal "").Execute emptyActionContext 9 0).2.1.lastRun
      = some 9 ∧
    ((countingAction false ActionScopeGlobal "").Execute emptyActionContext 9 0).2.2 = 0 :=
  ⟨congrArg Prod.fst
      ((C10_Execute (countingAction true ActionScopeGlobal "") emptyActionContext 9 0).2.2
        1 rfl rfl).1,
    ((C10_Execute (countingAction true ActionScopeGlobal "") emptyActionContext 9 0).2.2
        1 rfl rfl).2,
    congrArg (fun r => r.2.2)
      ((C10_Execute (countingAction false ActionScopeGlobal "") emptyActionContext 9 0).1 rfl)⟩

end Actions

/-! ## Theorems: conditions -/

section Conditions

/-- The AND loop returns the conjunction when every condition returns. -/
theorem andLoop_all (task : Task) (column : Option Column) (now : Time) (fuel : Nat)
    (r : Condition → Bool) (conds : List Condition)
    (h : ∀ c ∈ conds, c.Evaluate task column now fuel = .ret (r c)) :
    ConditionGroup.Evaluate.andLoop task column now fuel conds = .ret (conds.all r) := by
  induction conds with
  | nil => rfl
  | cons c rest ih =>
    have hc := h c (List.mem_cons_self c rest)
    have hrest := ih (fun x hx => h x (List.mem_cons_of_mem c hx))
    unfold ConditionGroup.Evaluate.andLoop
    rw [hc]
    cases hb : r c with
    | false => simp [hb]
    | true => simp [hrest, hb]

/-- The AND loop stops with false at the first false condition. -/
theorem andLoop_first_false (task : Task) (column : Option Column) (now : Time) (fuel : Nat)
    (pre : List Condition) (c : Condition) (post : List Condition)
    (hpre : ∀ p ∈ pre, p.Evaluate task column now fuel = .ret true)
    (hc : c.Evaluate task column now fuel = .ret false) :
    ConditionGroup.Evaluate.andLoop task column now fuel (pre ++ c :: post) = .ret false := by
  induction pre with
  | nil =>
    simp only [List.nil_append]
    unfold ConditionGroup.Evaluate.andLoop
    rw [hc]
  | cons p rest ih =>
    have hp := hpre p (List.mem_cons_self p rest)
    have hrest := ih (fun x hx => hpre x (List.mem_cons_of_mem p hx))
    simp only [List.cons_append]
    unfold ConditionGroup.Evaluate.andLoop
    rw [hp]
    exact hrest

/-- The OR loop returns the disjunction when every condition returns. -/
theorem orLoop_any (task : Task) (column : Option Column) (now : Time) (fuel : Nat)
    (r : Condition → Bool) (conds : List Condition)
    (h : ∀ c ∈ conds, c.Evaluate task column now fuel = .ret (r c)) :
    ConditionGroup.Evaluate.orLoop task column now fuel conds = .ret (conds.any r) := by
  induction conds with
  | nil => rfl
  | cons c rest ih =>
    have hc := h c (List.mem_cons_self c rest)
    have hrest := ih (fun x hx => h x (List.mem_cons_of_mem c hx))
    unfold ConditionGroup.Evaluate.orLoop
    rw [hc]
    cases hb : r c with
    | false => simp [hrest, hb]
    | true => simp [hb]

/-- The OR loop stops with true at the first true condition. -/
theorem orLoop_first_true (task : Task) (column : Option Column) (now : Time) (fuel : Nat)
    (pre : List Condition) (c : Condition) (post : List Condition)
    (hpre : ∀ p ∈ pre, p.Evaluate task column now fuel = .ret false)
    (hc : c.Evaluate task column now fuel = .ret true) :
    ConditionGroup.Evaluate.orLoop task column now fuel (pre ++ c :: post) = .ret true := by
  induction pre with
  | nil =>
    simp only [List.nil_append]
    unfold ConditionGroup.Evaluate.orLoop
    rw [hc]
  | cons p rest ih =>
    have hp := hpre p (List.mem_cons_self p rest)
    have hrest := ih (fun x hx => hpre x (List.mem_cons_of_mem p hx))
    simp only [List.cons_append]
    unfold ConditionGroup.Evaluate.orLoop
    rw [hp]
    exact hrest

/-- With AND as operator, `Evaluate` is the AND loop (also on the empty list). -/
theorem Evaluate_and (cg : ConditionGroup) (task : Task) (column : Option Column)
    (now : Time) (fuel : Nat) (hop : cg.Operator = LogicalAnd) :
    cg.Evaluate task column now fuel =
      ConditionGroup.Evaluate.andLoop task column now fuel cg.Conditions := by
  unfold ConditionGroup.Evaluate
  cases hl : cg.Conditions with
  | nil => simp [ConditionGroup.Evaluate.andLoop]
  | cons c rest => simp [hop]

/-- With OR as operator and a condition in the group, `Evaluate` is the OR loop. -/
theorem Evaluate_or (cg : ConditionGroup) (task : Task) (column : Option Column)
    (now : Time) (fuel : Nat) (hop : cg.Operator = LogicalOr) (hne : cg.Conditions ≠ []) :
    cg.Evaluate task column now fuel =
      ConditionGroup.Evaluate.orLoop task column now fuel cg.Conditions := by
  unfold ConditionGroup.Evaluate
  have h1 : ¬ LogicalOr = LogicalAnd := by decide
  cases hl : cg.Conditions with
  | nil => exact absurd hl hne
  | cons c rest => simp [hop, h1]

/-- C5. A group without conditions evaluates to true under every operator. Under AND a
group whose conditions all return evaluates to their conjunction, and the result is
false as soon as a condition is false after true ones, whatever the later conditions
are. Under OR a non-empty group whose conditions all return evaluates to their
disjunction, and the result is true as soon as a condition is true after false ones,
whatever the later conditions are. -/
theorem C5_ConditionGroup_Evaluate (cg : ConditionGroup) (task : Task)
    (column : Option Column) (now : Time) (fuel : Nat) :
    (cg.Conditions = [] → cg.Evaluate task column now fuel = .ret true) ∧
    (cg.Operator = LogicalAnd →
      (∀ r : Condition → Bool,
        (∀ c ∈ cg.Conditions, c.Evaluate task column now fuel = .ret (r c)) →
          cg.Evaluate task column now fuel = .ret (cg.Conditions.all r)) ∧
      (∀ pre c post, cg.Conditions = pre ++ c :: post →
        (∀ p ∈ pre, p.Evaluate task column now fuel = .ret true) →
        c.Evaluate task column now fuel = .ret false →
          cg.Evaluate task column now fuel = .ret false)) ∧
    (cg.Operator = LogicalOr → cg.Conditions ≠ [] →
      (∀ r : Condition → Bool,
        (∀ c ∈ cg.Conditions, c.Evaluate task column now fuel = .ret (r c)) →
          cg.Evaluate task column now fuel = .ret (cg.Conditions.any r)) ∧
      (∀ pre c post, cg.Conditions = pre ++ c :: post →
        (∀ p ∈ pre, p.Evaluate task column now fuel = .ret false) →
        c.Evaluate task column now fuel = .ret true →
          cg.Evaluate task column now fuel = .ret true)) := by
  refine ⟨?_, ?_, ?_⟩
  · intro h
    simp [ConditionGroup.Evaluate, h]
  · intro hop
    rw [Evaluate_and cg task column now fuel hop]
    refine ⟨fun r h => andLoop_all task column now fuel r _ h, ?_⟩
    intro pre c post hsplit hpre hc
    rw [hsplit]
    exact andLoop_first_false task column now fuel pre c post hpre hc
  · intro hop hne
    rw [Evaluate_or cg task column now fuel hop hne]
    refine ⟨fun r h => orLoop_any task column now fuel r _ h, ?_⟩
    intro pre c post hsplit hpre hc
    rw [hsplit]
    exact orLoop_first_true task column now fuel pre c post hpre hc

/-- C5, at an instance: under AND a false condition followed by one that would never
return gives false. -/
theorem C5_ConditionGroup_Evaluate_witness :
    (ConditionGroup.mk [isHighPriority, lacksUrgentTag] LogicalAnd).Evaluate
      reportTask none 0 5 = .ret false :=
  ((C5_ConditionGroup_Evaluate ⟨[isHighPriority, lacksUrgentTag], LogicalAnd⟩
    reportTask none 0 5).2.1 rfl).2 [] isHighPriority [lacksUrgentTag] rfl
    (fun _ h => absurd h (List.not_mem_nil _)) rfl

/-- One call of `compareValues` with fuel left. -/
theorem compareValues_succ (c : Condition) (actualValue : Value) (fuel : Nat) :
    c.compareValues actualValue (fuel + 1) =
      if c.Operator = OperatorEquals then
        ifaceEq actualValue c.Value
      else if c.Operator = OperatorNotEquals then
        match ifaceEq actualValue c.Value with
        | .ret b => .ret (!b)
        | .panic => .panic
        | .timeout => .timeout
      else if c.Operator = OperatorContains then
        match actualValue, c.Value with
        | .strs tags, .str val => .ret (containsString tags val)
        | .str str, .str val => .ret (stringsContains str val)
        | _, _ => .ret false
      else if c.Operator = OperatorNotContains then
        match c.compareValues actualValue fuel with
        | .ret b => .ret (!b)
        | .panic => .panic
        | .timeout => .timeout
      else if c.Operator = OperatorIn then
        match c.Value, actualValue with
        | .strs values, .str str => .ret (containsString values str)
        | _, _ => .ret false
      else if c.Operator = OperatorNotIn then
        match c.Value, actualValue with
        | .strs values, .str str => .ret (!containsString values str)
        | _, _ => .ret false
      else
        .ret false := rfl

/-- The operator `contains` returns as soon as it has fuel for its one call: list
membership on a tag list, substring containment on a string, false otherwise. -/
theorem compareValues_contains (field : String) (value actual : Value) (fuel : Nat) :
    (Condition.mk field OperatorContains value).compareValues actual (fuel + 1) =
      .ret (match actual, value with
        | .strs tags, .str val => containsString tags val
        | .str str, .str val => stringsContains str val
        | _, _ => false) := by
  have h1 : ¬ OperatorContains = OperatorEquals := by decide
  have h2 : ¬ OperatorContains = OperatorNotEquals := by decide
  rw [compareValues_succ]
  simp only [h1, h2, if_false, if_true]
  cases actual <;> cases value <;> rfl

/-- A condition whose operator is `not_contains` never returns from `compareValues`:
every amount of fuel runs out. -/
theorem compareValues_notContains (c : Condition) (hop : c.Operator = OperatorNotContains)
    (actual : Value) (fuel : Nat) : c.compareValues actual fuel = .timeout := by
  have h1 : ¬ OperatorNotContains = OperatorEquals := by decide
  have h2 : ¬ OperatorNotContains = OperatorNotEquals := by decide
  have h3 : ¬ OperatorNotContains = OperatorContains := by decide
  induction fuel with
  | zero => rfl
  | succ n ih =>
    rw [compareValues_succ]
    simp only [hop, h1, h2, h3, if_false, if_true]
    rw [ih]

/-- C6, on the program. A `not_contains` condition does not terminate: `compareValues`
calls itself on the same condition, so for every amount of fuel the comparison, and with
it the evaluation of a `tags` or `priority` condition, runs out of fuel, while the same
condition with `contains` returns. -/
theorem C6_not_contains_never_returns (field : String) (value actual : Value) (fuel : Nat) :
    (Condition.mk field OperatorNotContains value).compareValues actual fuel = .timeout ∧
    (∀ task column now,
      (Condition.mk "tags" OperatorNotContains value).Evaluate task column now fuel
        = .timeout) ∧
    (∀ task column now,
      (Condition.mk "priority" OperatorNotContains value).Evaluate task column now fuel
        = .timeout) ∧
    (∀ task column now, ∃ b,
      (Condition.mk "tags" OperatorContains value).Evaluate task column now (fuel + 1)
        = .ret b) := by
  refine ⟨compareValues_notContains _ rfl _ _, ?_, ?_, ?_⟩
  · intro task column now
    have hf : ¬ "tags" = "priority" := by decide
    have hf2 : ¬ "tags" = "status" := by decide
    have hf3 : ¬ "tags" = "column" := by decide
    simp only [Condition.Evaluate, hf, hf2, hf3, if_false, if_true]
    exact compareValues_notContains _ rfl _ _
  · intro task column now
    simp only [Condition.Evaluate, if_true]
    exact compareValues_notContains _ rfl _ _
  · intro task column now
    have hf : ¬ "tags" = "priority" := by decide
    have hf2 : ¬ "tags" = "status" := by decide
    have hf3 : ¬ "tags" = "column" := by decide
    simp only [Condition.Evaluate, hf, hf2, hf3, if_false, if_true]
    rw [compareValues_contains]
    exact ⟨_, rfl⟩

/-- A field that is neither a fixed attribute nor a key of the metadata evaluates to
false, for every operator, value and amount of fuel. -/
theorem Evaluate_unknown_field (c : Condition) (task : Task) (column : Option Column)
    (now : Time) (fuel : Nat)
    (hf : c.Field ∉ ["priority", "status", "column", "tags", "has_due_date", "is_overdue"])
    (hm : task.metadata.lookup c.Field = none) :
    c.Evaluate task column now fuel = .ret false := by
  simp only [List.mem_cons, List.mem_singleton, List.not_mem_nil, not_or, or_false] at hf
  obtain ⟨h1, h2, h3, h4, h5, h6⟩ := hf
  simp [Condition.Evaluate, h1, h2, h3, h4, h5, h6, Task.GetMetadata, hm]

/-- C7, on the program. A condition on the field `column`, evaluated without a column,
compares the nil value: with the operator `ne` and a string to compare with it returns
true, not false. -/
theorem C7_column_absent_ne_true (task : Task) (now : Time) (fuel : Nat) (name : String) :
    (Condition.mk "column" OperatorNotEquals (.str name)).Evaluate task none now (fuel + 1)
      = .ret true := by
  have hf : ¬ "column" = "priority" := by decide
  have hf2 : ¬ "column" = "status" := by decide
  have h1 : ¬ OperatorNotEquals = OperatorEquals := by decide
  simp only [Condition.Evaluate, hf, hf2, if_false, if_true]
  rw [compareValues_succ]
  simp only [h1, if_false, if_true]
  rfl

end Conditions

/-! ## Theorems: evaluating the actions -/

section Evaluation

/-- No task of a column equals the nil task ID. -/
theorem Column.GetTask_nil (c : Column) : c.GetTask none = .error ErrTaskNotFound := by
  unfold Column.GetTask
  have h : c.tasks.find? (fun task => task.ID.Equal none) = none := by
    rw [List.find?_eq_none]
    intro x _
    simp [TaskID.Equal]
  rw [h]

/-- Looking for the nil task ID finds nothing on any board. -/
theorem Board.FindTask_nil (b : Board) : b.FindTask none = .error ErrTaskNotFound := by
  unfold Board.FindTask
  induction b.columns with
  | nil => rfl
  | cons c rest ih =>
    unfold Board.FindTask.loop
    rw [Column.GetTask_nil]
    exact ih

/-- The evaluation never resolves a task, and with a task ID in the context it
resolves no column either. -/
theorem resolveTaskColumn_no_task (board : Option Board) (evalCtx : EvaluationContext) :
    (EvaluateActionsUseCase.resolveTaskColumn board evalCtx).1 = none ∧
    (board ≠ none → evalCtx.TaskID ≠ "" →
      (EvaluateActionsUseCase.resolveTaskColumn board evalCtx).2 = none) := by
  unfold EvaluateActionsUseCase.resolveTaskColumn
  cases board with
  | none => simp
  | some b =>
    by_cases ht : evalCtx.TaskID = ""
    · simp [ht]
    · simp [ht, Board.FindTask_nil]

/-- Every result the loop adds carries the task and column the loop was given. -/
theorem loop_contexts {σ : Type} (evalCtx : EvaluationContext) (board : Option Board)
    (column : Option Column) (task : Option Task) (now : Time) (fuel : Nat)
    (actions : List (Action σ)) (results out : List (EvaluationResult σ))
    (h : EvaluateActionsUseCase.loop evalCtx board column task now fuel results actions
      = .ret out) :
    ∀ r ∈ out, r ∈ results ∨ (r.Context.Task = task ∧ r.Context.Column = column) := by
  induction actions generalizing results with
  | nil =>
    unfold EvaluateActionsUseCase.loop at h
    cases h
    intro r hr
    exact Or.inl hr
  | cons a rest ih =>
    unfold EvaluateActionsUseCase.loop at h
    by_cases hm : a.MatchesScope evalCtx.BoardID evalCtx.ColumnID evalCtx.TaskID = true
    · simp only [hm, Bool.not_true, Bool.false_eq_true, if_false] at h
      split at h
      · intro r hr
        rcases ih _ h r hr with h1 | h1
        · rcases List.mem_append.mp h1 with h2 | h2
          · exact Or.inl h2
          · rw [List.mem_singleton] at h2
            rw [h2]
            exact Or.inr ⟨rfl, rfl⟩
        · exact Or.inr h1
      · exact ih _ h
      · cases h
      · cases h
    · simp only [hm, Bool.not_false, if_true] at h
      exact ih _ h

/-- Whatever the board and the task ID of the evaluation context, no trigger context
built by `EvaluateActionsUseCase.Execute` carries a task. -/
theorem Execute_contexts_have_no_task {σ : Type} (uc : EvaluateActionsUseCase σ)
    (evalCtx : EvaluationContext) (now : Time) (fuel : Nat)
    (out : List (EvaluationResult σ))
    (h : uc.Execute evalCtx now fuel = .ret (.ok out)) :
    ∀ r ∈ out, r.Context.Task = none := by
  unfold EvaluateActionsUseCase.Execute at h
  split at h
  · cases h
  · simp only at h
    split at h
    · rename_i results hloop
      cases h
      intro r hr
      rcases loop_contexts _ _ _ _ _ _ _ _ _ hloop r hr with h1 | h1
      · cases h1
      · rw [h1.1]
        exact (resolveTaskColumn_no_task _ _).1
    · cases h
    · cases h

/-- C9, on the program. The board `b1` is stored and holds the task whose ID string is
the `TaskID` of the context, yet the trigger context built for the action carries no
task and no column: the lookup is made with the nil task ID. The action, whose condition
asks for high priority, is returned for the task of low priority. -/
theorem C9_task_not_resolved :
    reportTask.ID.String = sampleEvalCtx.TaskID ∧
    sampleBoard.FindTask (some reportTask.ID) = .ok (reportTask, todoColumn) ∧
    ∃ r, sampleUseCase.Execute sampleEvalCtx 5 10 = .ret (.ok [r]) ∧
      r.Context.Task = none ∧ r.Context.Column = none ∧
      r.Context.Board = some sampleBoard ∧ r.Action.id = "a1" := by
  refine ⟨by decide, rfl, _, rfl, rfl, rfl, rfl, rfl⟩

end Evaluation

/-! ## Theorems: request routing -/

section Routing

/-- The board, task, column, timer, project and agenda request types are routed to
their handlers, and `ping` is answered directly. -/
theorem handleRequest_routes {σ : Type} (h : RequestHandlers σ) (p : Value) (s : σ) :
    handleRequest h ⟨RequestGetBoard, p⟩ s = h.handleGetBoard ⟨RequestGetBoard, p⟩ s ∧
    handleRequest h ⟨RequestListBoards, p⟩ s = h.handleListBoards s ∧
    handleRequest h ⟨RequestCreateBoard, p⟩ s = h.handleCreateBoard ⟨RequestCreateBoard, p⟩ s ∧
    handleRequest h ⟨RequestAddTask, p⟩ s = h.handleAddTask ⟨RequestAddTask, p⟩ s ∧
    handleRequest h ⟨RequestMoveTask, p⟩ s = h.handleMoveTask ⟨RequestMoveTask, p⟩ s ∧
    handleRequest h ⟨RequestUpdateTask, p⟩ s = h.handleUpdateTask ⟨RequestUpdateTask, p⟩ s ∧
    handleRequest h ⟨RequestDeleteTask, p⟩ s = h.handleDeleteTask ⟨RequestDeleteTask, p⟩ s ∧
    handleRequest h ⟨RequestAddColumn, p⟩ s = h.handleAddColumn ⟨RequestAddColumn, p⟩ s ∧
    handleRequest h ⟨RequestDeleteColumn, p⟩ s
      = h.handleDeleteColumn ⟨RequestDeleteColumn, p⟩ s ∧
    handleRequest h ⟨RequestGetActiveBoard, p⟩ s
      = h.handleGetActiveBoard ⟨RequestGetActiveBoard, p⟩ s ∧
    handleRequest h ⟨RequestPing, p⟩ s = (⟨true, .str "pong", ""⟩, s) ∧
    handleRequest h ⟨RequestStartTimer, p⟩ s = h.handleStartTimer ⟨RequestStartTimer, p⟩ s ∧
    handleRequest h ⟨RequestStopTimer, p⟩ s = h.handleStopTimer ⟨RequestStopTimer, p⟩ s ∧
    handleRequest h ⟨RequestGetActiveTimers, p⟩ s = h.handleGetActiveTimers s ∧
    handleRequest h ⟨RequestListTimeLogs, p⟩ s
      = h.handleListTimeLogs ⟨RequestListTimeLogs, p⟩ s ∧
    handleRequest h ⟨RequestAddTimeEntry, p⟩ s
      = h.handleAddTimeEntry ⟨RequestAddTimeEntry, p⟩ s ∧
    handleRequest h ⟨RequestCreateProject, p⟩ s
      = h.handleCreateProject ⟨RequestCreateProject, p⟩ s ∧
    handleRequest h ⟨RequestGetProject, p⟩ s = h.handleGetProject ⟨RequestGetProject, p⟩ s ∧
    handleRequest h ⟨RequestListProjects, p⟩ s = h.handleListProjects s ∧
    handleRequest h ⟨RequestUpdateProject, p⟩ s
      = h.handleUpdateProject ⟨RequestUpdateProject, p⟩ s ∧
    handleRequest h ⟨RequestDeleteProject, p⟩ s
      = h.handleDeleteProject ⟨RequestDeleteProject, p⟩ s ∧
    handleRequest h ⟨RequestScheduleTask, p⟩ s
      = h.handleScheduleTask ⟨RequestScheduleTask, p⟩ s ∧
    handleRequest h ⟨RequestCreateMeeting, p⟩ s
      = h.handleCreateMeeting ⟨RequestCreateMeeting, p⟩ s := by
  refine ⟨rfl, rfl, rfl, rfl, rfl, rfl, rfl, rfl, rfl, rfl, rfl, rfl, rfl, rfl, rfl, rfl, rfl,
    rfl, rfl, rfl, rfl, rfl, rfl⟩

/-- C17, on the program. Every action request type the protocol declares falls into the
default case of `handleRequest`: whatever the handlers, payload and state, the answer is
the failed response `unknown request type` and the state is untouched. -/
theorem C17_action_requests_unknown {σ : Type} (h : RequestHandlers σ) (p : Value) (s : σ) :
    handleRequest h ⟨"create_action", p⟩ s
      = (⟨false, .nil, "unknown request type: create_action"⟩, s) ∧
    handleRequest h ⟨"update_action", p⟩ s
      = (⟨false, .nil, "unknown request type: update_action"⟩, s) ∧
    handleRequest h ⟨"delete_action", p⟩ s
      = (⟨false, .nil, "unknown request type: delete_action"⟩, s) ∧
    handleRequest h ⟨"get_action", p⟩ s
      = (⟨false, .nil, "unknown request type: get_action"⟩, s) ∧
    handleRequest h ⟨"list_actions", p⟩ s
      = (⟨false, .nil, "unknown request type: list_actions"⟩, s) ∧
    handleRequest h ⟨"enable_action", p⟩ s
      = (⟨false, .nil, "unknown request type: enable_action"⟩, s) ∧
    handleRequest h ⟨"disable_action", p⟩ s
      = (⟨false, .nil, "unknown request type: disable_action"⟩, s) := by
  refine ⟨rfl, rfl, rfl, rfl, rfl, rfl, rfl⟩

end Routing

/-! ## Theorems: persistence of actions -/

section Persistence

/-- No action file converts back to an action, so `ListAll` is always empty. -/
theorem ListAll_nil {σ : Type} (files : ActionFiles) :
    (ActionRepositoryImpl.ListAll files : List (Action σ)) = [] := by
  unfold ActionRepositoryImpl.ListAll
  induction files with
  | nil => rfl
  | cons f rest ih => simp [List.filterMap_cons, fromStorageAction]

/-- C14, on the program. Converting an action to its storage form and back fails with
`not implemented` for every action; after `Create` has stored an action, `GetByID`
answers with that error, and `ListAll` and `ListEnabled` are empty. -/
theorem C14_roundtrip_not_implemented {σ : Type} (format : Time → String) (action : Action σ)
    (files : ActionFiles) :
    (fromStorageAction (toStorageAction format action) : Except Error (Action σ))
      = .error ⟨"not implemented"⟩ ∧
    (files.lookup action.id = none →
      (ActionRepositoryImpl.Create format files action).1 = none ∧
      (ActionRepositoryImpl.GetByID (ActionRepositoryImpl.Create format files action).2
        action.id : Except Error (Action σ)) = .error ⟨"not implemented"⟩) ∧
    (ActionRepositoryImpl.ListAll (ActionRepositoryImpl.Create format files action).2
      : List (Action σ)) = [] ∧
    (ActionRepositoryImpl.ListEnabled (ActionRepositoryImpl.Create format files action).2
      : List (Action σ)) = [] := by
  refine ⟨rfl, ?_, ListAll_nil _, ?_⟩
  · intro hnew
    have hlook : (files ++ [(action.id, toStorageAction format action)]).lookup action.id
        = some (toStorageAction format action) := by
      induction files with
      | nil => simp [List.lookup]
      | cons f rest ih =>
        obtain ⟨k, v⟩ := f
        by_cases hk : action.id = k
        · subst hk
          simp [List.lookup] at hnew
        · have hk2 : (action.id == k) = false := by simpa using hk
          simp only [List.cons_append, List.lookup, hk2] at hnew ⊢
          exact ih hnew
    simp [ActionRepositoryImpl.Create, hnew, ActionRepositoryImpl.GetByID, hlook,
      fromStorageAction]
  · simp [ActionRepositoryImpl.ListEnabled, ListAll_nil]

end Persistence

/-! ## Theorems: the action variants -/

section Variants

/-- A variant whose required collaborator is absent returns an error: the notification
without a notifier, the script without a script runner, and the three task variants
without a task mutator (the mutation and the movement report a missing task first). -/
theorem Execute_without_collaborator {σ : Type} (ctx : ActionContext σ) (now : Time) (w : σ) :
    (ctx.Notifier = none → ∀ a : NotificationAction,
      (a.Execute ctx w).1 = .ret (some ErrNotifierNotAvailable)) ∧
    (ctx.ScriptRunner = none → ∀ a : ScriptAction,
      (a.Execute ctx w).1 = .ret (some ErrScriptRunnerNotAvailable)) ∧
    (ctx.TaskMutator = none → ∀ a : TaskMutationAction,
      ∃ err, (a.Execute ctx now w).1 = .ret (some err)) ∧
    (ctx.TaskMutator = none → ∀ a : TaskMovementAction,
      ∃ err, (a.Execute ctx w).1 = .ret (some err)) ∧
    (ctx.TaskMutator = none → ∀ a : TaskCreationAction,
      (a.Execute ctx now w).1 = .ret (some ErrTaskMutatorNotAvailable)) := by
  refine ⟨?_, ?_, ?_, ?_, ?_⟩
  · intro h a
    simp [NotificationAction.Execute, h]
  · intro h a
    simp [ScriptAction.Execute, h]
  · intro h a
    cases ht : ctx.Task with
    | none => exact ⟨ErrTaskNotFound, by simp [TaskMutationAction.Execute, ht]⟩
    | some t => exact ⟨ErrTaskMutatorNotAvailable, by simp [TaskMutationAction.Execute, ht, h]⟩
  · intro h a
    cases ht : ctx.Task with
    | none => exact ⟨ErrTaskNotFound, by simp [TaskMovementAction.Execute, ht]⟩
    | some t => exact ⟨ErrTaskMutatorNotAvailable, by simp [TaskMovementAction.Execute, ht, h]⟩
  · intro h a
    simp [TaskCreationAction.Execute, h]

/-- The notification and the script variant return in every context, also without
task, board or column. -/
theorem Execute_notification_script_return {σ : Type} (ctx : ActionContext σ) (w : σ) :
    (∀ a : NotificationAction, ∃ r, (a.Execute ctx w).1 = .ret r) ∧
    (∀ a : ScriptAction, ∃ r, (a.Execute ctx w).1 = .ret r) := by
  refine ⟨?_, ?_⟩
  · intro a
    cases h : ctx.Notifier with
    | none => exact ⟨some ErrNotifierNotAvailable, by simp [NotificationAction.Execute, h]⟩
    | some n =>
      exact ⟨(n.SendNotification (a.interpolateTemplate a.Title ctx)
        (a.interpolateTemplate a.Message ctx) a.Metadata w).1,
        by simp [NotificationAction.Execute, h]⟩
  · intro a
    cases h : ctx.ScriptRunner with
    | none => exact ⟨some ErrScriptRunnerNotAvailable, by simp [ScriptAction.Execute, h]⟩
    | some n =>
      exact ⟨(n.RunScript a.ScriptPath (a.buildEnv ctx) w).1, by simp [ScriptAction.Execute, h]⟩

/-- C11, on the program. In a context with a task and a task mutator but no board, the
task creation, the task movement and a task mutation without priority or status change
do not return a result: each reads the absent board and panics, and the mutator is
never called (the state is as before). -/
theorem C11_absent_board_panics {σ : Type} (task : Task) (column : Option Column)
    (event : Option DomainEvent) (notifier : Option (Notifier σ))
    (runner : Option (ScriptRunner σ)) (mutator : TaskMutator σ) (now : Time) (w : σ) :
    (∀ a : TaskCreationAction,
      (a.Execute { Task := some task, Column := column, Board := none, Event := event,
                   Notifier := notifier, ScriptRunner := runner,
                   TaskMutator := some mutator } now w).1 = .panic ∧
      (a.Execute { Task := some task, Column := column, Board := none, Event := event,
                   Notifier := notifier, ScriptRunner := runner,
                   TaskMutator := some mutator } now w).2.2 = w) ∧
    (∀ a : TaskMovementAction,
      (a.Execute { Task := some task, Column := column, Board := none, Event := event,
                   Notifier := notifier, ScriptRunner := runner,
                   TaskMutator := some mutator } w).1 = .panic ∧
      (a.Execute { Task := some task, Column := column, Board := none, Event := event,
                   Notifier := notifier, ScriptRunner := runner,
                   TaskMutator := some mutator } w).2.2 = w) ∧
    (∀ addTags removeTags setMetadata,
      ((TaskMutationAction.mk none none addTags removeTags setMetadata).Execute
        { Task := some task, Column := column, Board := none, Event := event,
          Notifier := notifier, ScriptRunner := runner,
          TaskMutator := some mutator } now w).1 = .panic ∧
      ((TaskMutationAction.mk none none addTags removeTags setMetadata).Execute
        { Task := some task, Column := column, Board := none, Event := event,
          Notifier := notifier, ScriptRunner := runner,
          TaskMutator := some mutator } now w).2.2 = w) := by
  refine ⟨?_, ?_, ?_⟩
  · intro a
    simp [TaskCreationAction.Execute]
  · intro a
    simp [TaskMovementAction.Execute]
  · intro addTags removeTags setMetadata
    simp [TaskMutationAction.Execute, TaskMutationAction.applyFields]

end Variants

/-! ## Theorems: task creation -/

section TaskCreation

/-- Adding tags leaves the ID and the title of a task alone. -/
theorem foldl_AddTag_id_title (tags : List String) (now : Time) (task : Task) :
    (tags.foldl (fun t tag => t.AddTag tag now) task).id = task.id ∧
    (tags.foldl (fun t tag => t.AddTag tag now) task).title = task.title := by
  induction tags generalizing task with
  | nil => exact ⟨rfl, rfl⟩
  | cons tag rest ih =>
    simp only [List.foldl_cons]
    have h := ih (task.AddTag tag now)
    have h1 : (task.AddTag tag now).id = task.id ∧ (task.AddTag tag now).title = task.title := by
      unfold Task.AddTag
      split <;> exact ⟨rfl, rfl⟩
    exact ⟨h.1.trans h1.1, h.2.trans h1.2⟩

/-- Setting metadata leaves the ID and the title of a task alone. -/
theorem foldl_SetMetadata_id_title (kvs : List (String × String)) (now : Time) (task : Task) :
    (kvs.foldl (fun t kv => t.SetMetadata kv.1 kv.2 now) task).id = task.id ∧
    (kvs.foldl (fun t kv => t.SetMetadata kv.1 kv.2 now) task).title = task.title := by
  induction kvs generalizing task with
  | nil => exact ⟨rfl, rfl⟩
  | cons kv rest ih =>
    simp only [List.foldl_cons]
    have h := ih (task.SetMetadata kv.1 kv.2 now)
    exact ⟨h.1, h.2⟩

/-- When the board can build an ID from the title taken as slug, a valid task creation
action calls `CreateTask` once, with the ID of the board, the configured column and a
task that carries the generated ID and the configured title, and returns its result. -/
theorem TaskCreation_Execute_generated {σ : Type} (a : TaskCreationAction)
    (ctx : ActionContext σ) (mutator : TaskMutator σ) (board board1 : Board) (taskID : TaskID)
    (now : Time) (w : σ)
    (hm : ctx.TaskMutator = some mutator) (hb : ctx.Board = some board)
    (hv : a.Validate = none) (hg : board.GenerateNextTaskID a.Title = .ok (taskID, board1)) :
    ∃ task : Task, task.id = taskID ∧ task.title = a.Title ∧
      (a.Execute ctx now w).1 = .ret (mutator.CreateTask board.ID a.ColumnName task w).1 ∧
      (a.Execute ctx now w).2.2 = (mutator.CreateTask board.ID a.ColumnName task w).2 := by
  have hid : board1.ID = board.ID := by
    unfold Board.GenerateNextTaskID at hg
    split at hg
    · cases hg
    · cases hg
      rfl
  unfold TaskCreationAction.Validate at hv
  split at hv
  · cases hv
  · rename_i ht
    split at hv
    · cases hv
    · split at hv
      · cases hv
      · rename_i hp
        split at hv
        · cases hv
        · rename_i hs
          have hnew : NewTask (some taskID) a.Title a.Description a.Priority a.Status now
              = .ok { id := taskID, title := a.Title, description := a.Description,
                      priority := a.Priority, status := a.Status, tags := [], metadata := [],
                      createdAt := now, modifiedAt := now, dueDate := none,
                      completedDate := none } := by
            simp [NewTask, ht, hp, hs]
          refine ⟨a.Metadata.foldl (fun t kv => t.SetMetadata kv.1 kv.2 now)
            (a.Tags.foldl (fun t tag => t.AddTag tag now)
              { id := taskID, title := a.Title, description := a.Description,
                priority := a.Priority, status := a.Status, tags := [], metadata := [],
                createdAt := now, modifiedAt := now, dueDate := none,
                completedDate := none }), ?_, ?_, ?_, ?_⟩
          · rw [(foldl_SetMetadata_id_title _ _ _).1, (foldl_AddTag_id_title _ _ _).1]
          · rw [(foldl_SetMetadata_id_title _ _ _).2, (foldl_AddTag_id_title _ _ _).2]
          · simp [TaskCreationAction.Execute, hm, hb, hg, hnew, hid]
          · simp [TaskCreationAction.Execute, hm, hb, hg, hnew, hid]

/-- A title that is not a slug makes the task creation fail before the mutator is
called, whatever the board. -/
theorem TaskCreation_Execute_title_not_slug {σ : Type} (a : TaskCreationAction)
    (ctx : ActionContext σ) (mutator : TaskMutator σ) (board : Board) (now : Time) (w : σ)
    (hm : ctx.TaskMutator = some mutator) (hb : ctx.Board = some board)
    (hs : matchesSlugPattern a.Title = false) :
    ∃ err, (a.Execute ctx now w).1 = .ret (some err) ∧ (a.Execute ctx now w).2.2 = w := by
  have hg : ∃ err, board.GenerateNextTaskID a.Title = .error err := by
    unfold Board.GenerateNextTaskID NewTaskID
    split_ifs <;> first | exact ⟨_, rfl⟩ | simp_all
  obtain ⟨err, hg⟩ := hg
  exact ⟨err, by simp [TaskCreationAction.Execute, hm, hb, hg],
    by simp [TaskCreationAction.Execute, hm, hb, hg]⟩

/-- C12, on the program. The action with the title `Weekly Review` passes `Validate`,
and the context has a board and a task mutator, yet `Execute` returns the error of
`NewTaskID` on the slug and never calls `CreateTask`: the title is handed over as the
slug of the task ID. -/
theorem C12_title_as_slug_rejected :
    weeklyReview.Validate = none ∧
    (weeklyReview.Execute creationContext 7 0).1
      = .ret (some ⟨"slug must be lowercase alphanumeric with hyphens"⟩) ∧
    (weeklyReview.Execute creationContext 7 0).2.2 = 0 := by
  refine ⟨by decide, by decide, by decide⟩

end TaskCreation

/-! ## Theorems: processing an event -/

section ProcessEvent

/-- C13. With a repository whose only enabled action is a global notification action on
`task.created` without conditions, and a notifier available, processing a `task.created`
event sends exactly one notification: the state afterwards is the state after one call of
`SendNotification` with the configured title and message, followed by `UpdateLastRun`
when the call succeeded. The action is stamped with the execution time when the call
succeeded and keeps its last run otherwise, so with a clock that does not run backwards
its last run is not earlier than before. -/
theorem C13_one_notification {σ : Type} (uc : ProcessEventUseCase σ) (a : Action σ)
    (n : NotificationAction) (notifier : Notifier σ) (event : DomainEvent)
    (now runAt : Time) (fuel : Nat) (w : σ)
    (hrepo : uc.evaluateUseCase.actionRepo.ListEnabled = .ok [a])
    (hen : a.enabled = true) (hsc : a.scope = ActionScopeGlobal)
    (htr : a.trigger = .event ⟨EventTaskCreated⟩) (hty : a.actionType = n.asActionType)
    (hco : a.conditions = none) (hno : uc.executeUseCase.notifier = some notifier)
    (hev : event.Typ = EventTaskCreated)
    (hclock : ∀ prev, a.lastRun = some prev → prev ≤ runAt) :
    ∃ a1 : Action σ,
      uc.Execute event now runAt fuel w =
        (.ret none, [a1],
          if (notifier.SendNotification n.Title n.Message n.Metadata w).1 = none then
            (uc.executeUseCase.actionRepo.UpdateLastRun a.id
              (notifier.SendNotification n.Title n.Message n.Metadata w).2).2
          else (notifier.SendNotification n.Title n.Message n.Metadata w).2) ∧
      ((notifier.SendNotification n.Title n.Message n.Metadata w).1 = none →
        a1.lastRun = some runAt) ∧
      (∀ prev, a.lastRun = some prev → ∃ t, a1.lastRun = some t ∧ prev ≤ t) := by
  have hms : ∀ b c t, a.MatchesScope b c t = true := by
    intro b c t
    simp [Action.MatchesScope, hsc]
  have hexec : ∀ (actCtx : ActionContext σ), actCtx.Notifier = some notifier →
      a.actionType.Execute actCtx w =
        (.ret (notifier.SendNotification n.Title n.Message n.Metadata w).1,
          (notifier.SendNotification n.Title n.Message n.Metadata w).2) := by
    intro actCtx hn
    rw [hty]
    simp [NotificationAction.asActionType, NotificationAction.Execute, hn,
      NotificationAction.interpolateTemplate]
  cases hsend : (notifier.SendNotification n.Title n.Message n.Metadata w).1 with
  | none =>
    refine ⟨a.MarkAsRun runAt, ?_, fun _ => rfl, ?_⟩
    · simp [ProcessEventUseCase.Execute, EvaluateActionsUseCase.Execute, hrepo,
        EvaluateActionsUseCase.loop, hms, Action.ShouldExecute, hen, htr,
        Trigger.ShouldTrigger, EventTrigger.ShouldTrigger, hev, hco,
        ProcessEventUseCase.loop, ExecuteActionUseCase.Execute, Action.Execute, hexec, hno,
        hsend, Action.MarkAsRun]
    · intro prev hp
      exact ⟨runAt, rfl, hclock prev hp⟩
  | some err =>
    refine ⟨a, ?_, (fun h => Option.noConfusion h), ?_⟩
    · simp [ProcessEventUseCase.Execute, EvaluateActionsUseCase.Execute, hrepo,
        EvaluateActionsUseCase.loop, hms, Action.ShouldExecute, hen, htr,
        Trigger.ShouldTrigger, EventTrigger.ShouldTrigger, hev, hco,
        ProcessEventUseCase.loop, ExecuteActionUseCase.Execute, Action.Execute, hexec, hno,
        hsend]
    · intro prev hp
      exact ⟨prev, hp, le_refl prev⟩

/-- C13, at an instance: one `task.created` event through the use cases over a repository
with one notification action raises the notifier's call count from 0 to 1 and moves the
last run of the action from instant 3 to the execution time 9. -/
theorem C13_one_notification_witness :
    ∃ a1 : Action Nat,
      notifyingUseCase.Execute taskCreatedEvent 8 9 10 0 = (.ret none, [a1], 1) ∧
      a1.lastRun = some 9 := by
  obtain ⟨a1, h1, h2, _⟩ := C13_one_notification notifyingUseCase taskCreatedNotification
    ⟨"New task", "A task was created", []⟩ countingNotifier taskCreatedEvent 8 9 10 0
    rfl rfl rfl rfl rfl rfl rfl rfl (by intro prev hp; cases hp; decide)
  exact ⟨a1, h1, h2 rfl⟩

end ProcessEvent

/-! ## Theorems: subscriber registry -/

section Registry

/-- C15. From the registry of a new server: after two distinct connections register for
a board and a notification is published, each channel holds that notification once;
after the first connection is cleaned up and a second notification is published, the
second notification is queued for the second connection only and the channel of the
first is closed; after the second connection is cleaned up the registry has no entry for
the board (it is empty). -/
theorem C15_registry (b : String) (c1 c2 : Conn) (n n2 : Notification) (hne : c1 ≠ c2) :
    (Server.register Subscribers.empty b c1).2 = 0 ∧
    (Server.register (Server.register Subscribers.empty b c1).1 b c2).2 = 1 ∧
    Server.notifySubscribers
        (Server.register (Server.register Subscribers.empty b c1).1 b c2).1 b n
      = .ret { chans := [⟨10, [n], false⟩, ⟨10, [n], false⟩],
               subscribers := [(b, [(c1, 0), (c2, 1)])] } ∧
    Server.cleanupSubscriber
        { chans := [⟨10, [n], false⟩, ⟨10, [n], false⟩],
          subscribers := [(b, [(c1, 0), (c2, 1)])] } c1
      = .ret { chans := [⟨10, [n], true⟩, ⟨10, [n], false⟩],
               subscribers := [(b, [(c2, 1)])] } ∧
    Server.notifySubscribers
        { chans := [⟨10, [n], true⟩, ⟨10, [n], false⟩],
          subscribers := [(b, [(c2, 1)])] } b n2
      = .ret { chans := [⟨10, [n], true⟩, ⟨10, [n, n2], false⟩],
               subscribers := [(b, [(c2, 1)])] } ∧
    Server.cleanupSubscriber
        { chans := [⟨10, [n], true⟩, ⟨10, [n, n2], false⟩],
          subscribers := [(b, [(c2, 1)])] } c2
      = .ret { chans := [⟨10, [n], true⟩, ⟨10, [n, n2], true⟩], subscribers := [] } := by
  have h12 : (c1 == c2) = false := by simpa using hne
  have h21 : (c2 == c1) = false := by simpa using (Ne.symm hne)
  refine ⟨rfl, rfl, ?_, ?_, ?_, ?_⟩
  · simp [Server.register, Subscribers.empty, boardSet, connSet, hne,
      Server.notifySubscribers, Server.notifySubscribers.loop, List.lookup, Chan.trySend]
  · simp [Server.cleanupSubscriber, Server.cleanupSubscriber.loop, List.lookup, Chan.close,
      h12, h21, hne, Ne.symm hne, List.filter]
  · simp [Server.notifySubscribers, Server.notifySubscribers.loop, List.lookup, Chan.trySend]
  · simp [Server.cleanupSubscriber, Server.cleanupSubscriber.loop, List.lookup, Chan.close,
      List.filter]

/-- C15, at an instance: board `b1`, connections 7 and 8. -/
theorem C15_registry_witness :
    Server.cleanupSubscriber
        { chans := [⟨10, [⟨"task_created", "b1", .nil⟩], true⟩,
                    ⟨10, [⟨"task_created", "b1", .nil⟩, ⟨"task_moved", "b1", .nil⟩], false⟩],
          subscribers := [("b1", [(8, 1)])] } 8
      = .ret { chans := [⟨10, [⟨"task_created", "b1", .nil⟩], true⟩,
                         ⟨10, [⟨"task_created", "b1", .nil⟩, ⟨"task_moved", "b1", .nil⟩],
                           true⟩],
               subscribers := [] } :=
  (C15_registry "b1" 7 8 ⟨"task_created", "b1", .nil⟩ ⟨"task_moved", "b1", .nil⟩
    (by decide)).2.2.2.2.2

end Registry

/-! ## Theorems: channel overflow -/

section Overflow

/-- A send-or-drop on an open channel returns `afterSend`. -/
theorem trySend_open (c : Chan) (n : Notification) (h : c.closed = false) :
    c.trySend n = .ret (c.afterSend n) := by
  unfold Chan.trySend Chan.afterSend
  simp only [h, Bool.false_eq_true, if_false]
  split <;> rfl

/-- The notify loop over subscribers with distinct, open channels returns, and changes
exactly the channels of these subscribers, each by one send-or-drop. -/
theorem notify_loop_spec (n : Notification) (subs : List (Conn × Nat)) (chans : List Chan)
    (hnodup : (subs.map Prod.snd).Nodup)
    (hopen : ∀ e ∈ subs, ∃ c, chans.get? e.2 = some c ∧ c.closed = false) :
    ∃ chans1, Server.notifySubscribers.loop n subs chans = .ret chans1 ∧
      ∀ i, chans1.get? i =
        if i ∈ subs.map Prod.snd then (chans.get? i).map (fun c => c.afterSend n)
        else chans.get? i := by
  induction subs generalizing chans with
  | nil => exact ⟨chans, rfl, fun i => by simp⟩
  | cons e rest ih =>
    obtain ⟨conn, ch⟩ := e
    rw [List.map_cons, List.nodup_cons] at hnodup
    obtain ⟨c, hc, hcl⟩ := hopen (conn, ch) (List.mem_cons_self _ _)
    have hrest : ∀ e ∈ rest, ∃ c1, (chans.set ch (c.afterSend n)).get? e.2 = some c1
        ∧ c1.closed = false := by
      intro e he
      have hne : ch ≠ e.2 := by
        intro heq
        have hmem : e.2 ∈ rest.map Prod.snd := List.mem_map.mpr ⟨e, he, rfl⟩
        have hmem2 : ch ∈ rest.map Prod.snd := by
          rw [heq]
          exact hmem
        exact hnodup.1 hmem2
      rw [List.get?_eq_getElem?, List.getElem?_set_ne hne, ← List.get?_eq_getElem?]
      exact hopen e (List.mem_cons_of_mem _ he)
    obtain ⟨chans1, hloop, hget⟩ := ih (chans.set ch (c.afterSend n)) hnodup.2 hrest
    refine ⟨chans1, ?_, ?_⟩
    · unfold Server.notifySubscribers.loop
      simp only [hc, trySend_open c n hcl]
      exact hloop
    · intro i
      rw [hget i]
      by_cases hi : i = ch
      · subst hi
        have h1 : i ∉ rest.map Prod.snd := hnodup.1
        simp only [h1, if_false, List.map_cons, List.mem_cons, true_or, if_true]
        rw [List.get?_eq_getElem?, List.getElem?_set_self', ← List.get?_eq_getElem?, hc]
        rfl
      · have h2 : ch ≠ i := fun h => hi h.symm
        rw [List.get?_eq_getElem?, List.getElem?_set_ne h2, ← List.get?_eq_getElem?]
        simp only [List.map_cons, List.mem_cons, hi, false_or]

/-- C16. Publishing to a board whose subscribers have distinct open channels returns
(it never waits), leaves the subscriptions as they are, leaves a channel that is full,
as one holding its ten notifications is, exactly as it was, so that what is received
from it later is what was queued before, and queues the notification at the end of each
channel that has room. -/
theorem C16_overflow_drops (s : Subscribers) (b : String) (subs : List (Conn × Nat))
    (n : Notification) (hsubs : s.subscribers.lookup b = some subs)
    (hnodup : (subs.map Prod.snd).Nodup)
    (hopen : ∀ e ∈ subs, ∃ c, s.chans.get? e.2 = some c ∧ c.closed = false) :
    ∃ s1, Server.notifySubscribers s b n = .ret s1 ∧
      s1.subscribers = s.subscribers ∧
      ∀ conn ch c, (conn, ch) ∈ subs → s.chans.get? ch = some c →
        (c.cap ≤ c.buf.length → s1.chans.get? ch = some c) ∧
        (c.cap = 10 → c.buf.length = 10 → s1.chans.get? ch = some c) ∧
        (c.buf.length < c.cap →
          s1.chans.get? ch = some { c with buf := c.buf ++ [n] }) := by
  obtain ⟨chans1, hloop, hget⟩ := notify_loop_spec n subs s.chans hnodup hopen
  refine ⟨{ s with chans := chans1 }, ?_, rfl, ?_⟩
  · simp [Server.notifySubscribers, hsubs, hloop]
  · intro conn ch c hmem hc
    have hin : ch ∈ subs.map Prod.snd := List.mem_map.mpr ⟨(conn, ch), hmem, rfl⟩
    have h := hget ch
    simp only [hin, if_true, hc, Option.map_some'] at h
    refine ⟨?_, ?_, ?_⟩
    · intro hfull
      show chans1.get? ch = some c
      rw [h]
      simp [Chan.afterSend, Nat.not_lt.mpr hfull]
    · intro hcap hlen
      show chans1.get? ch = some c
      rw [h]
      simp [Chan.afterSend, hcap, hlen]
    · intro hroom
      show chans1.get? ch = some { c with buf := c.buf ++ [n] }
      rw [h]
      simp [Chan.afterSend, hroom]

/-- C16, at an instance: an eleventh notification published to `b1` is dropped for the
connection whose channel holds ten and queued for the connection whose channel is
empty. -/
theorem C16_overflow_drops_witness :
    ∃ s1, Server.notifySubscribers fullAndEmpty "b1" (updateNote 10) = .ret s1 ∧
      s1.chans.get? 0 = fullAndEmpty.chans.get? 0 ∧
      s1.chans.get? 1 = some ⟨10, [updateNote 10], false⟩ := by
  obtain ⟨s1, h1, _, h3⟩ := C16_overflow_drops fullAndEmpty "b1" [(1, 0), (2, 1)]
    (updateNote 10) rfl (by decide) (by decide)
  exact ⟨s1, h1, (h3 1 0 _ (by decide) rfl).2.1 rfl rfl,
    (h3 2 1 _ (by decide) rfl).2.2 (by decide)⟩

end Overflow

/-! ## Theorems: time tracking -/

section TimeTracking

/-- C20, as stated, fails: with a manual and an earlier auto timer both on key `p1`, a
poll that detects the same project again changes nothing, and the auto-timer map still
has its entry for `p1`. -/
theorem C20_counterexample :
    (bothTimers.activeTimers.lookup "p1").map TimeLog.IsRunning = some true ∧
    timerKey projectOne.ID none = "p1" ∧
    ((bothTimers.syncAutoTracking saveToList (some sessionOne, none)
        (fun _ => (some projectOne, none)) "uuid-1" 50 []).1.autoTimers.lookup "p1")
      = some (runningLog "auto-1" TimeLogSourceTmux) := by
  decide

/-- With a manual timer on the key, `startAutoTimerLocked` leaves manager and state as
they are. -/
theorem startAutoTimerLocked_manual {σ : Type} (tm : TimeTrackingManager)
    (save : TimeLog → σ → Option Error × σ) (project : Project) (taskID : Option TaskID)
    (newID : String) (now : Time) (w : σ) (log : TimeLog)
    (h : tm.activeTimers.lookup (timerKey project.ID taskID) = some log) :
    tm.startAutoTimerLocked save project taskID newID now w = (tm, w) := by
  simp [TimeTrackingManager.startAutoTimerLocked, h]

/-- C20, amended. When the manual timers hold a running timer for the key of the
detected project and task, a poll starts no auto timer for that key: either the poll
changes nothing at all (auto tracking is off, or project and task are those of the last
poll), or afterwards the auto-timer map has no entry for the key. -/
theorem C20_manual_precedence {σ : Type} (tm : TimeTrackingManager)
    (save : TimeLog → σ → Option Error × σ) (activeSession : Session)
    (detect : Session → Option Project × Option TaskID) (newID : String) (now : Time) (w : σ)
    (project : Project) (taskID : Option TaskID) (log : TimeLog)
    (hd : detect activeSession = (some project, taskID))
    (hmanual : tm.activeTimers.lookup (timerKey project.ID taskID) = some log)
    (_hrun : log.IsRunning = true) :
    tm.syncAutoTracking save (some activeSession, none) detect newID now w = (tm, w) ∨
    (tm.syncAutoTracking save (some activeSession, none) detect newID now w).1.autoTimers.lookup
      (timerKey project.ID taskID) = none := by
  unfold TimeTrackingManager.syncAutoTracking
  by_cases hat : tm.autoTrack = true
  · simp only [hat, Bool.not_true, Bool.false_eq_true, if_false, hd]
    split
    · right
      rw [startAutoTimerLocked_manual _ save project taskID newID now _ log
        (by simpa [TimeTrackingManager.pauseAutoTimersLocked] using hmanual)]
      simp [TimeTrackingManager.pauseAutoTimersLocked]
    · left
      rfl
  · left
    simp [hat]

/-- C20 amended, at an instance: with only a manual timer on `p1`, the first poll that
detects `p1` leaves the auto-timer map without an entry for `p1`. -/
theorem C20_manual_precedence_witness :
    manualOnly.syncAutoTracking saveToList (some sessionOne, none)
        (fun _ => (some projectOne, none)) "uuid-1" 50 [] = (manualOnly, []) ∨
    (manualOnly.syncAutoTracking saveToList (some sessionOne, none)
        (fun _ => (some projectOne, none)) "uuid-1" 50 []).1.autoTimers.lookup
      (timerKey projectOne.ID none) = none :=
  C20_manual_precedence manualOnly saveToList sessionOne (fun _ => (some projectOne, none))
    "uuid-1" 50 [] projectOne none (runningLog "manual-1" TimeLogSourceTimer) rfl rfl rfl

end TimeTracking

/-! ## Theorems: branch names -/

theorem matchTaskHead_some {s p ds rest : List Char} (h : matchTaskHead s = some (p, ds, rest)) :
    s = p ++ '-' :: (ds ++ rest) ∧ p.length = 3 ∧ (∀ c ∈ p, isUpperLetter c = true) ∧
      ds ≠ [] ∧ (∀ c ∈ ds, isDigit c = true) := by
  match s, h with
  | a :: b :: c :: d :: r, h =>
    simp only [matchTaskHead] at h
    split at h
    · rename_i hc
      split at h
      · exact absurd h (by simp)
      · rename_i hne
        simp only [Option.some.injEq, Prod.mk.injEq] at h
        obtain ⟨rfl, rfl, rfl⟩ := h
        simp only [Bool.and_eq_true, beq_iff_eq] at hc
        obtain ⟨⟨⟨ha, hb⟩, hc1⟩, rfl⟩ := hc
        refine ⟨by simp [List.takeWhile_append_dropWhile], rfl, ?_, ?_, ?_⟩
        · intro x hx
          simp at hx
          rcases hx with rfl | rfl | rfl <;> assumption
        · intro h0
          exact hne (by simp [h0])
        · intro x hx
          exact (List.mem_takeWhile_imp hx)
    · exact absurd h (by simp)
  | [], h => simp [matchTaskHead] at h
  | [_], h => simp [matchTaskHead] at h
  | [_, _], h => simp [matchTaskHead] at h
  | [_, _, _], h => simp [matchTaskHead] at h

theorem TaskID.Equal_some (t o : TaskID) : t.Equal (some o) = true ↔ t = o := by
  cases t; cases o
  simp [TaskID.Equal, and_assoc]

theorem Task.ID_Equal_iff (t : Task) (x : TaskID) : t.ID.Equal (some x) = true ↔ t.id = x := by
  simp [Task.ID, TaskID.Equal_some]

theorem lookup_mapSet (m : List (String × String)) (k v k1 : String) :
    (mapSet m k v).lookup k1 = if k1 = k then some v else m.lookup k1 := by
  induction m with
  | nil =>
    by_cases h : k1 = k
    · simp [mapSet, List.lookup, h]
    · have hb : (k1 == k) = false := by simpa using h
      simp [mapSet, List.lookup, h, hb]
  | cons e rest ih =>
    obtain ⟨a, b⟩ := e
    by_cases hak : a = k
    · subst hak
      by_cases h : k1 = a
      · simp [mapSet, List.lookup, h]
      · have hb : (k1 == a) = false := by simpa using h
        simp [mapSet, List.lookup, h, hb]
    · by_cases h : k1 = k
      · subst h
        have hb : (k1 == a) = false := by simpa using (fun h => hak h.symm)
        simp [mapSet, hak, List.lookup, hb, ih]
      · by_cases h2 : k1 = a
        · subst h2
          simp [mapSet, hak, List.lookup]
        · have hb : (k1 == a) = false := by simpa using h2
          simp [mapSet, hak, List.lookup, hb, ih, h]

theorem Task.key_SetMetadata (t : Task) (k v : String) (now : Time) (hk : k ≠ "git_branch") :
    (t.SetMetadata k v now).key = t.key := by
  have : ¬ "git_branch" = k := fun h => hk h.symm
  simp [Task.SetMetadata, Task.key, Task.branch, lookup_mapSet, this]

theorem Task.key_UpdateStatus (t t1 : Task) (st : MKanban.Status) (now : Time)
    (h : t.UpdateStatus st now = .ok t1) : t1.key = t.key := by
  unfold Task.UpdateStatus at h
  split at h
  · simp at h
  · split at h <;>
    · simp only [Except.ok.injEq] at h
      subst h
      rfl

theorem Task.key_MarkAsCompleted (t t1 : Task) (now : Time)
    (h : t.MarkAsCompleted now = .ok t1) : t1.key = t.key := by
  unfold Task.MarkAsCompleted at h
  cases hu : t.UpdateStatus StatusDone now with
  | error e => simp [hu] at h
  | ok t2 =>
    have h2 := Task.key_UpdateStatus t t2 _ now hu
    simp only [hu] at h
    split at h <;>
    · simp only [Except.ok.injEq] at h
      subst h
      simpa [Task.key, Task.branch] using h2

theorem Column.CanAddTask_noWip (c : Column) (h : c.wipLimit = 0) : c.CanAddTask = true := by
  simp [Column.CanAddTask, h]

theorem Column.AddTask_ok (c : Column) (t : Task) (h : c.wipLimit = 0)
    (hx : t.id ∉ c.tasks.map Task.ID) :
    c.AddTask t = .ok { c with tasks := c.tasks ++ [t] } := by
  have : c.tasks.any (fun existingTask => existingTask.ID.Equal (some t.ID)) = false := by
    rw [Bool.eq_false_iff]
    intro hany
    rw [List.any_eq_true] at hany
    obtain ⟨e, he, hee⟩ := hany
    rw [TaskID.Equal_some] at hee
    exact hx (List.mem_map.mpr ⟨e, he, hee⟩)
  simp [Column.AddTask, h, this]

theorem Column.AddTask_dup (c : Column) (t : Task) (h : c.wipLimit = 0)
    (hx : t.id ∈ c.tasks.map Task.ID) : c.AddTask t = .error ErrTaskAlreadyExists := by
  have : c.tasks.any (fun existingTask => existingTask.ID.Equal (some t.ID)) = true := by
    rw [List.any_eq_true]
    obtain ⟨e, he, hee⟩ := List.mem_map.mp hx
    exact ⟨e, he, (TaskID.Equal_some _ _).mpr hee⟩
  simp [Column.AddTask, h, this]

theorem find?_of_findIdx?_some {α : Type} (p : α → Bool) (l : List α) (i : Nat)
    (h : l.findIdx? p = some i) : ∃ a, l[i]? = some a ∧ l.find? p = some a ∧ p a = true := by
  induction l generalizing i with
  | nil => simp at h
  | cons a rest ih =>
    rw [List.findIdx?_cons] at h
    by_cases hp : p a = true
    · simp only [hp, if_true, Option.some.injEq] at h
      subst h
      exact ⟨a, by simp, by simp [hp], hp⟩
    · simp only [hp, Bool.false_eq_true, if_false, List.findIdx?_succ, Nat.zero_add,
        Option.map_eq_some'] at h
      obtain ⟨j, hj, rfl⟩ := h
      obtain ⟨b, hb1, hb2, hb3⟩ := ih j hj
      exact ⟨b, by simpa using hb1, by simp [hp, hb2], hb3⟩

theorem find?_of_findIdx?_none {α : Type} (p : α → Bool) (l : List α)
    (h : l.findIdx? p = none) : l.find? p = none := by
  rw [List.findIdx?_eq_none_iff] at h
  rw [List.find?_eq_none]
  intro x hx
  simp [h x hx]

theorem Board.GetColumn_of_idx (b : Board) (n : String) (i : Nat)
    (h : b.getColumnIdx n = some i) : ∃ c, b.columns[i]? = some c ∧ b.GetColumn n = .ok c := by
  obtain ⟨c, h1, h2, _⟩ := find?_of_findIdx?_some _ _ _ h
  exact ⟨c, h1, by simp [Board.GetColumn, h2]⟩

theorem Board.GetColumn_of_idx_none (b : Board) (n : String)
    (h : b.getColumnIdx n = none) : b.GetColumn n = .error ErrColumnNotFound := by
  have := find?_of_findIdx?_none _ _ h
  simp [Board.GetColumn, this]

theorem Board.FindTask_loop_eq (tid : Option TaskID) (cols : List Column) :
    Board.FindTask.loop tid cols =
      match cols.find? (fun c => c.tasks.any (fun task => task.ID.Equal tid)) with
      | some c =>
        match c.tasks.find? (fun task => task.ID.Equal tid) with
        | some t => .ok (t, c)
        | none => .error ErrTaskNotFound
      | none => .error ErrTaskNotFound := by
  induction cols with
  | nil => rfl
  | cons c rest ih =>
    simp only [Board.FindTask.loop, Column.GetTask, List.find?_cons]
    cases hf : c.tasks.find? (fun task => task.ID.Equal tid) with
    | some t =>
      have : c.tasks.any (fun task => task.ID.Equal tid) = true := by
        rw [List.any_eq_true]
        exact ⟨t, List.mem_of_find?_eq_some hf, List.find?_some (p := fun (task : Task) => task.ID.Equal tid) hf⟩
      simp [this, hf]
    | none =>
      have : c.tasks.any (fun task => task.ID.Equal tid) = false := by
        rw [Bool.eq_false_iff]
        intro hany
        rw [List.any_eq_true] at hany
        obtain ⟨e, he, hee⟩ := hany
        rw [List.find?_eq_none] at hf
        exact hf e he hee
      simp [this, ih]

theorem Board.FindTask_of_col (b : Board) (x : TaskID) (src : Nat)
    (h : b.findTaskColumn (some x) = some src) :
    ∃ cs t, b.columns[src]? = some cs ∧
      cs.tasks.find? (fun task => task.ID.Equal (some x)) = some t ∧
      b.FindTask (some x) = .ok (t, cs) := by
  obtain ⟨cs, h1, h2, h3⟩ := find?_of_findIdx?_some _ _ _ h
  rw [List.any_eq_true] at h3
  obtain ⟨e, he, hee⟩ := h3
  cases hf : cs.tasks.find? (fun task => task.ID.Equal (some x)) with
  | none =>
    rw [List.find?_eq_none] at hf
    exact absurd hee (hf e he)
  | some t =>
    refine ⟨cs, t, h1, hf, ?_⟩
    rw [Board.FindTask, Board.FindTask_loop_eq, h2]
    simp [hf]

theorem Board.FindTask_of_col_none (b : Board) (x : TaskID)
    (h : b.findTaskColumn (some x) = none) : b.FindTask (some x) = .error ErrTaskNotFound := by
  have := find?_of_findIdx?_none _ _ h
  rw [Board.FindTask, Board.FindTask_loop_eq, this]

theorem eraseP_id_not_mem (l : List Task) (x : TaskID) (h : (l.map Task.ID).Nodup) :
    x ∉ (l.eraseP (fun task => task.ID.Equal (some x))).map Task.ID := by
  induction l with
  | nil => simp
  | cons a rest ih =>
    rw [List.map_cons, List.nodup_cons] at h
    by_cases ha : a.ID.Equal (some x) = true
    · rw [List.eraseP_cons_of_pos (p := fun (task : Task) => task.ID.Equal (some x)) ha]
      have : a.ID = x := (TaskID.Equal_some _ _).mp ha
      rw [← this]
      exact h.1
    · rw [List.eraseP_cons_of_neg (p := fun (task : Task) => task.ID.Equal (some x)) ha, List.map_cons, List.mem_cons]
      rintro (h1 | h1)
      · exact ha ((TaskID.Equal_some _ _).mpr h1.symm)
      · exact ih h.2 h1

theorem mem_ids_of_find? (l : List Task) (x : TaskID) (t : Task)
    (h : l.find? (fun task => task.ID.Equal (some x)) = some t) : t ∈ l ∧ t.id = x :=
  ⟨List.mem_of_find?_eq_some h,
    (Task.ID_Equal_iff t x).mp (List.find?_some (p := fun (task : Task) => task.ID.Equal (some x)) h)⟩

theorem colKeysAt_ids (cols : List Column) (k : Nat) (c : Column) (h : cols[k]? = some c) :
    (colKeysAt cols k).map Prod.fst = c.tasks.map Task.ID := by
  simp [colKeysAt, h, Task.key, Task.ID, Function.comp_def]

theorem Board.MoveTask_spec (b : Board) (x : TaskID) (target : String) (src : Nat)
    (hW : IdsNodup b.columns) (hN : NoWip b.columns)
    (hsrc : b.findTaskColumn (some x) = some src) :
    (b.getColumnIdx target = none ∧
      b.MoveTask (some x) target = (some ErrColumnNotFound, b)) ∨
    ∃ tgt, b.getColumnIdx target = some tgt ∧
      ((src ≠ tgt ∧ x ∈ (colKeysAt b.columns tgt).map Prod.fst ∧
          b.MoveTask (some x) target =
            (some ErrTaskAlreadyExists, { b with columns := moveCols b.columns src src x })) ∨
       ((src = tgt ∨ x ∉ (colKeysAt b.columns tgt).map Prod.fst) ∧
          b.MoveTask (some x) target =
            (none, { b with columns := moveCols b.columns src tgt x }))) := by
  obtain ⟨cs, t, hcs, hfind, hFind⟩ := Board.FindTask_of_col b x src hsrc
  obtain ⟨htmem, htid⟩ := mem_ids_of_find? _ _ _ hfind
  have hcsmem : cs ∈ b.columns := List.getElem?_mem hcs
  have hsrclt : src < b.columns.length := by
    rcases List.getElem?_eq_some_iff.mp hcs with ⟨h, _⟩
    exact h
  -- the source column after the removal
  have hrem : cs.RemoveTask (some x) =
      .ok (t, { cs with tasks := cs.tasks.eraseP (fun task => task.ID.Equal (some x)) }) := by
    simp [Column.RemoveTask, hfind]
  have hnot : t.id ∉ ({ cs with tasks := cs.tasks.eraseP (fun task => task.ID.Equal (some x)) } :
      Column).tasks.map Task.ID := by
    rw [htid]
    exact eraseP_id_not_mem _ _ (hW cs hcsmem)
  cases htg : b.getColumnIdx target with
  | none =>
    left
    refine ⟨rfl, ?_⟩
    simp [Board.MoveTask, hFind, hsrc, htg]
  | some tgt =>
    right
    refine ⟨tgt, rfl, ?_⟩
    obtain ⟨ct, hct, _⟩ := Board.GetColumn_of_idx b target tgt htg
    have hctmem : ct ∈ b.columns := List.getElem?_mem hct
    have hcan : ct.CanAddTask = true := Column.CanAddTask_noWip _ (hN ct hctmem)
    by_cases hst : src = tgt
    · subst hst
      right
      refine ⟨Or.inl rfl, ?_⟩
      have hctcs : ct = cs := by
        rw [hcs] at hct
        exact (Option.some.inj hct).symm
      subst hctcs
      have h1 : (b.columns.set src
          { ct with tasks := ct.tasks.eraseP (fun task => task.ID.Equal (some x)) })[src]? =
          some { ct with tasks := ct.tasks.eraseP (fun task => task.ID.Equal (some x)) } := by
        simp [List.getElem?_set_self hsrclt]
      have hadd := Column.AddTask_ok
        { ct with tasks := ct.tasks.eraseP (fun task => task.ID.Equal (some x)) } t
        (hN ct hctmem) hnot
      simp [Board.MoveTask, hFind, hsrc, htg, List.get?_eq_getElem?, hcs, hcan, hrem, h1, hadd,
        moveCols, hfind]
    · have h1 : (b.columns.set src
          { cs with tasks := cs.tasks.eraseP (fun task => task.ID.Equal (some x)) })[tgt]? =
          some ct := by
        rw [List.getElem?_set_ne hst, hct]
      have h2 : (b.columns.set src
          { cs with tasks := cs.tasks.eraseP (fun task => task.ID.Equal (some x)) })[src]? =
          some { cs with tasks := cs.tasks.eraseP (fun task => task.ID.Equal (some x)) } := by
        simp [List.getElem?_set_self hsrclt]
      by_cases hx : x ∈ (colKeysAt b.columns tgt).map Prod.fst
      · left
        refine ⟨hst, hx, ?_⟩
        rw [colKeysAt_ids _ _ _ hct, ← htid] at hx
        have hdup := Column.AddTask_dup ct t (hN ct hctmem) hx
        have hadd := Column.AddTask_ok
          { cs with tasks := cs.tasks.eraseP (fun task => task.ID.Equal (some x)) } t
          (hN cs hcsmem) hnot
        simp [Board.MoveTask, hFind, hsrc, htg, List.get?_eq_getElem?, hct, hcan, hrem, h1,
          hdup, hadd, moveCols, hfind, hcs, h2]
      · right
        refine ⟨Or.inr hx, ?_⟩
        rw [colKeysAt_ids _ _ _ hct, ← htid] at hx
        have hadd := Column.AddTask_ok ct t (hN ct hctmem) hx
        simp [Board.MoveTask, hFind, hsrc, htg, List.get?_eq_getElem?, hct, hcan, hrem, h1,
          hadd, moveCols, hfind, hcs]

theorem count_flatMap_set {α β : Type} [DecidableEq β] (l : List α) (i : Nat) (a a1 : α)
    (f : α → List β) (q : β) (h : l[i]? = some a) :
    ((l.set i a1).flatMap f).count q + (f a).count q =
      (l.flatMap f).count q + (f a1).count q := by
  induction l generalizing i with
  | nil => simp at h
  | cons c rest ih =>
    cases i with
    | zero =>
      simp only [List.getElem?_cons_zero, Option.some.injEq] at h
      subst h
      simp only [List.set_cons_zero, List.flatMap_cons, List.count_append]
      omega
    | succ j =>
      simp only [List.getElem?_cons_succ] at h
      have := ih j h
      simp only [List.set_cons_succ, List.flatMap_cons, List.count_append]
      omega

theorem perm_cons_eraseP_of_find? {α : Type} (p : α → Bool) (l : List α) (t : α)
    (h : l.find? p = some t) : l.Perm (t :: l.eraseP p) := by
  induction l with
  | nil => simp at h
  | cons a rest ih =>
    by_cases ha : p a = true
    · rw [List.find?_cons_of_pos _ ha] at h
      simp only [Option.some.injEq] at h
      subst h
      rw [List.eraseP_cons_of_pos ha]
    · rw [List.find?_cons_of_neg _ ha] at h
      rw [List.eraseP_cons_of_neg ha]
      exact ((ih h).cons a).trans (List.Perm.swap _ _ _)

theorem count_snoc {β : Type} [DecidableEq β] (l : List β) (a q : β) :
    (l ++ [a]).count q = l.count q + (if a = q then 1 else 0) := by
  simp [List.count_cons]

theorem count_of_perm_cons {β : Type} [DecidableEq β] (l l1 : List β) (a q : β)
    (h : l.Perm (a :: l1)) : l.count q = l1.count q + (if a = q then 1 else 0) := by
  rw [h.count_eq q]
  simp [List.count_cons]

section MoveCols

variable (cols : List Column) (src tgt : Nat) (x : TaskID) (cs : Column) (t : Task)

theorem moveCols_getElem? (hcs : cols[src]? = some cs)
    (hfind : cs.tasks.find? (fun task => task.ID.Equal (some x)) = some t)
    (htgt : tgt < cols.length) (k : Nat) :
    (moveCols cols src tgt x)[k]? =
      if k = tgt then
        (if src = tgt then
          some { cs with tasks := cs.tasks.eraseP (fun task => task.ID.Equal (some x)) ++ [t] }
        else (cols[tgt]?).map (fun ct => { ct with tasks := ct.tasks ++ [t] }))
      else if k = src then
        some { cs with tasks := cs.tasks.eraseP (fun task => task.ID.Equal (some x)) }
      else cols[k]? := by
  have hsrclt : src < cols.length := by
    rcases List.getElem?_eq_some_iff.mp hcs with ⟨h, _⟩
    exact h
  obtain ⟨ct, hct⟩ : ∃ ct, cols[tgt]? = some ct := ⟨cols[tgt], List.getElem?_eq_getElem htgt⟩
  by_cases hst : src = tgt
  · subst hst
    have h1 : (cols.set src
        { cs with tasks := cs.tasks.eraseP (fun task => task.ID.Equal (some x)) })[src]? =
        some { cs with tasks := cs.tasks.eraseP (fun task => task.ID.Equal (some x)) } := by
      simp [List.getElem?_set_self hsrclt]
    simp only [moveCols, hcs, hfind, h1, List.set_set]
    by_cases hk : k = src
    · subst hk
      simp [List.getElem?_set_self hsrclt]
    · have : src ≠ k := fun h => hk h.symm
      simp [hk, List.getElem?_set_ne this]
  · have h1 : (cols.set src
        { cs with tasks := cs.tasks.eraseP (fun task => task.ID.Equal (some x)) })[tgt]? =
        some ct := by
      rw [List.getElem?_set_ne hst, hct]
    simp only [moveCols, hcs, hfind, h1, hst, if_false, hct, Option.map_some']
    by_cases hk : k = tgt
    · subst hk
      have : k < (cols.set src
          { cs with tasks := cs.tasks.eraseP (fun task => task.ID.Equal (some x)) }).length := by
        simpa using htgt
      simp [List.getElem?_set_self this]
    · have hne : tgt ≠ k := fun h => hk h.symm
      rw [List.getElem?_set_ne hne]
      by_cases hk2 : k = src
      · subst hk2
        simp [hk, List.getElem?_set_self hsrclt]
      · have hne2 : src ≠ k := fun h => hk2 h.symm
        simp [hk, hk2, List.getElem?_set_ne hne2]

theorem moveCols_length : (moveCols cols src tgt x).length = cols.length := by
  unfold moveCols
  split
  · rfl
  · split
    · rfl
    · simp only
      split <;> simp

theorem moveCols_colView (hcs : cols[src]? = some cs)
    (hfind : cs.tasks.find? (fun task => task.ID.Equal (some x)) = some t)
    (htgt : tgt < cols.length) :
    (moveCols cols src tgt x).map colView = cols.map colView := by
  apply List.ext_getElem?
  intro k
  rw [List.getElem?_map, List.getElem?_map, moveCols_getElem? cols src tgt x cs t hcs hfind htgt k]
  by_cases hk : k = tgt
  · subst hk
    by_cases hst : src = k
    · subst hst
      simp [hcs, colView]
    · simp only [hst, if_false, if_true]
      cases cols[k]? <;> simp [colView]
  · by_cases hk2 : k = src
    · subst hk2
      simp [hk, hcs, colView]
    · simp [hk, hk2]

theorem moveCols_colKeysAt (hcs : cols[src]? = some cs)
    (hfind : cs.tasks.find? (fun task => task.ID.Equal (some x)) = some t)
    (htgt : tgt < cols.length) (k : Nat) :
    colKeysAt (moveCols cols src tgt x) k =
      if k = tgt then
        (if src = tgt then
          (cs.tasks.eraseP (fun task => task.ID.Equal (some x))).map Task.key ++ [t.key]
        else colKeysAt cols tgt ++ [t.key])
      else if k = src then (cs.tasks.eraseP (fun task => task.ID.Equal (some x))).map Task.key
      else colKeysAt cols k := by
  unfold colKeysAt
  rw [moveCols_getElem? cols src tgt x cs t hcs hfind htgt k]
  obtain ⟨ct, hct⟩ : ∃ ct, cols[tgt]? = some ct := ⟨cols[tgt], List.getElem?_eq_getElem htgt⟩
  by_cases hk : k = tgt
  · subst hk
    by_cases hst : src = k
    · simp [hst]
    · simp [hst, hct]
  · by_cases hk2 : k = src
    · subst hk2
      simp [hk]
    · simp [hk, hk2]

theorem mem_eraseP_keys (l : List Task) (q : TaskID × Option String) (hq : q.1 ≠ x) :
    q ∈ (l.eraseP (fun task => task.ID.Equal (some x))).map Task.key ↔ q ∈ l.map Task.key := by
  simp only [List.mem_map]
  constructor
  · rintro ⟨a, ha, rfl⟩
    exact ⟨a, List.mem_of_mem_eraseP ha, rfl⟩
  · rintro ⟨a, ha, rfl⟩
    refine ⟨a, ?_, rfl⟩
    have : ¬ (fun (task : Task) => task.ID.Equal (some x)) a = true := by
      intro h
      exact hq ((Task.ID_Equal_iff a x).mp h)
    exact (List.mem_eraseP_of_neg (p := fun (task : Task) => task.ID.Equal (some x)) this).mpr ha

/-- Moving the task with ID `x` leaves the keys with another ID where they are. -/
theorem moveCols_others (hcs : cols[src]? = some cs)
    (hfind : cs.tasks.find? (fun task => task.ID.Equal (some x)) = some t)
    (htgt : tgt < cols.length) (k : Nat) (q : TaskID × Option String) (hq : q.1 ≠ x) :
    q ∈ colKeysAt (moveCols cols src tgt x) k ↔ q ∈ colKeysAt cols k := by
  obtain ⟨_, htid⟩ := mem_ids_of_find? _ _ _ hfind
  have hqt : q ≠ t.key := by
    intro h
    apply hq
    rw [h]
    exact htid
  have hsrc : colKeysAt cols src = cs.tasks.map Task.key := by simp [colKeysAt, hcs]
  rw [moveCols_colKeysAt cols src tgt x cs t hcs hfind htgt k]
  by_cases hk : k = tgt
  · subst hk
    by_cases hst : src = k
    · subst hst
      simp [hqt, mem_eraseP_keys x _ q hq, hsrc]
    · simp [hst, hqt]
  · by_cases hk2 : k = src
    · subst hk2
      simp [hk, mem_eraseP_keys x _ q hq, hsrc]
    · simp [hk, hk2]

/-- Moving a task keeps the keys of the board, as a multiset. -/
theorem moveCols_allKeys (hcs : cols[src]? = some cs)
    (hfind : cs.tasks.find? (fun task => task.ID.Equal (some x)) = some t)
    (htgt : tgt < cols.length) :
    (allKeys (moveCols cols src tgt x)).Perm (allKeys cols) := by
  have hsrclt : src < cols.length := by
    rcases List.getElem?_eq_some_iff.mp hcs with ⟨h, _⟩
    exact h
  rw [List.perm_iff_count]
  intro q
  have hperm := perm_cons_eraseP_of_find? _ _ _ hfind
  have hcount := count_of_perm_cons _ _ _ q (hperm.map Task.key)
  let cs1 : Column := { cs with tasks := cs.tasks.eraseP (fun task => task.ID.Equal (some x)) }
  have e1 := count_flatMap_set cols src cs cs1 (fun c => c.tasks.map Task.key) q hcs
  have hlt1 : tgt < (cols.set src cs1).length := by simpa using htgt
  obtain ⟨ct1, hct1⟩ : ∃ ct1, (cols.set src cs1)[tgt]? = some ct1 :=
    ⟨(cols.set src cs1)[tgt], List.getElem?_eq_getElem hlt1⟩
  have e2 := count_flatMap_set (cols.set src cs1) tgt ct1
    { ct1 with tasks := ct1.tasks ++ [t] } (fun c => c.tasks.map Task.key) q hct1
  have hmc : moveCols cols src tgt x = (cols.set src cs1).set tgt
      { ct1 with tasks := ct1.tasks ++ [t] } := by
    simp only [moveCols, hcs, hfind]
    rw [hct1]
  simp only [allKeys, hmc]
  simp only [List.map_append, List.map_cons, List.map_nil, count_snoc] at e2
  simp only [cs1] at e1 e2 ⊢
  generalize (if t.key = q then 1 else 0) = n at *
  omega

end MoveCols

section MoveCols2

variable (cols : List Column) (src tgt : Nat) (x : TaskID) (cs : Column) (t : Task)

theorem eraseP_keys_not_mem (l : List Task) (h : (l.map Task.ID).Nodup) :
    x ∉ ((l.eraseP (fun task => task.ID.Equal (some x))).map Task.key).map Prod.fst := by
  have := eraseP_id_not_mem l x h
  simpa [Task.key, Task.ID, Function.comp_def] using this

theorem moveCols_IdsNodup (hW : IdsNodup cols) (hcs : cols[src]? = some cs)
    (hfind : cs.tasks.find? (fun task => task.ID.Equal (some x)) = some t)
    (htgt : tgt < cols.length)
    (hfree : src = tgt ∨ x ∉ (colKeysAt cols tgt).map Prod.fst) :
    IdsNodup (moveCols cols src tgt x) := by
  obtain ⟨_, htid⟩ := mem_ids_of_find? _ _ _ hfind
  have hcsn := hW cs (List.getElem?_mem hcs)
  have hern : ((cs.tasks.eraseP (fun task => task.ID.Equal (some x))).map Task.ID).Nodup :=
    hcsn.sublist ((List.eraseP_sublist _).map _)
  have hnot := eraseP_id_not_mem cs.tasks x hcsn
  intro c hc
  obtain ⟨k, hk⟩ := List.mem_iff_getElem?.mp hc
  rw [moveCols_getElem? cols src tgt x cs t hcs hfind htgt k] at hk
  by_cases hkt : k = tgt
  · subst hkt
    by_cases hst : src = k
    · simp only [hst, if_true, Option.some.injEq] at hk
      subst hk
      simp only [List.map_append, List.map_cons, List.map_nil]
      rw [List.nodup_append]
      refine ⟨hern, by simp, ?_⟩
      intro a ha hb
      simp only [List.mem_singleton] at hb
      subst hb
      rw [show t.ID = x from htid] at ha
      exact hnot ha
    · simp only [hst, if_false, if_true, Option.map_eq_some'] at hk
      obtain ⟨ct, hct, rfl⟩ := hk
      have hx : x ∉ ct.tasks.map Task.ID := by
        rcases hfree with h | h
        · exact absurd h hst
        · rwa [colKeysAt_ids _ _ _ hct] at h
      simp only [List.map_append, List.map_cons, List.map_nil]
      rw [List.nodup_append]
      refine ⟨hW ct (List.getElem?_mem hct), by simp, ?_⟩
      intro a ha hb
      simp only [List.mem_singleton] at hb
      subst hb
      rw [show t.ID = x from htid] at ha
      exact hx ha
  · by_cases hks : k = src
    · subst hks
      simp only [hkt, if_false, if_true, Option.some.injEq] at hk
      subst hk
      exact hern
    · simp only [hkt, hks, if_false] at hk
      exact hW c (List.getElem?_mem hk)

/-- A move within one column keeps the keys of every column, up to their order. -/
theorem moveCols_same (hcs : cols[src]? = some cs)
    (hfind : cs.tasks.find? (fun task => task.ID.Equal (some x)) = some t) (k : Nat) :
    (colKeysAt (moveCols cols src src x) k).Perm (colKeysAt cols k) := by
  have hsrclt : src < cols.length := by
    rcases List.getElem?_eq_some_iff.mp hcs with ⟨h, _⟩
    exact h
  rw [moveCols_colKeysAt cols src src x cs t hcs hfind hsrclt k]
  by_cases hk : k = src
  · subst hk
    simp only [if_true]
    have hperm := (perm_cons_eraseP_of_find? _ _ _ hfind).map Task.key
    have : colKeysAt cols k = cs.tasks.map Task.key := by simp [colKeysAt, hcs]
    rw [this]
    refine List.Perm.trans ?_ hperm.symm
    rw [List.map_cons]
    exact List.perm_append_singleton _ _
  · simp [hk]

/-- Where the moved task is afterwards, when its ID was in one column only. -/
theorem moveCols_lands (hW : IdsNodup cols) (hcs : cols[src]? = some cs)
    (hfind : cs.tasks.find? (fun task => task.ID.Equal (some x)) = some t)
    (htgt : tgt < cols.length)
    (honly : ∀ k, x ∈ (colKeysAt cols k).map Prod.fst → k = src) (k : Nat)
    (hk : x ∈ (colKeysAt (moveCols cols src tgt x) k).map Prod.fst) : k = tgt := by
  by_contra hkt
  rw [moveCols_colKeysAt cols src tgt x cs t hcs hfind htgt k] at hk
  by_cases hks : k = src
  · subst hks
    simp only [hkt, if_false, if_true] at hk
    exact eraseP_keys_not_mem x cs.tasks (hW cs (List.getElem?_mem hcs)) hk
  · simp only [hkt, hks, if_false] at hk
    exact hks (honly k hk)

end MoveCols2

theorem colKeysAt_eq_keyLists (cols : List Column) (k : Nat) :
    colKeysAt cols k = ((keyLists cols)[k]?).getD [] := by
  unfold colKeysAt keyLists
  rw [List.getElem?_map]
  cases cols[k]? <;> rfl

theorem allKeys_eq_keyLists (cols : List Column) : allKeys cols = (keyLists cols).flatten := by
  simp [allKeys, keyLists, List.flatMap_def]

theorem IdsNodup_iff_keyLists (cols : List Column) :
    IdsNodup cols ↔ ∀ l ∈ keyLists cols, (l.map Prod.fst).Nodup := by
  unfold IdsNodup keyLists
  simp only [List.mem_map, forall_exists_index, and_imp, forall_apply_eq_imp_iff₂, List.map_map]
  constructor
  · intro h c hc
    have := h c hc
    simpa [Task.key, Task.ID, Function.comp_def] using this
  · intro h c hc
    have := h c hc
    simpa [Task.key, Task.ID, Function.comp_def] using this

theorem findTaskColumn_eq_keyLists (b : Board) (x : TaskID) :
    b.findTaskColumn (some x) =
      (keyLists b.columns).findIdx? (fun l => l.any (fun q => decide (q.1 = x))) := by
  unfold Board.findTaskColumn keyLists
  rw [List.findIdx?_map]
  have hfun : (fun task : Task => task.ID.Equal (some x)) =
      ((fun q : TaskID × Option String => decide (q.1 = x)) ∘ Task.key) := by
    funext t
    rw [Bool.eq_iff_iff]
    simp [Task.ID_Equal_iff, Task.key]
  congr 1
  funext c
  simp only [Function.comp_apply, hfun]
  induction c.tasks with
  | nil => rfl
  | cons t rest ih => simp [List.any_cons, ih]

theorem colIdx_eq_views (cols : List Column) (n : String) :
    colIdx cols n = (cols.map colView).findIdx? (fun v => v.1 == n || v.2.1 == n) := by
  unfold colIdx
  rw [List.findIdx?_map]
  rfl

theorem colIdx_congr {cols cols1 : List Column} (h : cols1.map colView = cols.map colView)
    (n : String) : colIdx cols1 n = colIdx cols n := by
  rw [colIdx_eq_views, colIdx_eq_views, h]

theorem name_congr {cols cols1 : List Column} (h : cols1.map colView = cols.map colView)
    (k : Nat) (c1 : Column) (hc1 : cols1[k]? = some c1) :
    ∃ c, cols[k]? = some c ∧ c.name = c1.name ∧ c.wipLimit = c1.wipLimit := by
  have h1 : (cols1.map colView)[k]? = (cols.map colView)[k]? := by rw [h]
  rw [List.getElem?_map, List.getElem?_map, hc1] at h1
  cases hc : cols[k]? with
  | none => simp [hc] at h1
  | some c =>
    simp only [hc, Option.map_some', Option.some.injEq, colView, Prod.mk.injEq] at h1
    exact ⟨c, rfl, h1.1.symm, h1.2.2.symm⟩

theorem NoMove_congr {cols cols1 : List Column} (h : cols1.map colView = cols.map colView)
    (k : Nat) (dest : String) (hm : NoMove cols k dest) : NoMove cols1 k dest := by
  obtain ⟨c, hc, hcases⟩ := hm
  obtain ⟨c1, hc1, hname, _⟩ := name_congr h.symm k c hc
  refine ⟨c1, hc1, ?_⟩
  rw [colIdx_congr h, hname]
  exact hcases

theorem NoWip_congr {cols cols1 : List Column} (h : cols1.map colView = cols.map colView)
    (hN : NoWip cols) : NoWip cols1 := by
  intro c1 hc1
  obtain ⟨k, hk⟩ := List.mem_iff_getElem?.mp hc1
  obtain ⟨c, hc, _, hw⟩ := name_congr h k c1 hk
  rw [← hw]
  exact hN c (List.getElem?_mem hc)

theorem mem_allKeys_of_colKeysAt {cols : List Column} {k : Nat} {q : TaskID × Option String}
    (h : q ∈ colKeysAt cols k) : q ∈ allKeys cols := by
  unfold colKeysAt at h
  cases hc : cols[k]? with
  | none => simp [hc] at h
  | some c =>
    simp only [hc] at h
    exact List.mem_flatMap.mpr ⟨c, List.getElem?_mem hc, h⟩

theorem exists_colKeysAt_of_mem_allKeys {cols : List Column} {q : TaskID × Option String}
    (h : q ∈ allKeys cols) : ∃ k, q ∈ colKeysAt cols k := by
  obtain ⟨c, hc, hq⟩ := List.mem_flatMap.mp h
  obtain ⟨k, hk⟩ := List.mem_iff_getElem?.mp hc
  exact ⟨k, by simp only [colKeysAt, hk]; exact hq⟩

theorem KeysUnique_eq {cols : List Column} (hU : KeysUnique cols)
    {q q1 : TaskID × Option String} (hq : q ∈ allKeys cols) (hq1 : q1 ∈ allKeys cols)
    (h : q.1 = q1.1) : q = q1 :=
  List.inj_on_of_nodup_map hU hq hq1 h

theorem KeysUnique_col {cols : List Column} (hU : KeysUnique cols) {k k1 : Nat}
    {q q1 : TaskID × Option String} (hq : q ∈ colKeysAt cols k) (hq1 : q1 ∈ colKeysAt cols k1)
    (h : q.1 = q1.1) : k = k1 := by
  induction cols generalizing k k1 with
  | nil => simp [colKeysAt] at hq
  | cons c rest ih =>
    have hU1 : ((c.tasks.map Task.key ++ allKeys rest).map Prod.fst).Nodup := by
      simpa [KeysUnique, allKeys] using hU
    rw [List.map_append, List.nodup_append] at hU1
    obtain ⟨_, hrest, hdisj⟩ := hU1
    cases k with
    | zero =>
      cases k1 with
      | zero => rfl
      | succ j1 =>
        exfalso
        have h0 : q ∈ c.tasks.map Task.key := by simpa [colKeysAt] using hq
        have h1 : q1 ∈ colKeysAt rest j1 := by simpa [colKeysAt] using hq1
        exact hdisj (List.mem_map_of_mem _ h0)
          (h ▸ List.mem_map_of_mem _ (mem_allKeys_of_colKeysAt h1))
    | succ j =>
      have h0 : q ∈ colKeysAt rest j := by simpa [colKeysAt] using hq
      cases k1 with
      | zero =>
        exfalso
        have h1 : q1 ∈ c.tasks.map Task.key := by simpa [colKeysAt] using hq1
        exact hdisj (List.mem_map_of_mem _ h1)
          (h ▸ List.mem_map_of_mem _ (mem_allKeys_of_colKeysAt h0))
      | succ j1 =>
        have h1 : q1 ∈ colKeysAt rest j1 := by simpa [colKeysAt] using hq1
        rw [ih hrest h0 h1]

theorem nodup_filterMap_inj {α β : Type} (f : α → Option β) (l : List α)
    (h : (l.filterMap f).Nodup) {a a1 : α} {v : β} (ha : a ∈ l) (ha1 : a1 ∈ l)
    (hv : f a = some v) (hv1 : f a1 = some v) : a = a1 := by
  induction l with
  | nil => simp at ha
  | cons c rest ih =>
    cases hc : f c with
    | none =>
      rw [List.filterMap_cons_none hc] at h
      have hac : a ≠ c := fun e => by rw [e, hc] at hv; exact Option.noConfusion hv
      have ha1c : a1 ≠ c := fun e => by rw [e, hc] at hv1; exact Option.noConfusion hv1
      exact ih h ((List.mem_cons.mp ha).resolve_left hac)
        ((List.mem_cons.mp ha1).resolve_left ha1c)
    | some w =>
      rw [List.filterMap_cons_some hc, List.nodup_cons] at h
      rcases List.mem_cons.mp ha with e | hr
      · rcases List.mem_cons.mp ha1 with e1 | hr1
        · rw [e, e1]
        · exfalso
          rw [e, hc] at hv
          have : w = v := Option.some.inj hv
          exact h.1 (this ▸ List.mem_filterMap.mpr ⟨a1, hr1, hv1⟩)
      · rcases List.mem_cons.mp ha1 with e1 | hr1
        · exfalso
          rw [e1, hc] at hv1
          have : w = v := Option.some.inj hv1
          exact h.1 (this ▸ List.mem_filterMap.mpr ⟨a, hr, hv⟩)
        · exact ih h.2 hr hr1

theorem BranchesUnique_eq {cols : List Column} (hD : BranchesUnique cols)
    {q q1 : TaskID × Option String} {g : String} (hq : q ∈ allKeys cols)
    (hq1 : q1 ∈ allKeys cols) (h : q.2 = some g) (h1 : q1.2 = some g) : q = q1 :=
  nodup_filterMap_inj Prod.snd _ hD hq hq1 h h1

theorem SettledBranch_congr {cols cols1 : List Column} {g dest : String}
    (hv : cols1.map colView = cols.map colView)
    (hk : ∀ k q, q.2 = some g → q ∈ colKeysAt cols1 k → q ∈ colKeysAt cols k)
    (h : SettledBranch cols g dest) : SettledBranch cols1 g dest := by
  intro k q hq hg
  exact NoMove_congr hv k dest (h k q (hk k q hg hq) hg)

theorem KeysUnique_perm {cols cols1 : List Column} (h : (allKeys cols1).Perm (allKeys cols))
    (hU : KeysUnique cols) : KeysUnique cols1 :=
  ((h.map Prod.fst).nodup_iff).mpr hU

theorem BranchesUnique_perm {cols cols1 : List Column}
    (h : (allKeys cols1).Perm (allKeys cols)) (hD : BranchesUnique cols) :
    BranchesUnique cols1 :=
  ((h.filterMap Prod.snd).nodup_iff).mpr hD

theorem KeysUnique_of_cons {cols cols1 : List Column} {z : TaskID × Option String}
    (h : (allKeys cols1).Perm (z :: allKeys cols)) (hU : KeysUnique cols1) :
    KeysUnique cols ∧ z.1 ∉ (allKeys cols).map Prod.fst := by
  have := ((h.map Prod.fst).nodup_iff).mp hU
  rw [List.map_cons, List.nodup_cons] at this
  exact ⟨this.2, this.1⟩

theorem BranchesUnique_of_cons {cols cols1 : List Column} {z : TaskID × Option String}
    (h : (allKeys cols1).Perm (z :: allKeys cols)) (hD : BranchesUnique cols1) :
    BranchesUnique cols := by
  have := ((h.filterMap Prod.snd).nodup_iff).mp hD
  cases hz : z.2 with
  | none => rwa [List.filterMap_cons_none hz] at this
  | some w =>
    rw [List.filterMap_cons_some hz, List.nodup_cons] at this
    exact this.2

/-! ### Changes made through a task pointer -/

theorem updateTask_keyLists (b : Board) (p : Nat) (f : Task → Task)
    (hf : ∀ t, (f t).key = t.key) : keyLists (b.updateTask p f).columns = keyLists b.columns := by
  unfold keyLists Board.updateTask
  simp only [List.map_map]
  apply List.map_congr_left
  intro c _
  simp only [Function.comp_apply, List.map_map]
  apply List.map_congr_left
  intro t _
  simp only [Function.comp_apply]
  split
  · exact hf t
  · rfl

theorem updateTask_views (b : Board) (p : Nat) (f : Task → Task) :
    (b.updateTask p f).columns.map colView = b.columns.map colView := by
  unfold Board.updateTask
  simp only [List.map_map]
  apply List.map_congr_left
  intro c _
  rfl

theorem findTaskColumn_mem (b : Board) (x : TaskID) (src : Nat)
    (h : b.findTaskColumn (some x) = some src) :
    ∃ q, q ∈ colKeysAt b.columns src ∧ q.1 = x := by
  obtain ⟨cs, t, hcs, hfind, _⟩ := Board.FindTask_of_col b x src h
  obtain ⟨htmem, htid⟩ := mem_ids_of_find? _ _ _ hfind
  refine ⟨t.key, ?_, htid⟩
  simp only [colKeysAt, hcs]
  exact List.mem_map_of_mem _ htmem

theorem findTaskColumn_some_of_mem (b : Board) (x : TaskID) (k : Nat)
    (q : TaskID × Option String) (hq : q ∈ colKeysAt b.columns k) (hx : q.1 = x) :
    ∃ src, b.findTaskColumn (some x) = some src := by
  cases h : b.findTaskColumn (some x) with
  | some src => exact ⟨src, rfl⟩
  | none =>
    exfalso
    unfold Board.findTaskColumn at h
    rw [List.findIdx?_eq_none_iff] at h
    unfold colKeysAt at hq
    cases hc : b.columns[k]? with
    | none => simp [hc] at hq
    | some c =>
      simp only [hc, List.mem_map] at hq
      obtain ⟨t, ht, rfl⟩ := hq
      have := h c (List.getElem?_mem hc)
      rw [Bool.eq_false_iff] at this
      apply this
      rw [List.any_eq_true]
      exact ⟨t, ht, (Task.ID_Equal_iff t x).mpr hx⟩

theorem colIdx_lt (cols : List Column) (n : String) (i : Nat) (h : colIdx cols n = some i) :
    i < cols.length := by
  obtain ⟨c, hc, _⟩ := find?_of_findIdx?_some _ _ _ h
  rcases List.getElem?_eq_some_iff.mp hc with ⟨hlt, _⟩
  exact hlt

/-- What `Board.MoveTask` does to the columns of a board without limits in which no
column holds an ID twice. -/
theorem Board.MoveTask_facts (b : Board) (x : TaskID) (dest : String) (src : Nat)
    (hW : IdsNodup b.columns) (hN : NoWip b.columns)
    (hsrc : b.findTaskColumn (some x) = some src) :
    (b.MoveTask (some x) dest).2.columns.map colView = b.columns.map colView ∧
    IdsNodup (b.MoveTask (some x) dest).2.columns ∧
    (allKeys (b.MoveTask (some x) dest).2.columns).Perm (allKeys b.columns) ∧
    (∀ k q, q.1 ≠ x →
      (q ∈ colKeysAt (b.MoveTask (some x) dest).2.columns k ↔ q ∈ colKeysAt b.columns k)) ∧
    ((∀ k, x ∈ (colKeysAt b.columns k).map Prod.fst → k = src) →
      ∀ k, x ∈ (colKeysAt (b.MoveTask (some x) dest).2.columns k).map Prod.fst →
        (colIdx b.columns dest = none ∧ k = src) ∨ colIdx b.columns dest = some k) ∧
    ((colIdx b.columns dest = none ∨ colIdx b.columns dest = some src) →
      ∀ k, (colKeysAt (b.MoveTask (some x) dest).2.columns k).Perm (colKeysAt b.columns k)) := by
  obtain ⟨cs, t, hcs, hfind, _⟩ := Board.FindTask_of_col b x src hsrc
  have hsrclt : src < b.columns.length := by
    rcases List.getElem?_eq_some_iff.mp hcs with ⟨h, _⟩
    exact h
  rcases Board.MoveTask_spec b x dest src hW hN hsrc with ⟨hnone, hr⟩ | ⟨tgt, htg, hcase⟩
  · rw [hr]
    refine ⟨rfl, hW, List.Perm.refl _, fun _ _ _ => Iff.rfl, ?_, fun _ _ => List.Perm.refl _⟩
    intro honly k hk
    exact Or.inl ⟨hnone, honly k hk⟩
  · have htlt : tgt < b.columns.length := colIdx_lt _ _ _ htg
    rcases hcase with ⟨hne, hx, hr⟩ | ⟨hfree, hr⟩
    · rw [hr]
      refine ⟨moveCols_colView _ _ _ _ cs t hcs hfind hsrclt,
        moveCols_IdsNodup _ _ _ _ cs t hW hcs hfind hsrclt (Or.inl rfl),
        moveCols_allKeys _ _ _ _ cs t hcs hfind hsrclt,
        fun k q hq => moveCols_others _ _ _ _ cs t hcs hfind hsrclt k q hq, ?_,
        fun _ k => moveCols_same _ _ _ cs t hcs hfind k⟩
      intro honly k _
      exact absurd (honly tgt hx).symm hne
    · rw [hr]
      refine ⟨moveCols_colView _ _ _ _ cs t hcs hfind htlt,
        moveCols_IdsNodup _ _ _ _ cs t hW hcs hfind htlt hfree,
        moveCols_allKeys _ _ _ _ cs t hcs hfind htlt,
        fun k q hq => moveCols_others _ _ _ _ cs t hcs hfind htlt k q hq, ?_, ?_⟩
      · intro honly k hk
        right
        have := moveCols_lands _ _ _ _ cs t hW hcs hfind htlt honly k hk
        rw [this]
        exact htg
      · intro hor k
        rcases hor with h | h
        · have : colIdx b.columns dest = some tgt := htg
          rw [h] at this
          exact Option.noConfusion this
        · have h2 : colIdx b.columns dest = some tgt := htg
          rw [h] at h2
          have : src = tgt := Option.some.inj h2
          subst this
          exact moveCols_same _ _ _ cs t hcs hfind k

/-! ## Theorems: the steps of the git sync -/

theorem Column.AddTask_eq_ok (c c1 : Column) (t : Task) (h : c.AddTask t = .ok c1) :
    c1 = { c with tasks := c.tasks ++ [t] } ∧ t.id ∉ c.tasks.map Task.ID := by
  unfold Column.AddTask at h
  split at h
  · exact Except.noConfusion h
  · split at h
    · exact Except.noConfusion h
    · rename_i hany
      refine ⟨(Except.ok.inj h).symm, ?_⟩
      intro hmem
      apply hany
      rw [List.any_eq_true]
      obtain ⟨e, he, hee⟩ := List.mem_map.mp hmem
      exact ⟨e, he, (TaskID.Equal_some _ _).mpr hee⟩

theorem NewTask_ok (id : Option TaskID) (title description : String) (priority : Priority)
    (status : Status) (now : Time) (t : Task)
    (h : NewTask id title description priority status now = .ok t) :
    id = some t.id ∧ t.title = title ∧ t.metadata = [] := by
  unfold NewTask at h
  cases id with
  | none => exact Except.noConfusion h
  | some i =>
    simp only at h
    split at h
    · exact Except.noConfusion h
    · split at h
      · exact Except.noConfusion h
      · split at h
        · exact Except.noConfusion h
        · have := Except.ok.inj h
          subst this
          exact ⟨rfl, rfl, rfl⟩

theorem GenerateNextTaskID_ok (b bn : Board) (slug : String) (tid : TaskID)
    (h : b.GenerateNextTaskID slug = .ok (tid, bn)) :
    tid = ⟨b.pfx, b.nextTaskNum, slug⟩ ∧ bn.columns = b.columns ∧
      bn.nextTaskNum = wrapInt64 (b.nextTaskNum + 1) := by
  unfold Board.GenerateNextTaskID at h
  cases hn : NewTaskID b.pfx b.nextTaskNum slug with
  | error e => simp [hn] at h
  | ok t =>
    simp only [hn, Except.ok.injEq, Prod.mk.injEq] at h
    obtain ⟨rfl, rfl⟩ := h
    refine ⟨?_, rfl, rfl⟩
    unfold NewTaskID at hn
    split at hn
    · exact Except.noConfusion hn
    · split at hn
      · exact Except.noConfusion hn
      · split at hn
        · exact Except.noConfusion hn
        · split at hn
          · exact Except.noConfusion hn
          · split at hn
            · exact Except.noConfusion hn
            · exact (Except.ok.inj hn).symm

theorem chooseTaskID_columns (fold : String → String) (b bn : Board) (g title : String)
    (tid : TaskID) (h : GitRepoSyncStrategy.chooseTaskID fold b g = .ok (tid, title, bn)) :
    bn.columns = b.columns := by
  have hgen : ∀ r : Except Error (TaskID × String × Board),
      (match b.GenerateNextTaskID (slug.Generate fold g) with
        | .error err => (.error ⟨"failed to generate task ID: " ++ err.msg⟩ :
            Except Error (TaskID × String × Board))
        | .ok (taskID, board1) => .ok (taskID, g, board1)) = r →
      r = .ok (tid, title, bn) → bn.columns = b.columns := by
    intro r hr hok
    subst hr
    cases hg : b.GenerateNextTaskID (slug.Generate fold g) with
    | error e => simp [hg] at hok
    | ok p =>
      obtain ⟨t1, b1⟩ := p
      simp only [hg, Except.ok.injEq, Prod.mk.injEq] at hok
      obtain ⟨_, _, rfl⟩ := hok
      exact (GenerateNextTaskID_ok b b1 _ t1 hg).2.1
  unfold GitRepoSyncStrategy.chooseTaskID at h
  simp only at h
  split at h
  · split at h
    · simp only [Except.ok.injEq, Prod.mk.injEq] at h
      rw [← h.2.2]
    · exact hgen _ rfl h
  · exact hgen _ rfl h

theorem Task.branch_of_set (t : Task) (g v : String) (now : Time) :
    ((t.SetMetadata "git_branch" g now).SetMetadata "is_current_branch" v now).branch =
      some g := by
  simp [Task.branch, Task.SetMetadata, lookup_mapSet]

/-- What a successful `createBranchTask` did: nothing, when the target column is full;
else one task of the branch, with the chosen ID and title, is appended to the target
column. -/
theorem createBranchTask_ok (fold : String → String) (b b1 : Board) (g : String)
    (cur : Bool) (now : Time)
    (h : GitRepoSyncStrategy.createBranchTask fold b g cur now = (none, b1)) :
    ∃ idx c, b.getColumnIdx (targetColumnFor cur) = some idx ∧ b.columns[idx]? = some c ∧
      ((c.CanAddTask = false ∧ b1 = b) ∨
       (c.CanAddTask = true ∧ ∃ tid title bn task,
          GitRepoSyncStrategy.chooseTaskID fold b g = .ok (tid, title, bn) ∧
          task.id = tid ∧ task.title = title ∧ task.branch = some g ∧
          tid ∉ c.tasks.map Task.ID ∧
          b1 = { bn with columns := b.columns.set idx { c with tasks := c.tasks ++ [task] } })) := by
  unfold GitRepoSyncStrategy.createBranchTask at h
  simp only at h
  cases hidx : b.getColumnIdx (targetColumnFor cur) with
  | none =>
    rw [Board.GetColumn_of_idx_none b _ hidx] at h
    simp at h
  | some idx =>
    obtain ⟨c, hc, hget⟩ := Board.GetColumn_of_idx b _ idx hidx
    refine ⟨idx, c, rfl, hc, ?_⟩
    rw [hget, hidx] at h
    simp only at h
    cases hcan : c.CanAddTask with
    | false =>
      left
      simp only [hcan, Bool.not_false, if_true, Prod.mk.injEq, true_and] at h
      exact ⟨rfl, h.symm⟩
    | true =>
      right
      refine ⟨rfl, ?_⟩
      simp only [hcan, Bool.not_true, Bool.false_eq_true, if_false] at h
      cases hch : GitRepoSyncStrategy.chooseTaskID fold b g with
      | error e => simp [hch] at h
      | ok r =>
        obtain ⟨tid, title, bn⟩ := r
        simp only [hch] at h
        cases hnew : NewTask (some tid) title ("Git branch: " ++ g) PriorityNone StatusTodo now with
        | error e => simp [hnew] at h
        | ok task0 =>
          simp only [hnew] at h
          obtain ⟨hid, htitle, _⟩ := NewTask_ok _ _ _ _ _ _ _ hnew
          cases hadd : c.AddTask
              (({ task0 with ptr := b.freshPtr }.SetMetadata "git_branch" g now).SetMetadata
                "is_current_branch" (fmtBool cur) now) with
          | error e => simp [hadd] at h
          | ok c1 =>
            simp only [hadd, Prod.mk.injEq, true_and] at h
            obtain ⟨hc1, hnot⟩ := Column.AddTask_eq_ok _ _ _ hadd
            refine ⟨tid, title, bn,
              (({ task0 with ptr := b.freshPtr }.SetMetadata "git_branch" g now).SetMetadata
                "is_current_branch" (fmtBool cur) now), rfl, ?_, htitle,
              Task.branch_of_set _ _ _ _, ?_, ?_⟩
            · exact (Option.some.inj hid).symm
            · have : tid = task0.id := Option.some.inj hid
              rw [this]
              exact hnot
            · rw [← h, hc1, chooseTaskID_columns fold b bn g title tid hch]

theorem colKeysAt_congr {cols cols1 : List Column} (h : keyLists cols1 = keyLists cols)
    (k : Nat) : colKeysAt cols1 k = colKeysAt cols k := by
  rw [colKeysAt_eq_keyLists, colKeysAt_eq_keyLists, h]

theorem allKeys_congr {cols cols1 : List Column} (h : keyLists cols1 = keyLists cols) :
    allKeys cols1 = allKeys cols := by
  rw [allKeys_eq_keyLists, allKeys_eq_keyLists, h]

theorem IdsNodup_congr {cols cols1 : List Column} (h : keyLists cols1 = keyLists cols)
    (hW : IdsNodup cols) : IdsNodup cols1 := by
  rw [IdsNodup_iff_keyLists] at hW ⊢
  rw [h]
  exact hW

theorem SettledBranch_of_eq {cols cols1 : List Column} {g dest : String}
    (hk : keyLists cols1 = keyLists cols) (hv : cols1.map colView = cols.map colView)
    (h : SettledBranch cols g dest) : SettledBranch cols1 g dest :=
  SettledBranch_congr hv (fun k q _ hq => by rwa [colKeysAt_congr hk] at hq) h

theorem Job_congr_left {cols0 cols cols1 : List Column} {g dest : String} {created : Bool}
    (hk : keyLists cols0 = keyLists cols) (hv : cols0.map colView = cols.map colView)
    (J : Job cols0 cols1 g dest created) : Job cols cols1 g dest created where
  views := by rw [J.views, hv]
  nodup := J.nodup
  keys := by
    have := J.keys
    rwa [allKeys_congr hk] at this
  others := fun hU k q hq => by
    rw [J.others hU k q hq, colKeysAt_congr hk]
  settled := J.settled
  fix := fun hc hU hD hS k => by
    have hU0 : KeysUnique cols0 := by unfold KeysUnique; rwa [allKeys_congr hk]
    have hD0 : BranchesUnique cols0 := by unfold BranchesUnique; rwa [allKeys_congr hk]
    have := J.fix hc hU0 hD0 (SettledBranch_of_eq hk hv hS) k
    rwa [colKeysAt_congr hk] at this

theorem Job_congr_right {cols cols1 cols2 : List Column} {g dest : String} {created : Bool}
    (hk : keyLists cols2 = keyLists cols1) (hv : cols2.map colView = cols1.map colView)
    (J : Job cols cols1 g dest created) : Job cols cols2 g dest created where
  views := by rw [hv, J.views]
  nodup := IdsNodup_congr hk J.nodup
  keys := by
    have := J.keys
    rwa [← allKeys_congr hk] at this
  others := fun hU k q hq => by
    have hU1 : KeysUnique cols1 := by unfold KeysUnique; rwa [← allKeys_congr hk]
    rw [colKeysAt_congr hk, J.others hU1 k q hq]
  settled := fun hU hD => by
    have hU1 : KeysUnique cols1 := by unfold KeysUnique; rwa [← allKeys_congr hk]
    have hD1 : BranchesUnique cols1 := by unfold BranchesUnique; rwa [← allKeys_congr hk]
    obtain ⟨hS, hP⟩ := J.settled hU1 hD1
    refine ⟨SettledBranch_of_eq hk hv hS, ?_⟩
    rwa [allKeys_congr hk]
  fix := fun hc hU hD hS k => by
    rw [colKeysAt_congr hk]
    exact J.fix hc hU hD hS k

/-- A step that acts on the one task with ID `x`, of branch `g`, is a job for `g`. -/
theorem Job_of_facts (cols cols1 : List Column) (x : TaskID) (g dest : String) (src : Nat)
    (hv : cols1.map colView = cols.map colView) (hn : IdsNodup cols1)
    (hp : (allKeys cols1).Perm (allKeys cols))
    (ho : ∀ k q, q.1 ≠ x → (q ∈ colKeysAt cols1 k ↔ q ∈ colKeysAt cols k))
    (hxsrc : ∃ q, q ∈ colKeysAt cols src ∧ q.1 = x)
    (hg : (x, some g) ∈ allKeys cols)
    (hland : (∀ k, x ∈ (colKeysAt cols k).map Prod.fst → k = src) →
      ∀ k, x ∈ (colKeysAt cols1 k).map Prod.fst → NoMove cols k dest)
    (hfix : NoMove cols src dest → ∀ k, (colKeysAt cols1 k).Perm (colKeysAt cols k)) :
    Job cols cols1 g dest false where
  views := hv
  nodup := hn
  keys := by simpa using hp
  others := fun hU1 k q hq => by
    have hU : KeysUnique cols := KeysUnique_perm hp.symm hU1
    by_cases hqx : q.1 = x
    · constructor
      · intro hmem
        exfalso
        have := KeysUnique_eq hU1 (mem_allKeys_of_colKeysAt hmem) (hp.symm.subset hg) hqx
        exact hq (by rw [this])
      · intro hmem
        exfalso
        have := KeysUnique_eq hU (mem_allKeys_of_colKeysAt hmem) hg hqx
        exact hq (by rw [this])
    · exact ho k q hqx
  settled := fun hU1 hD1 => by
    have hU : KeysUnique cols := KeysUnique_perm hp.symm hU1
    have hg1 : (x, some g) ∈ allKeys cols1 := hp.symm.subset hg
    refine ⟨?_, (x, some g), hg1, rfl⟩
    intro k q hq hqg
    have hqe : q = (x, some g) :=
      BranchesUnique_eq hD1 (mem_allKeys_of_colKeysAt hq) hg1 hqg rfl
    obtain ⟨q0, hq0, hq0x⟩ := hxsrc
    have honly : ∀ k, x ∈ (colKeysAt cols k).map Prod.fst → k = src := by
      intro k1 hk1
      obtain ⟨q1, hq1, hq1x⟩ := List.mem_map.mp hk1
      exact KeysUnique_col hU hq1 hq0 (hq1x.trans hq0x.symm)
    have hxk : x ∈ (colKeysAt cols1 k).map Prod.fst :=
      List.mem_map.mpr ⟨q, hq, by rw [hqe]⟩
    exact NoMove_congr hv k dest (hland honly k hxk)
  fix := fun _ hU _ hS k => by
    obtain ⟨q0, hq0, hq0x⟩ := hxsrc
    have hqe : q0 = (x, some g) :=
      KeysUnique_eq hU (mem_allKeys_of_colKeysAt hq0) hg hq0x
    exact hfix (hS src q0 hq0 (by rw [hqe])) k

theorem NoMove_of_landing (cols : List Column) (src k : Nat) (dest : String) (cs : Column)
    (hcs : cols[src]? = some cs)
    (h : (colIdx cols dest = none ∧ k = src) ∨ colIdx cols dest = some k) :
    NoMove cols k dest := by
  rcases h with ⟨hnone, rfl⟩ | hsome
  · exact ⟨cs, hcs, Or.inr (Or.inr (Or.inl hnone))⟩
  · have hlt := colIdx_lt _ _ _ hsome
    exact ⟨cols[k], List.getElem?_eq_getElem hlt, Or.inr (Or.inr (Or.inr hsome))⟩

/-- A step that leaves the columns as they are, for a task whose column needs no move. -/
theorem Job_of_stay (cols : List Column) (x : TaskID) (g dest : String) (src : Nat)
    (cs : Column) (hW : IdsNodup cols) (hcs : cols[src]? = some cs)
    (hxsrc : ∃ q, q ∈ colKeysAt cols src ∧ q.1 = x) (hg : (x, some g) ∈ allKeys cols)
    (hname : cs.name = dest ∨ cs.name = "Done") : Job cols cols g dest false :=
  Job_of_facts cols cols x g dest src rfl hW (List.Perm.refl _) (fun _ _ _ => Iff.rfl) hxsrc hg
    (fun honly k hk => by
      rw [honly k hk]
      exact ⟨cs, hcs, by rcases hname with h | h; exact Or.inl h; exact Or.inr (Or.inl h)⟩)
    (fun _ _ => List.Perm.refl _)

/-- A step that calls `Board.MoveTask` for a task whose column has neither the name of
the destination nor the name `Done`. -/
theorem Job_of_move (b : Board) (x : TaskID) (g dest : String) (src : Nat) (cs : Column)
    (hW : IdsNodup b.columns) (hN : NoWip b.columns)
    (hsrc : b.findTaskColumn (some x) = some src) (hcs : b.columns[src]? = some cs)
    (hg : (x, some g) ∈ allKeys b.columns) (hname : ¬ (cs.name = dest ∨ cs.name = "Done")) :
    Job b.columns (b.MoveTask (some x) dest).2.columns g dest false := by
  obtain ⟨hv, hn, hp, ho, hland, hfix⟩ := Board.MoveTask_facts b x dest src hW hN hsrc
  refine Job_of_facts _ _ x g dest src hv hn hp ho (findTaskColumn_mem b x src hsrc) hg ?_ ?_
  · intro honly k hk
    exact NoMove_of_landing _ src k dest cs hcs (hland honly k hk)
  · rintro ⟨c, hc, hcases⟩ k
    rw [hcs] at hc
    have : cs = c := Option.some.inj hc
    subst this
    rcases hcases with h | h | h | h
    · exact absurd (Or.inl h) hname
    · exact absurd (Or.inr h) hname
    · exact hfix (Or.inl h) k
    · exact hfix (Or.inr h) k

theorem updateBranchTask_Job (b : Board) (t0 : Task) (g : String) (cur : Bool) (now : Time)
    (hW : IdsNodup b.columns) (hN : NoWip b.columns)
    (hg : (t0.id, some g) ∈ allKeys b.columns) :
    ∃ b1, GitRepoSyncStrategy.updateBranchTask b t0 cur now = (none, b1) ∧
      Job b.columns b1.columns g (targetColumnFor cur) false := by
  have hf : ∀ t : Task, (t.SetMetadata "is_current_branch" (fmtBool cur) now).key = t.key :=
    fun t => Task.key_SetMetadata t _ _ now (by decide)
  have hkl := updateTask_keyLists b t0.ptr _ hf
  have hvu := updateTask_views b t0.ptr
    (fun t => t.SetMetadata "is_current_branch" (fmtBool cur) now)
  have hWu := IdsNodup_congr hkl hW
  have hNu := NoWip_congr hvu hN
  have hgu : (t0.id, some g) ∈ allKeys (b.updateTask t0.ptr
      (fun t => t.SetMetadata "is_current_branch" (fmtBool cur) now)).columns := by
    rw [allKeys_congr hkl]
    exact hg
  obtain ⟨k, hk⟩ := exists_colKeysAt_of_mem_allKeys hgu
  obtain ⟨src, hsrc⟩ := findTaskColumn_some_of_mem _ t0.id k _ hk rfl
  obtain ⟨cs, t, hcs, hfind, hFind⟩ := Board.FindTask_of_col _ _ _ hsrc
  unfold GitRepoSyncStrategy.updateBranchTask
  simp only [Task.ID, hFind, Column.Name]
  by_cases hname : cs.name = targetColumnFor cur ∨ cs.name = "Done"
  · refine ⟨_, ?_, Job_congr_left hkl hvu
      (Job_of_stay _ t0.id g _ src cs hWu hcs (findTaskColumn_mem _ _ _ hsrc) hgu hname)⟩
    rcases hname with h | h
    · simp [h]
    · by_cases h2 : cs.name = targetColumnFor cur
      · simp [h2]
      · simp [h2, h]
  · refine ⟨_, ?_, Job_congr_left hkl hvu
      (Job_of_move _ t0.id g _ src cs hWu hNu hsrc hcs hgu hname)⟩
    rw [not_or] at hname
    simp [hname.1, hname.2]

theorem moveTaskToDone_Job (b : Board) (t0 : Task) (g : String) (now : Time)
    (hW : IdsNodup b.columns) (hN : NoWip b.columns)
    (hg : (t0.id, some g) ∈ allKeys b.columns) :
    Job b.columns (GitRepoSyncStrategy.moveTaskToDone b t0 now).2.columns g "Done" false := by
  obtain ⟨k, hk⟩ := exists_colKeysAt_of_mem_allKeys hg
  obtain ⟨src, hsrc⟩ := findTaskColumn_some_of_mem _ t0.id k _ hk rfl
  obtain ⟨cs, t, hcs, hfind, hFind⟩ := Board.FindTask_of_col _ _ _ hsrc
  unfold GitRepoSyncStrategy.moveTaskToDone
  simp only [Task.ID, hFind, Column.Name]
  by_cases hname : cs.name = "Done"
  · simp only [hname, if_true]
    exact Job_of_stay _ t0.id g _ src cs hW hcs (findTaskColumn_mem _ _ _ hsrc) hg
      (Or.inl hname)
  · simp only [hname, if_false]
    have hJ := Job_of_move b t0.id g "Done" src cs hW hN hsrc hcs hg (by simp [hname])
    cases hr : b.MoveTask (some t0.id) "Done" with
    | mk e b1 =>
      rw [hr] at hJ
      cases e with
      | some err => exact hJ
      | none =>
        simp only
        cases hm : t0.MarkAsCompleted now with
        | error e2 => exact hJ
        | ok t1 =>
          simp only
          have hf : ∀ t : Task, (match t.MarkAsCompleted now with
              | .ok t1 => t1
              | .error _ => t).key = t.key := by
            intro t
            cases ht : t.MarkAsCompleted now with
            | error _ => rfl
            | ok t2 => exact Task.key_MarkAsCompleted t t2 now ht
          exact Job_congr_right (updateTask_keyLists b1 t0.ptr _ hf)
            (updateTask_views b1 t0.ptr _) hJ

theorem count_cons_eq {β : Type} [DecidableEq β] (l : List β) (a q : β) :
    (a :: l).count q = l.count q + (if a = q then 1 else 0) := by
  simp [List.count_cons]

section Append

variable (cols : List Column) (idx : Nat) (c : Column) (task : Task)

theorem append_getElem? (hc : cols[idx]? = some c) (k : Nat) :
    (cols.set idx { c with tasks := c.tasks ++ [task] })[k]? =
      if k = idx then some { c with tasks := c.tasks ++ [task] } else cols[k]? := by
  have hlt : idx < cols.length := by
    rcases List.getElem?_eq_some_iff.mp hc with ⟨h, _⟩
    exact h
  by_cases hk : k = idx
  · subst hk
    simp [List.getElem?_set_self hlt]
  · have : idx ≠ k := fun h => hk h.symm
    simp [hk, List.getElem?_set_ne this]

theorem append_views (hc : cols[idx]? = some c) :
    (cols.set idx { c with tasks := c.tasks ++ [task] }).map colView = cols.map colView := by
  apply List.ext_getElem?
  intro k
  rw [List.getElem?_map, List.getElem?_map, append_getElem? cols idx c task hc k]
  by_cases hk : k = idx
  · subst hk
    simp [hc, colView]
  · simp [hk]

theorem append_colKeysAt (hc : cols[idx]? = some c) (k : Nat) :
    colKeysAt (cols.set idx { c with tasks := c.tasks ++ [task] }) k =
      if k = idx then colKeysAt cols idx ++ [task.key] else colKeysAt cols k := by
  unfold colKeysAt
  rw [append_getElem? cols idx c task hc k]
  by_cases hk : k = idx
  · subst hk
    simp [hc]
  · simp [hk]

theorem append_allKeys (hc : cols[idx]? = some c) :
    (allKeys (cols.set idx { c with tasks := c.tasks ++ [task] })).Perm
      (task.key :: allKeys cols) := by
  rw [List.perm_iff_count]
  intro q
  have e := count_flatMap_set cols idx c { c with tasks := c.tasks ++ [task] }
    (fun c => c.tasks.map Task.key) q hc
  simp only [List.map_append, List.map_cons, List.map_nil, count_snoc] at e
  rw [count_cons_eq]
  simp only [allKeys]
  generalize (if task.key = q then 1 else 0) = n at *
  omega

theorem append_IdsNodup (hW : IdsNodup cols) (hc : cols[idx]? = some c)
    (hx : task.id ∉ c.tasks.map Task.ID) :
    IdsNodup (cols.set idx { c with tasks := c.tasks ++ [task] }) := by
  intro c1 hc1
  obtain ⟨k, hk⟩ := List.mem_iff_getElem?.mp hc1
  rw [append_getElem? cols idx c task hc k] at hk
  by_cases hki : k = idx
  · simp only [hki, if_true, Option.some.injEq] at hk
    subst hk
    simp only [List.map_append, List.map_cons, List.map_nil]
    rw [List.nodup_append]
    refine ⟨hW c (List.getElem?_mem hc), by simp, ?_⟩
    intro a ha hb
    simp only [List.mem_singleton] at hb
    subst hb
    exact hx ha
  · simp only [hki, if_false] at hk
    exact hW c1 (List.getElem?_mem hk)

end Append

theorem createBranchTask_Job (fold : String → String) (b b1 : Board) (g : String)
    (cur : Bool) (now : Time) (hW : IdsNodup b.columns) (hN : NoWip b.columns)
    (h : GitRepoSyncStrategy.createBranchTask fold b g cur now = (none, b1)) :
    Job b.columns b1.columns g (targetColumnFor cur) true := by
  obtain ⟨idx, c, hidx, hc, hcase⟩ := createBranchTask_ok fold b b1 g cur now h
  rcases hcase with ⟨hfull, _⟩ | ⟨_, tid, title, bn, task, _, htid, _, hbr, hnot, hb1⟩
  · rw [Column.CanAddTask_noWip c (hN c (List.getElem?_mem hc))] at hfull
    exact Bool.noConfusion hfull
  · have hcols : b1.columns = b.columns.set idx { c with tasks := c.tasks ++ [task] } := by
      rw [hb1]
    have hkey : task.key = (tid, some g) := by simp [Task.key, htid, hbr]
    have hperm := append_allKeys b.columns idx c task hc
    rw [hcols]
    exact {
      views := append_views b.columns idx c task hc
      nodup := append_IdsNodup b.columns idx c task hW hc (by rw [htid]; exact hnot)
      keys := by
        simp only [if_true]
        exact ⟨tid, by rw [← hkey]; exact hperm⟩
      others := fun _ k q hq => by
        rw [append_colKeysAt b.columns idx c task hc k]
        by_cases hk : k = idx
        · subst hk
          have : q ≠ task.key := fun e => hq (by rw [e, hkey])
          simp [this]
        · simp [hk]
      settled := fun hU1 hD1 => by
        have hmem : task.key ∈ allKeys (b.columns.set idx { c with tasks := c.tasks ++ [task] }) :=
          hperm.symm.subset (List.mem_cons_self _ _)
        refine ⟨?_, task.key, hmem, by rw [hkey]⟩
        intro k q hq hqg
        have hqe : q = task.key :=
          BranchesUnique_eq hD1 (mem_allKeys_of_colKeysAt hq) hmem hqg (by rw [hkey])
        have hki : k = idx := by
          by_contra hne
          rw [append_colKeysAt b.columns idx c task hc k] at hq
          simp only [hne, if_false] at hq
          have hfresh := (KeysUnique_of_cons hperm hU1).2
          apply hfresh
          rw [← hqe]
          exact List.mem_map_of_mem _ (mem_allKeys_of_colKeysAt hq)
        subst hki
        refine ⟨{ c with tasks := c.tasks ++ [task] },
          (append_getElem? b.columns k c task hc k).trans (by simp), ?_⟩
        right; right; right
        rw [colIdx_congr (append_views b.columns k c task hc)]
        exact hidx
      fix := fun hcr => Bool.noConfusion hcr }

/-! ## Theorems: running the git sync twice -/

theorem Job_subperm {cols cols1 : List Column} {g dest : String} {created : Bool}
    (J : Job cols cols1 g dest created) : (allKeys cols).Subperm (allKeys cols1) := by
  have := J.keys
  cases created with
  | false =>
    simp only [Bool.false_eq_true, if_false] at this
    exact this.symm.subperm
  | true =>
    simp only [if_true] at this
    obtain ⟨z, hz⟩ := this
    exact (List.sublist_cons_self _ _).subperm.trans hz.symm.subperm

theorem KeysUnique_subperm {cols cols1 : List Column}
    (h : (allKeys cols).Subperm (allKeys cols1)) (hU : KeysUnique cols1) : KeysUnique cols := by
  obtain ⟨l, hperm, hsub⟩ := h
  exact ((hperm.map Prod.fst).nodup_iff).mp (hU.sublist (hsub.map _))

theorem BranchesUnique_subperm {cols cols1 : List Column}
    (h : (allKeys cols).Subperm (allKeys cols1)) (hD : BranchesUnique cols1) :
    BranchesUnique cols := by
  obtain ⟨l, hperm, hsub⟩ := h
  exact ((hperm.filterMap Prod.snd).nodup_iff).mp (hD.sublist (hsub.filterMap _))

/-! ### The loops of the sync as sequences of jobs -/

theorem processBranches_Run (fold : String → String) (existing : List (String × Task))
    (current : String) (now : Time) (todo : List String) (b bP : Board)
    (hW : IdsNodup b.columns) (hN : NoWip b.columns)
    (hE : ∀ g t, g ∈ todo → existing.lookup g = some t → (t.id, some g) ∈ allKeys b.columns)
    (h : GitRepoSyncStrategy.processBranches fold existing current now todo b = (none, bP)) :
    Run (todo.map (fun g =>
        (g, targetColumnFor (decide (g = current)), (existing.lookup g).isNone)))
      b.columns bP.columns := by
  induction todo generalizing b with
  | nil =>
    simp only [GitRepoSyncStrategy.processBranches, Prod.mk.injEq, true_and] at h
    subst h
    exact Run.nil _
  | cons g rest ih =>
    unfold GitRepoSyncStrategy.processBranches at h
    simp only at h
    cases hl : existing.lookup g with
    | some t0 =>
      obtain ⟨b1, hu, J⟩ := updateBranchTask_Job b t0 g (decide (g = current)) now hW hN
        (hE g t0 (List.mem_cons_self _ _) hl)
      simp only [hl, hu] at h
      have hrun := ih b1 J.nodup (NoWip_congr J.views hN)
        (fun g1 t1 hg1 hl1 => (Job_subperm J).subset (hE g1 t1 (List.mem_cons_of_mem _ hg1) hl1)) h
      simp only [List.map_cons, hl, Option.isNone_some]
      exact Run.cons J hrun
    | none =>
      simp only [hl] at h
      cases hc : GitRepoSyncStrategy.createBranchTask fold b g (decide (g = current)) now with
      | mk e b1 =>
        cases e with
        | some err => simp [hc] at h
        | none =>
          simp only [hc] at h
          have J := createBranchTask_Job fold b b1 g _ now hW hN hc
          have hrun := ih b1 J.nodup (NoWip_congr J.views hN)
            (fun g1 t1 hg1 hl1 => (Job_subperm J).subset (hE g1 t1 (List.mem_cons_of_mem _ hg1) hl1)) h
          simp only [List.map_cons, hl, Option.isNone_none]
          exact Run.cons J hrun

theorem processBranches_succeeds (fold : String → String) (existing : List (String × Task))
    (current : String) (now : Time) (todo : List String) (b : Board)
    (hW : IdsNodup b.columns) (hN : NoWip b.columns)
    (hE : ∀ g t, g ∈ todo → existing.lookup g = some t → (t.id, some g) ∈ allKeys b.columns)
    (hall : ∀ g ∈ todo, ∃ t, existing.lookup g = some t) :
    ∃ bP, GitRepoSyncStrategy.processBranches fold existing current now todo b = (none, bP) := by
  induction todo generalizing b with
  | nil => exact ⟨b, rfl⟩
  | cons g rest ih =>
    obtain ⟨t0, hl⟩ := hall g (List.mem_cons_self _ _)
    obtain ⟨b1, hu, J⟩ := updateBranchTask_Job b t0 g (decide (g = current)) now hW hN
      (hE g t0 (List.mem_cons_self _ _) hl)
    obtain ⟨bP, hP⟩ := ih b1 J.nodup (NoWip_congr J.views hN)
      (fun g1 t1 hg1 hl1 => (Job_subperm J).subset (hE g1 t1 (List.mem_cons_of_mem _ hg1) hl1))
      (fun g1 hg1 => hall g1 (List.mem_cons_of_mem _ hg1))
    refine ⟨bP, ?_⟩
    unfold GitRepoSyncStrategy.processBranches
    simp only [hl, hu]
    exact hP

theorem moveDeleted_Run (branches : List String) (now : Time) (es : List (String × Task))
    (b : Board) (hW : IdsNodup b.columns) (hN : NoWip b.columns)
    (hE : ∀ g t, (g, t) ∈ es → (t.id, some g) ∈ allKeys b.columns) :
    Run ((es.filter (fun e => decide (e.1 ∉ branches))).map (fun e => (e.1, "Done", false)))
      b.columns (GitRepoSyncStrategy.moveDeleted branches now es b).columns := by
  induction es generalizing b with
  | nil => exact Run.nil _
  | cons e rest ih =>
    obtain ⟨g, t0⟩ := e
    unfold GitRepoSyncStrategy.moveDeleted
    by_cases hg : g ∈ branches
    · simp only [hg, if_true]
      have : (List.filter (fun e => decide (e.1 ∉ branches)) ((g, t0) :: rest)) =
          List.filter (fun e => decide (e.1 ∉ branches)) rest := by
        rw [List.filter_cons_of_neg]
        simp [hg]
      rw [this]
      exact ih b hW hN (fun g1 t1 h1 => hE g1 t1 (List.mem_cons_of_mem _ h1))
    · simp only [hg, if_false]
      have : (List.filter (fun e => decide (e.1 ∉ branches)) ((g, t0) :: rest)) =
          (g, t0) :: List.filter (fun e => decide (e.1 ∉ branches)) rest := by
        rw [List.filter_cons_of_pos]
        simp [hg]
      rw [this, List.map_cons]
      have J := moveTaskToDone_Job b t0 g now hW hN (hE g t0 (List.mem_cons_self _ _))
      exact Run.cons J (ih _ J.nodup (NoWip_congr J.views hN)
        (fun g1 t1 h1 => (Job_subperm J).subset (hE g1 t1 (List.mem_cons_of_mem _ h1))))

theorem Run_append {js1 js2 : List (String × String × Bool)} {cols cols1 cols2 : List Column}
    (h1 : Run js1 cols cols1) (h2 : Run js2 cols1 cols2) : Run (js1 ++ js2) cols cols2 := by
  induction h1 with
  | nil _ => exact h2
  | cons J _ ih => exact Run.cons J (ih h2)

/-! ### What a sequence of jobs does -/

theorem Run_basic {js : List (String × String × Bool)} {cols colsN : List Column}
    (h : Run js cols colsN) (hW : IdsNodup cols) :
    colsN.map colView = cols.map colView ∧ IdsNodup colsN ∧
      (allKeys cols).Subperm (allKeys colsN) := by
  induction h with
  | nil _ => exact ⟨rfl, hW, List.Subperm.refl _⟩
  | cons J _ ih =>
    obtain ⟨hv, hn, hs⟩ := ih J.nodup
    exact ⟨hv.trans J.views, hn, (Job_subperm J).trans hs⟩

/-- After a sequence of jobs for pairwise distinct branches that ends with distinct IDs
and distinct branches, the tasks of every branch of the sequence are where the sync
leaves them, and the tasks of the other branches are where they were. -/
theorem Run_main {js : List (String × String × Bool)} {cols colsN : List Column}
    (h : Run js cols colsN) (hW : IdsNodup cols) (hU : KeysUnique colsN)
    (hD : BranchesUnique colsN) (hnd : (js.map Prod.fst).Nodup) :
    (∀ q ∈ allKeys colsN, q ∈ allKeys cols ∨ ∃ j ∈ js, j.2.2 = true ∧ q.2 = some j.1) ∧
    (∀ k q, (∀ j ∈ js, q.2 ≠ some j.1) → (q ∈ colKeysAt colsN k ↔ q ∈ colKeysAt cols k)) ∧
    (∀ j ∈ js, SettledBranch colsN j.1 j.2.1 ∧ ∃ q ∈ allKeys colsN, q.2 = some j.1) := by
  induction h with
  | nil _ =>
    refine ⟨fun q hq => Or.inl hq, fun _ _ _ => Iff.rfl, ?_⟩
    intro j hj
    simp at hj
  | @cons cols cols1 cols2 g dest created js J hrun ih =>
    rw [List.map_cons, List.nodup_cons] at hnd
    obtain ⟨hv2, _, hs2⟩ := Run_basic hrun J.nodup
    obtain ⟨horigin, hothers, hsettled⟩ := ih J.nodup hU hD hnd.2
    have hU1 : KeysUnique cols1 := KeysUnique_subperm hs2 hU
    have hD1 : BranchesUnique cols1 := BranchesUnique_subperm hs2 hD
    have hgnot : ∀ j ∈ js, (some g : Option String) ≠ some j.1 := by
      intro j hj e
      exact hnd.1 (List.mem_map.mpr ⟨j, hj, (Option.some.inj e).symm⟩)
    refine ⟨?_, ?_, ?_⟩
    · intro q hq
      rcases horigin q hq with h1 | ⟨j, hj, hjc, hjq⟩
      · have hk := J.keys
        cases created with
        | false =>
          simp only [Bool.false_eq_true, if_false] at hk
          exact Or.inl (hk.subset h1)
        | true =>
          simp only [if_true] at hk
          obtain ⟨z, hz⟩ := hk
          rcases List.mem_cons.mp (hz.subset h1) with e | hmem
          · exact Or.inr ⟨(g, dest, true), List.mem_cons_self _ _, rfl, by rw [e]⟩
          · exact Or.inl hmem
      · exact Or.inr ⟨j, List.mem_cons_of_mem _ hj, hjc, hjq⟩
    · intro k q hq
      rw [hothers k q (fun j hj => hq j (List.mem_cons_of_mem _ hj))]
      exact J.others hU1 k q (hq (g, dest, created) (List.mem_cons_self _ _))
    · intro j hj
      rcases List.mem_cons.mp hj with rfl | hj
      · obtain ⟨hS, q, hq, hqg⟩ := J.settled hU1 hD1
        refine ⟨?_, q, hs2.subset hq, hqg⟩
        exact SettledBranch_congr hv2
          (fun k q1 hq1g hq1 => (hothers k q1 (fun j hj => by rw [hq1g]; exact hgnot j hj)).mp hq1)
          hS
      · exact hsettled j hj

/-- A sequence of jobs that creates nothing, run on columns where the tasks of its
branches are where the sync leaves them, keeps every column's keys up to order. -/
theorem Run_fix {js : List (String × String × Bool)} {cols colsN : List Column}
    (h : Run js cols colsN) (hc : ∀ j ∈ js, j.2.2 = false) (hU : KeysUnique cols)
    (hD : BranchesUnique cols) (hS : ∀ j ∈ js, SettledBranch cols j.1 j.2.1) :
    colsN.map colView = cols.map colView ∧
      ∀ k, (colKeysAt colsN k).Perm (colKeysAt cols k) := by
  induction h with
  | nil _ => exact ⟨rfl, fun _ => List.Perm.refl _⟩
  | @cons cols cols1 cols2 g dest created js J hrun ih =>
    have hcr : created = false := hc (g, dest, created) (List.mem_cons_self _ _)
    subst hcr
    have hperm := J.fix rfl hU hD (hS (g, dest, false) (List.mem_cons_self _ _))
    have hk := J.keys
    simp only [Bool.false_eq_true, if_false] at hk
    obtain ⟨hv2, hp2⟩ := ih (fun j hj => hc j (List.mem_cons_of_mem _ hj))
      (KeysUnique_perm hk hU) (BranchesUnique_perm hk hD)
      (fun j hj => SettledBranch_congr J.views
        (fun k q _ hq => (hperm k).subset hq) (hS j (List.mem_cons_of_mem _ hj)))
    exact ⟨hv2.trans J.views, fun k => (hp2 k).trans (hperm k)⟩

/-! ### The map of the existing branch tasks -/

theorem lookup_taskMapSet (m : List (String × Task)) (k : String) (v : Task) (k1 : String) :
    (taskMapSet m k v).lookup k1 = if k1 = k then some v else m.lookup k1 := by
  induction m with
  | nil =>
    by_cases h : k1 = k
    · simp [taskMapSet, List.lookup, h]
    · have hb : (k1 == k) = false := by simpa using h
      simp [taskMapSet, List.lookup, h, hb]
  | cons e rest ih =>
    obtain ⟨a, b⟩ := e
    by_cases hak : a = k
    · subst hak
      by_cases h : k1 = a
      · simp [taskMapSet, List.lookup, h]
      · have hb : (k1 == a) = false := by simpa using h
        simp [taskMapSet, List.lookup, h, hb]
    · by_cases h : k1 = k
      · subst h
        have hb : (k1 == a) = false := by simpa using (fun h => hak h.symm)
        simp [taskMapSet, hak, List.lookup, hb, ih]
      · by_cases h2 : k1 = a
        · subst h2
          simp [taskMapSet, hak, List.lookup]
        · have hb : (k1 == a) = false := by simpa using h2
          simp [taskMapSet, hak, List.lookup, hb, ih, h]

theorem keys_taskMapSet (m : List (String × Task)) (k : String) (v : Task) :
    (taskMapSet m k v).map Prod.fst =
      if k ∈ m.map Prod.fst then m.map Prod.fst else m.map Prod.fst ++ [k] := by
  induction m with
  | nil => simp [taskMapSet]
  | cons e rest ih =>
    obtain ⟨a, b⟩ := e
    by_cases hak : a = k
    · subst hak
      simp [taskMapSet]
    · have hka : ¬ k = a := fun h => hak h.symm
      simp only [taskMapSet, hak, if_false, List.map_cons, ih, List.mem_cons, hka, false_or]
      split <;> simp

theorem nodup_keys_taskMapSet (m : List (String × Task)) (k : String) (v : Task)
    (h : (m.map Prod.fst).Nodup) : ((taskMapSet m k v).map Prod.fst).Nodup := by
  rw [keys_taskMapSet]
  split
  · exact h
  · rename_i hk
    rw [List.nodup_append]
    refine ⟨h, by simp, ?_⟩
    intro a ha hb
    simp only [List.mem_singleton] at hb
    subst hb
    exact hk ha

theorem mem_of_lookup {m : List (String × Task)} {g : String} {t : Task}
    (h : m.lookup g = some t) : (g, t) ∈ m := by
  induction m with
  | nil => simp [List.lookup] at h
  | cons e rest ih =>
    obtain ⟨a, b⟩ := e
    by_cases hga : g = a
    · subst hga
      simp only [List.lookup, beq_self_eq_true, Option.some.injEq] at h
      subst h
      exact List.mem_cons_self _ _
    · have hb : (g == a) = false := by simpa using hga
      simp only [List.lookup, hb] at h
      exact List.mem_cons_of_mem _ (ih h)

theorem lookup_of_mem {m : List (String × Task)} {g : String} {t : Task}
    (hnd : (m.map Prod.fst).Nodup) (h : (g, t) ∈ m) : m.lookup g = some t := by
  induction m with
  | nil => simp at h
  | cons e rest ih =>
    obtain ⟨a, b⟩ := e
    rw [List.map_cons, List.nodup_cons] at hnd
    rcases List.mem_cons.mp h with e | hr
    · simp only [Prod.mk.injEq] at e
      obtain ⟨rfl, rfl⟩ := e
      simp [List.lookup]
    · have hga : g ≠ a := by
        intro e
        subst e
        exact hnd.1 (List.mem_map.mpr ⟨(g, t), hr, rfl⟩)
      have hb : (g == a) = false := by simpa using hga
      simp only [List.lookup, hb]
      exact ih hnd.2 hr

/-- One step of the loop that builds the map of existing branch tasks. -/
theorem existing_step (m : List (String × Task)) (task : Task) :
    (match task.GetMetadata "git_branch" with
      | (branchName, true) => taskMapSet m branchName task
      | (_, false) => m) =
    match task.branch with
    | some g => taskMapSet m g task
    | none => m := by
  unfold Task.GetMetadata Task.branch
  cases task.metadata.lookup "git_branch" <;> rfl

theorem existing_fold_lookup (l : List Task) (acc : List (String × Task)) (g : String)
    (t : Task)
    (h : (l.foldl (fun m1 task =>
      match task.GetMetadata "git_branch" with
      | (branchName, true) => taskMapSet m1 branchName task
      | (_, false) => m1) acc).lookup g = some t) :
    acc.lookup g = some t ∨ (t ∈ l ∧ t.branch = some g) := by
  induction l generalizing acc with
  | nil => exact Or.inl h
  | cons a rest ih =>
    rw [List.foldl_cons, existing_step] at h
    rcases ih _ h with h1 | ⟨h1, h2⟩
    · cases hb : a.branch with
      | none =>
        simp only [hb] at h1
        exact Or.inl h1
      | some g1 =>
        simp only [hb, lookup_taskMapSet] at h1
        split at h1
        · rename_i hg
          subst hg
          have : a = t := Option.some.inj h1
          subst this
          exact Or.inr ⟨List.mem_cons_self _ _, hb⟩
        · exact Or.inl h1
    · exact Or.inr ⟨List.mem_cons_of_mem _ h1, h2⟩

theorem existing_fold_some (l : List Task) (acc : List (String × Task)) (g : String)
    (h : (∃ t, acc.lookup g = some t) ∨ ∃ t ∈ l, t.branch = some g) :
    ∃ t, (l.foldl (fun m1 task =>
      match task.GetMetadata "git_branch" with
      | (branchName, true) => taskMapSet m1 branchName task
      | (_, false) => m1) acc).lookup g = some t := by
  induction l generalizing acc with
  | nil =>
    rcases h with h | ⟨t, ht, _⟩
    · exact h
    · simp at ht
  | cons a rest ih =>
    rw [List.foldl_cons, existing_step]
    apply ih
    rcases h with ⟨t, ht⟩ | ⟨t, ht, hg⟩
    · left
      cases hb : a.branch with
      | none => exact ⟨t, ht⟩
      | some g1 =>
        simp only [lookup_taskMapSet]
        split
        · exact ⟨a, rfl⟩
        · exact ⟨t, ht⟩
    · rcases List.mem_cons.mp ht with rfl | hr
      · left
        simp only [hg, lookup_taskMapSet, if_true]
        exact ⟨t, rfl⟩
      · exact Or.inr ⟨t, hr, hg⟩

theorem existing_fold_nodup (l : List Task) (acc : List (String × Task))
    (h : (acc.map Prod.fst).Nodup) :
    ((l.foldl (fun m1 task =>
      match task.GetMetadata "git_branch" with
      | (branchName, true) => taskMapSet m1 branchName task
      | (_, false) => m1) acc).map Prod.fst).Nodup := by
  induction l generalizing acc with
  | nil => exact h
  | cons a rest ih =>
    rw [List.foldl_cons, existing_step]
    apply ih
    cases a.branch with
    | none => exact h
    | some g1 => exact nodup_keys_taskMapSet _ _ _ h

theorem existingBranchTasks_eq (b : Board) :
    existingBranchTasks b = b.allTasks.foldl (fun m1 task =>
      match task.GetMetadata "git_branch" with
      | (branchName, true) => taskMapSet m1 branchName task
      | (_, false) => m1) [] := by
  unfold existingBranchTasks Board.allTasks
  generalize ([] : List (String × Task)) = acc
  induction b.columns generalizing acc with
  | nil => rfl
  | cons c rest ih =>
    rw [List.foldl_cons, List.flatMap_cons, List.foldl_append, ih]

theorem mem_allKeys_of_task {b : Board} {t : Task} (h : t ∈ b.allTasks) :
    t.key ∈ allKeys b.columns := by
  unfold Board.allTasks at h
  obtain ⟨c, hc, ht⟩ := List.mem_flatMap.mp h
  exact List.mem_flatMap.mpr ⟨c, hc, List.mem_map_of_mem _ ht⟩

theorem task_of_mem_allKeys {b : Board} {q : TaskID × Option String}
    (h : q ∈ allKeys b.columns) : ∃ t ∈ b.allTasks, t.key = q := by
  obtain ⟨c, hc, hq⟩ := List.mem_flatMap.mp h
  obtain ⟨t, ht, rfl⟩ := List.mem_map.mp hq
  exact ⟨t, List.mem_flatMap.mpr ⟨c, hc, ht⟩, rfl⟩

/-- An entry of the map is a task of the board that carries the branch. -/
theorem existing_lookup_key (b : Board) (g : String) (t : Task)
    (h : (existingBranchTasks b).lookup g = some t) : (t.id, some g) ∈ allKeys b.columns := by
  rw [existingBranchTasks_eq] at h
  rcases existing_fold_lookup _ _ _ _ h with h1 | ⟨h1, h2⟩
  · simp [List.lookup] at h1
  · have := mem_allKeys_of_task h1
    rwa [Task.key, h2] at this

/-- Every branch that a task of the board carries has an entry in the map. -/
theorem existing_lookup_of_key (b : Board) (g : String) (q : TaskID × Option String)
    (hq : q ∈ allKeys b.columns) (hg : q.2 = some g) :
    ∃ t, (existingBranchTasks b).lookup g = some t := by
  rw [existingBranchTasks_eq]
  obtain ⟨t, ht, rfl⟩ := task_of_mem_allKeys hq
  exact existing_fold_some _ _ _ (Or.inr ⟨t, ht, hg⟩)

theorem existing_nodup (b : Board) : ((existingBranchTasks b).map Prod.fst).Nodup := by
  rw [existingBranchTasks_eq]
  exact existing_fold_nodup _ _ (by simp)

/-- What a successful `Sync` did. -/
theorem Sync_eq_none (s : GitRepoSyncStrategy) (fold : String → String)
    (order : List (String × Task) → List (String × Task)) (session : Session)
    (board b1 : Board) (now : Time) (h : s.Sync fold order session board now = (none, b1)) :
    ∃ root cur brs bP,
      s.vcsProvider.GetRepositoryRoot session.WorkingDir = .ok root ∧
      s.vcsProvider.GetCurrentBranch root = .ok cur ∧
      s.vcsProvider.ListBranches root = .ok brs ∧
      GitRepoSyncStrategy.processBranches fold (existingBranchTasks board) cur now brs board =
        (none, bP) ∧
      b1 = GitRepoSyncStrategy.moveDeleted brs now (order (existingBranchTasks board)) bP := by
  unfold GitRepoSyncStrategy.Sync at h
  cases hr : s.vcsProvider.GetRepositoryRoot session.WorkingDir with
  | error e => simp [hr] at h
  | ok root =>
    simp only [hr] at h
    cases hc : s.vcsProvider.GetCurrentBranch root with
    | error e => simp [hc] at h
    | ok cur =>
      simp only [hc] at h
      cases hb : s.vcsProvider.ListBranches root with
      | error e => simp [hb] at h
      | ok brs =>
        simp only [hb] at h
        cases hp : GitRepoSyncStrategy.processBranches fold (existingBranchTasks board) cur now
            brs board with
        | mk e bP =>
          cases e with
          | some err => simp [hp] at h
          | none =>
            simp only [hp, Prod.mk.injEq, true_and] at h
            exact ⟨root, cur, brs, bP, rfl, hc, hb, hp, h.symm⟩

theorem Sync_of_steps (s : GitRepoSyncStrategy) (fold : String → String)
    (order : List (String × Task) → List (String × Task)) (session : Session)
    (board bP : Board) (now : Time) (root cur : String) (brs : List String)
    (hr : s.vcsProvider.GetRepositoryRoot session.WorkingDir = .ok root)
    (hc : s.vcsProvider.GetCurrentBranch root = .ok cur)
    (hb : s.vcsProvider.ListBranches root = .ok brs)
    (hp : GitRepoSyncStrategy.processBranches fold (existingBranchTasks board) cur now brs
      board = (none, bP)) :
    s.Sync fold order session board now =
      (none, GitRepoSyncStrategy.moveDeleted brs now (order (existingBranchTasks board)) bP) := by
  unfold GitRepoSyncStrategy.Sync
  simp only [hr, hc, hb, hp]

/-- The jobs of one run of `Sync`. -/
theorem Sync_Run (fold : String → String) (existing es : List (String × Task))
    (cur : String) (brs : List String) (now : Time) (board bP : Board)
    (hW : IdsNodup board.columns) (hN : NoWip board.columns)
    (hE : ∀ g t, existing.lookup g = some t → (t.id, some g) ∈ allKeys board.columns)
    (hes : ∀ g t, (g, t) ∈ es → existing.lookup g = some t)
    (hp : GitRepoSyncStrategy.processBranches fold existing cur now brs board = (none, bP)) :
    Run (brs.map (fun g => (g, targetColumnFor (decide (g = cur)), (existing.lookup g).isNone))
        ++ (es.filter (fun e => decide (e.1 ∉ brs))).map (fun e => (e.1, "Done", false)))
      board.columns (GitRepoSyncStrategy.moveDeleted brs now es bP).columns := by
  have hrunP := processBranches_Run fold existing cur now brs board bP hW hN
    (fun g t _ hl => hE g t hl) hp
  obtain ⟨hvP, hWP, hsP⟩ := Run_basic hrunP hW
  have hrunD := moveDeleted_Run brs now es bP hWP (NoWip_congr hvP hN)
    (fun g t hgt => hsP.subset (hE g t (hes g t hgt)))
  exact Run_append hrunP hrunD

/-- Two runs from the input side. On a board where no column has a work-in-progress limit
or holds two tasks with the same ID, and with a branch list without repetitions: when
`Sync` succeeds and leaves a board on which the task IDs are pairwise distinct and no two
tasks carry the same `git_branch`, a second `Sync` with the same branch list and current
branch succeeds too, and every column keeps its name and holds exactly the tasks (by ID)
it held after the first run. `order1` and `order2` are the orders in which the two runs
range over the map of existing branch tasks. -/
theorem Sync_twice_without_limits (s : GitRepoSyncStrategy) (fold : String → String)
    (order1 order2 : List (String × Task) → List (String × Task)) (session : Session)
    (board0 board1 : Board) (now1 now2 : Time)
    (hord1 : ∀ l, (order1 l).Perm l) (hord2 : ∀ l, (order2 l).Perm l)
    (hbr : ∀ root brs, s.vcsProvider.ListBranches root = .ok brs → brs.Nodup)
    (hN0 : ∀ c ∈ board0.columns, c.wipLimit = 0)
    (hW0 : ∀ c ∈ board0.columns, (c.tasks.map Task.ID).Nodup)
    (hrun1 : s.Sync fold order1 session board0 now1 = (none, board1))
    (hU1 : (board1.allTasks.map Task.ID).Nodup)
    (hD1 : (board1.allTasks.filterMap Task.branch).Nodup) :
    ∃ board2, s.Sync fold order2 session board1 now2 = (none, board2) ∧
      board2.columns.length = board1.columns.length ∧
      ∀ (k : Nat) (c1 c2 : Column), board1.columns[k]? = some c1 →
        board2.columns[k]? = some c2 →
        c2.name = c1.name ∧ (c2.tasks.map Task.ID).Perm (c1.tasks.map Task.ID) := by
  obtain ⟨root, cur, brs, bP, hr, hc, hb, hp, hb1⟩ :=
    Sync_eq_none s fold order1 session board0 board1 now1 hrun1
  have hnd := hbr root brs hb
  have hU : KeysUnique board1.columns := by
    unfold KeysUnique allKeys
    unfold Board.allTasks at hU1
    simpa [List.map_flatMap, Task.key, Task.ID, Function.comp_def] using hU1
  have hD : BranchesUnique board1.columns := by
    unfold BranchesUnique allKeys
    unfold Board.allTasks at hD1
    simpa [List.filterMap_flatMap, List.filterMap_map, Task.key, Function.comp_def] using hD1
  -- the first run
  have hex0 := existing_nodup board0
  have hes1 : ∀ g t, (g, t) ∈ order1 (existingBranchTasks board0) →
      (existingBranchTasks board0).lookup g = some t :=
    fun g t h => lookup_of_mem hex0 ((hord1 _).subset h)
  have hrun := Sync_Run fold (existingBranchTasks board0) (order1 (existingBranchTasks board0))
    cur brs now1 board0 bP hW0 hN0 (existing_lookup_key board0) hes1 hp
  rw [← hb1] at hrun
  obtain ⟨hv1, hW1, _⟩ := Run_basic hrun hW0
  have hN1 : NoWip board1.columns := NoWip_congr hv1 hN0
  have hjobs : ((brs.map (fun g => (g, targetColumnFor (decide (g = cur)),
        ((existingBranchTasks board0).lookup g).isNone))
      ++ ((order1 (existingBranchTasks board0)).filter (fun e => decide (e.1 ∉ brs))).map
        (fun e => (e.1, "Done", false))).map Prod.fst).Nodup := by
    rw [List.map_append, List.map_map, List.map_map, List.nodup_append]
    refine ⟨?_, ?_, ?_⟩
    · simpa [Function.comp_def] using hnd
    · have h1 : ((order1 (existingBranchTasks board0)).map Prod.fst).Nodup :=
        (((hord1 _).map Prod.fst).nodup_iff).mpr hex0
      have h2 := h1.sublist ((List.filter_sublist
        (p := fun (e : String × Task) => decide (e.1 ∉ brs))
        (order1 (existingBranchTasks board0))).map Prod.fst)
      simpa [Function.comp_def] using h2
    · intro a ha hb
      simp only [List.mem_map, Function.comp_apply, List.mem_filter, decide_eq_true_eq] at ha hb
      obtain ⟨g, hg, rfl⟩ := ha
      obtain ⟨e, ⟨_, he⟩, he2⟩ := hb
      exact he (he2 ▸ hg)
  obtain ⟨horigin, _, hsettled⟩ := Run_main hrun hW0 hU hD hjobs
  -- the second run
  have hall : ∀ g ∈ brs, ∃ t, (existingBranchTasks board1).lookup g = some t := by
    intro g hg
    obtain ⟨_, q, hq, hqg⟩ := hsettled (g, targetColumnFor (decide (g = cur)),
      ((existingBranchTasks board0).lookup g).isNone)
      (List.mem_append_left _ (List.mem_map.mpr ⟨g, hg, rfl⟩))
    exact existing_lookup_of_key board1 g q hq hqg
  obtain ⟨bQ, hq⟩ := processBranches_succeeds fold (existingBranchTasks board1) cur now2 brs
    board1 hW1 hN1 (fun g t _ hl => existing_lookup_key board1 g t hl) hall
  have hex1 := existing_nodup board1
  have hes2 : ∀ g t, (g, t) ∈ order2 (existingBranchTasks board1) →
      (existingBranchTasks board1).lookup g = some t :=
    fun g t h => lookup_of_mem hex1 ((hord2 _).subset h)
  have hrun2 := Sync_Run fold (existingBranchTasks board1)
    (order2 (existingBranchTasks board1)) cur brs now2 board1 bQ hW1 hN1
    (existing_lookup_key board1) hes2 hq
  refine ⟨_, Sync_of_steps s fold order2 session board1 bQ now2 root cur brs hr hc hb hq, ?_⟩
  have hfix := Run_fix hrun2 ?_ hU hD ?_
  · obtain ⟨hv2, hperm⟩ := hfix
    refine ⟨?_, ?_⟩
    · have := congrArg List.length hv2
      simpa using this
    · intro k c1 c2 hc1 hc2
      obtain ⟨c, hc, hname, _⟩ := name_congr hv2 k c2 hc2
      rw [hc1] at hc
      have hcc : c1 = c := Option.some.inj hc
      subst hcc
      refine ⟨hname.symm, ?_⟩
      have := (hperm k).map Prod.fst
      rwa [colKeysAt_ids _ _ _ hc2, colKeysAt_ids _ _ _ hc1] at this
  · intro j hj
    rcases List.mem_append.mp hj with h | h
    · obtain ⟨g, hg, rfl⟩ := List.mem_map.mp h
      obtain ⟨t, ht⟩ := hall g hg
      simp [ht]
    · obtain ⟨e, _, rfl⟩ := List.mem_map.mp h
      rfl
  · intro j hj
    rcases List.mem_append.mp hj with h | h
    · obtain ⟨g, hg, rfl⟩ := List.mem_map.mp h
      exact (hsettled (g, targetColumnFor (decide (g = cur)),
        ((existingBranchTasks board0).lookup g).isNone)
        (List.mem_append_left _ (List.mem_map.mpr ⟨g, hg, rfl⟩))).1
    · obtain ⟨e, he, rfl⟩ := List.mem_map.mp h
      obtain ⟨g, t⟩ := e
      simp only [List.mem_filter, decide_eq_true_eq] at he
      obtain ⟨hmem, hgn⟩ := he
      have hkey := existing_lookup_key board1 g t (hes2 g t hmem)
      -- the task was on the board before the first run
      have hkey0 : (t.id, some g) ∈ allKeys board0.columns := by
        rcases horigin _ hkey with h0 | ⟨j, hj, hjc, hjq⟩
        · exact h0
        · exfalso
          rcases List.mem_append.mp hj with h1 | h1
          · obtain ⟨g1, hg1, rfl⟩ := List.mem_map.mp h1
            simp only [Option.some.injEq] at hjq
            exact hgn (hjq ▸ hg1)
          · obtain ⟨e1, _, rfl⟩ := List.mem_map.mp h1
            exact Bool.noConfusion hjc
      obtain ⟨t0, ht0⟩ := existing_lookup_of_key board0 g _ hkey0 rfl
      have hmem0 : (g, t0) ∈ order1 (existingBranchTasks board0) :=
        (hord1 _).symm.subset (mem_of_lookup ht0)
      exact (hsettled (g, "Done", false) (List.mem_append_right _
        (List.mem_map.mpr ⟨(g, t0), List.mem_filter.mpr ⟨hmem0, by simpa using hgn⟩, rfl⟩))).1

/-- Two runs without limits, on a board with a listed branch in the wrong column, a
deleted branch, a branch that matches the task pattern and one that does not. -/
theorem Sync_twice_without_limits_sample :
    ∃ board2,
      GitRepoSyncStrategy.Sync ⟨gitProvider⟩ asciiFold id sessionOne
        (GitRepoSyncStrategy.Sync ⟨gitProvider⟩ asciiFold id sessionOne gitBoard 10).2 20 =
        (none, board2) ∧
      board2.columns.length =
        (GitRepoSyncStrategy.Sync ⟨gitProvider⟩ asciiFold id sessionOne gitBoard
          10).2.columns.length ∧
      ∀ (k : Nat) (c1 c2 : Column),
        (GitRepoSyncStrategy.Sync ⟨gitProvider⟩ asciiFold id sessionOne gitBoard
          10).2.columns[k]? = some c1 →
        board2.columns[k]? = some c2 →
        c2.name = c1.name ∧ (c2.tasks.map Task.ID).Perm (c1.tasks.map Task.ID) :=
  Sync_twice_without_limits ⟨gitProvider⟩ asciiFold id id sessionOne gitBoard _ 10 20
    (fun l => List.Perm.refl l) (fun l => List.Perm.refl l)
    (fun _ brs h => by
      have : brs = ["main", "FOR-002-simple-title", "feature/x"] := (Except.ok.inj h).symm
      subst this
      decide)
    (by decide) (by decide) rfl (by decide) (by decide)

/-! ## Theorems: task IDs of branch tasks -/

/-- C21, at the state the claim excludes: from the new manager, a poll that finds the
session of project `p1` starts an auto timer under the key `p1`, and `StartTimer` for
`p1` then starts a manual timer under the same key, because it looks only at the manual
map. Both logs are running, and `GetActiveTimers` lists the two of them. -/
theorem C21_two_running_logs :
    (pollThenStart.1.activeTimers.lookup "p1").map (fun log => (log.id, log.IsRunning)) =
      some ("manual-1", true) ∧
    (pollThenStart.1.autoTimers.lookup "p1").map (fun log => (log.id, log.IsRunning)) =
      some ("auto-1", true) ∧
    pollThenStart.1.GetActiveTimers.map (fun log => (log.key, log.id, log.IsRunning)) =
      [("p1", "manual-1", true), ("p1", "auto-1", true)] := by
  decide

/-! ## Theorems: board prefixes -/

/-- C26, at a board name that starts with digits: the prefix of `2024 Roadmap` is `202`,
`NewBoard` accepts the name, and `GenerateNextTaskID` on the new board fails for the
valid slug `first-task`, because `NewTaskID` wants three upper-case letters. -/
theorem C26_digit_prefix :
    GenerateBoardPrefix "2024 Roadmap" = "202" ∧
    matchesSlugPattern "first-task" = true ∧
    (NewBoard "b1" "2024 Roadmap" "").map (fun b => b.GenerateNextTaskID "first-task") =
      .ok (.error ⟨"prefix must be 3 uppercase letters"⟩) := by
  refine ⟨by decide, by decide, ?_⟩
  rfl

/-! ## Theorems: the WIP limit of a column -/

/-- The property of C29 on a column: a positive limit bounds the number of tasks. -/
theorem Column.call_respects (c : Column) (call : ColumnCall)
    (hc : 0 < c.wipLimit → (c.tasks.length : Int) ≤ c.wipLimit)
    (hfit : c.limitFits call = true) :
    0 < (c.call call).wipLimit → ((c.call call).tasks.length : Int) ≤ (c.call call).wipLimit := by
  cases call with
  | addTask task =>
    cases task with
    | none => simpa [Column.call] using hc
    | some task =>
    simp only [Column.call]
    cases h : c.AddTask task with
    | error e => simpa using hc
    | ok c1 =>
      simp only
      unfold Column.AddTask at h
      split at h
      · cases h
      · split at h
        · cases h
        · cases h
          rename_i hw _
          simp only [List.length_append, List.length_singleton]
          intro hpos
          simp only [not_and, not_le] at hw
          have := hw hpos
          push_cast
          omega
  | removeTask taskID =>
    simp only [Column.call]
    cases h : c.RemoveTask taskID with
    | error e => simpa using hc
    | ok r =>
      obtain ⟨t, c1⟩ := r
      simp only
      unfold Column.RemoveTask at h
      split at h
      · cases h
        simp only
        intro hpos
        have h1 := hc hpos
        have h2 : (c.tasks.eraseP (fun task => task.ID.Equal taskID)).length ≤ c.tasks.length :=
          (List.eraseP_sublist c.tasks).length_le
        omega
      · cases h
  | updateWIPLimit limit =>
    simp only [Column.call, Column.UpdateWIPLimit]
    split
    · rename_i c1 h
      split at h
      · cases h
      · cases h
        simp only
        intro hpos
        simp only [Column.limitFits, decide_eq_true_eq] at hfit
        omega
    · exact hc

/-- A sequence of calls whose limits fit keeps the property of C29. -/
theorem Column.calls_respects (calls : List ColumnCall) (c : Column)
    (hc : 0 < c.wipLimit → (c.tasks.length : Int) ≤ c.wipLimit)
    (hfit : c.limitsFit calls = true) :
    0 < (c.calls calls).wipLimit →
      ((c.calls calls).tasks.length : Int) ≤ (c.calls calls).wipLimit := by
  induction calls generalizing c with
  | nil => simpa [Column.calls] using hc
  | cons call rest ih =>
    simp only [Column.limitsFit, Bool.and_eq_true] at hfit
    have h := ih (c.call call) (Column.call_respects c call hc hfit.1) hfit.2
    simpa [Column.calls] using h

/-- C29, as stated, fails: a column built by `NewColumn` without limit takes three
tasks, and `UpdateWIPLimit(2)` is then accepted, since it refuses negative limits only.
The column ends with limit 2 and three tasks. -/
theorem C29_counterexample :
    (NewColumn "doing" "" 1 0).map (fun c => ((c.calls fillThenLimit).wipLimit,
      (c.calls fillThenLimit).tasks.length)) = .ok (2, 3) := by
  rfl

/-- C29, amended. A column built by `NewColumn` and changed by a sequence of `AddTask`,
`RemoveTask` and `UpdateWIPLimit` calls in which no `UpdateWIPLimit` sets a positive
limit below the number of tasks the column holds at that moment respects a positive
limit: when `wipLimit > 0`, the number of tasks is at most `wipLimit`. -/
theorem C29_wip_limit (name description : String) (order wipLimit : Int) (c0 : Column)
    (calls : List ColumnCall) (h0 : NewColumn name description order wipLimit = .ok c0)
    (hfit : c0.limitsFit calls = true) :
    0 < (c0.calls calls).wipLimit →
      ((c0.calls calls).tasks.length : Int) ≤ (c0.calls calls).wipLimit := by
  apply Column.calls_respects calls c0 _ hfit
  unfold NewColumn at h0
  split at h0
  · cases h0
  · split at h0
    · cases h0
    · cases h0
      intro hpos
      simpa using hpos.le

/-- C29 amended, at an instance: limit 2 is set on the empty column, the third task is
refused, and after a removal one more task is taken; the column ends with two tasks. -/
theorem C29_wip_limit_witness :
    NewColumn "doing" "" 1 0 = .ok doingColumn ∧ doingColumn.limitsFit limitThenFill = true ∧
    (doingColumn.calls limitThenFill).tasks.length = 2 ∧
    (0 < (doingColumn.calls limitThenFill).wipLimit →
      ((doingColumn.calls limitThenFill).tasks.length : Int) ≤
        (doingColumn.calls limitThenFill).wipLimit) :=
  ⟨rfl, by decide, by decide,
    C29_wip_limit "doing" "" 1 0 doingColumn limitThenFill rfl (by decide)⟩

/-! ## Theorems: a move the target column refuses -/

/-- C28, at a move the target column refuses: `done` already holds a task with the ID
`ABC-001-a`, so `MoveTask` of that ID from `todo` to `done` returns
`ErrTaskAlreadyExists`; the task was taken out of `todo` before and is added back at the
end, so `todo` holds its tasks in another order than before the call. -/
theorem C28_rollback_reorders :
    twinBoard.layout = [("todo", ["ABC-001-a", "ABC-002-b"]), ("done", ["ABC-001-a"])] ∧
    (twinBoard.MoveTask (some ⟨"ABC", 1, "a"⟩) "done").1 = some ErrTaskAlreadyExists ∧
    (twinBoard.MoveTask (some ⟨"ABC", 1, "a"⟩) "done").2.layout =
      [("todo", ["ABC-002-b", "ABC-001-a"]), ("done", ["ABC-001-a"])] := by
  decide

/-! ## Theorems: the scheduler tick -/

/-- A relative or recurring schedule, and an event trigger, do not fire without task
and event; a time trigger that fires then has an absolute schedule. -/
theorem Trigger.ShouldTrigger_bare (trigger : Trigger) (ctx : TriggerContext)
    (htask : ctx.Task = none) (hevent : ctx.Event = none)
    (h : trigger.ShouldTrigger ctx = true) :
    ∃ tt : TimeTrigger, trigger = .time tt ∧ tt.schedule.Typ = ScheduleTypeAbsolute := by
  cases trigger with
  | event et => simp [Trigger.ShouldTrigger, EventTrigger.ShouldTrigger, hevent] at h
  | time tt =>
    refine ⟨tt, rfl, ?_⟩
    by_contra hne
    simp [Trigger.ShouldTrigger, TimeTrigger.ShouldTrigger, hne,
      TimeTrigger.evaluateRelativeDueDate, TimeTrigger.evaluateRelativeCreation,
      TimeTrigger.evaluateRecurring, htask] at h

/-- An action matches the scope of empty IDs when it is global or has an empty scope
ID. -/
theorem Action.MatchesScope_empty {σ : Type} (a : Action σ)
    (h : a.MatchesScope "" "" "" = true) : a.scope = ActionScopeGlobal ∨ a.scopeID = "" := by
  unfold Action.MatchesScope at h
  split at h
  · left; assumption
  · right
    split at h
    · simpa using h
    · split at h
      · simpa using h
      · split at h
        · simpa using h
        · cases h

/-- Without task, `ShouldExecute` returns, and returns true only for an enabled action
whose trigger fires. -/
theorem Action.ShouldExecute_bare {σ : Type} (a : Action σ) (ctx : TriggerContext)
    (now : Time) (fuel : Nat) (htask : ctx.Task = none) :
    a.ShouldExecute ctx now fuel = .ret (a.enabled && a.trigger.ShouldTrigger ctx) := by
  unfold Action.ShouldExecute
  cases he : a.enabled <;> cases ht : a.trigger.ShouldTrigger ctx <;> simp [htask]

/-- The loop of the evaluation under the context of the scheduler tick returns, and
every result is one it was given or has the three properties of C27. -/
theorem loop_tick {σ : Type} (t now : Time) (fuel : Nat) (column : Option Column)
    (board : Option Board) (actions : List (Action σ)) (results : List (EvaluationResult σ)) :
    ∃ out, EvaluateActionsUseCase.loop (tickContext t) board column none now fuel results
        actions = .ret out ∧
      ∀ r ∈ out, r ∈ results ∨ (r.Action ∈ actions ∧ r.Action.enabled = true ∧
        (∃ tt : TimeTrigger, r.Action.trigger = .time tt ∧
          tt.schedule.Typ = ScheduleTypeAbsolute) ∧
        (r.Action.scope = ActionScopeGlobal ∨ r.Action.scopeID = "")) := by
  induction actions generalizing results with
  | nil => exact ⟨results, by simp [EvaluateActionsUseCase.loop], fun r hr => Or.inl hr⟩
  | cons a rest ih =>
    unfold EvaluateActionsUseCase.loop
    simp only [tickContext]
    by_cases hm : a.MatchesScope "" "" "" = true
    · simp only [hm, Bool.not_true, Bool.false_eq_true, if_false]
      rw [Action.ShouldExecute_bare a _ now fuel rfl]
      cases hx : (a.enabled && a.trigger.ShouldTrigger
          { CurrentTime := t, Task := none, Column := column, Board := board, Event := none,
            LastRun := a.LastRun })
      · simp only
        obtain ⟨out, h1, h2⟩ := ih results
        refine ⟨out, h1, fun r hr => ?_⟩
        rcases h2 r hr with h3 | h3
        · exact Or.inl h3
        · exact Or.inr ⟨List.mem_cons_of_mem _ h3.1, h3.2⟩
      · simp only
        obtain ⟨out, h1, h2⟩ := ih (results ++ [{ Action := a, Context :=
          { CurrentTime := t, Task := none, Column := column, Board := board, Event := none,
            LastRun := a.LastRun } }])
        refine ⟨out, h1, fun r hr => ?_⟩
        rcases h2 r hr with h3 | h3
        · rcases List.mem_append.mp h3 with h4 | h4
          · exact Or.inl h4
          · rw [List.mem_singleton] at h4
            subst h4
            rw [Bool.and_eq_true] at hx
            exact Or.inr ⟨List.mem_cons_self _ _, hx.1,
              Trigger.ShouldTrigger_bare _ _ rfl rfl hx.2, Action.MatchesScope_empty a hm⟩
        · exact Or.inr ⟨List.mem_cons_of_mem _ h3.1, h3.2⟩
    · simp only [hm, Bool.not_false, if_true]
      obtain ⟨out, h1, h2⟩ := ih results
      refine ⟨out, h1, fun r hr => ?_⟩
      rcases h2 r hr with h3 | h3
      · exact Or.inl h3
      · exact Or.inr ⟨List.mem_cons_of_mem _ h3.1, h3.2⟩

/-- C27. Under the evaluation context of the scheduler tick (empty board, column and
task IDs, no event, whatever the time) `EvaluateActionsUseCase.Execute` returns, with the
error of the repository or a list of results; every result carries no task, and its
action is one the repository listed, is enabled, has a time trigger with an absolute
schedule, and has scope global or an empty scope ID. -/
theorem C27_tick_results {σ : Type} (uc : EvaluateActionsUseCase σ) (t now : Time)
    (fuel : Nat) :
    ∃ r, uc.Execute (tickContext t) now fuel = .ret r ∧
      ∀ results, r = .ok results → ∀ res ∈ results,
        res.Context.Task = none ∧
        uc.actionRepo.ListEnabled.toOption.any (fun actions => decide (res.Action.id ∈
          actions.map (fun a => a.id))) = true ∧
        res.Action.enabled = true ∧
        (∃ tt : TimeTrigger, res.Action.trigger = .time tt ∧
          tt.schedule.Typ = ScheduleTypeAbsolute) ∧
        (res.Action.scope = ActionScopeGlobal ∨ res.Action.scopeID = "") := by
  unfold EvaluateActionsUseCase.Execute
  cases hl : uc.actionRepo.ListEnabled with
  | error err => exact ⟨.error err, rfl, fun results h => by cases h⟩
  | ok actions =>
    simp only
    have hb : uc.resolveBoard (tickContext t) = none := by
      simp [EvaluateActionsUseCase.resolveBoard, tickContext]
    rw [hb]
    have htc : EvaluateActionsUseCase.resolveTaskColumn none (tickContext t) =
        (none, none) := by
      simp [EvaluateActionsUseCase.resolveTaskColumn]
    rw [htc]
    obtain ⟨out, h1, h2⟩ := loop_tick (σ := σ) t now fuel none none actions []
    have h3 := loop_contexts _ _ _ _ _ _ _ _ _ h1
    rw [h1]
    refine ⟨.ok out, rfl, fun results h res hres => ?_⟩
    cases h
    rcases h2 res hres with h4 | h4
    · cases h4
    · rcases h3 res hres with h5 | h5
      · cases h5
      · refine ⟨h5.1, ?_, h4.2⟩
        simp only [Except.toOption, Option.any, decide_eq_true_eq]
        exact List.mem_map.mpr ⟨res.Action, h4.1, rfl⟩

/-! ## Theorems: the task ID of a branch, read twice -/

/-- A run of characters of a class followed by one outside it: `takeWhile` stops
there. -/
theorem takeWhile_run {p : Char → Bool} (xs ys : List Char) (c : Char)
    (hall : ∀ x ∈ xs, p x = true) (hc : p c = false) :
    (xs ++ c :: ys).takeWhile p = xs ∧ (xs ++ c :: ys).dropWhile p = c :: ys := by
  induction xs with
  | nil => simp [List.takeWhile, List.dropWhile, hc]
  | cons x rest ih =>
    have hx := hall x (List.mem_cons_self _ _)
    have := ih (fun y hy => hall y (List.mem_cons_of_mem _ hy))
    simp [List.takeWhile, List.dropWhile, hx, this]

/-- What `matchTaskHead` returns, in terms of the text after the first hyphen. -/
theorem matchTaskHead_eq {s p ds rest : List Char} (h : matchTaskHead s = some (p, ds, rest)) :
    ∃ r, s = p ++ '-' :: r ∧ p.length = 3 ∧ ds = r.takeWhile isDigit ∧
      rest = r.dropWhile isDigit := by
  match s, h with
  | a :: b :: c :: d :: r, h =>
    simp only [matchTaskHead] at h
    split at h
    · rename_i hc
      split at h
      · exact absurd h (by simp)
      · simp only [Option.some.injEq, Prod.mk.injEq] at h
        obtain ⟨rfl, rfl, rfl⟩ := h
        simp only [Bool.and_eq_true, beq_iff_eq] at hc
        obtain ⟨_, rfl⟩ := hc
        exact ⟨r, rfl, rfl, rfl, rfl⟩
    · exact absurd h (by simp)
  | [], h => simp [matchTaskHead] at h
  | [_], h => simp [matchTaskHead] at h
  | [_, _], h => simp [matchTaskHead] at h
  | [_, _, _], h => simp [matchTaskHead] at h

/-- A parsed branch name starts with the parsed prefix, and the parsed number is that of
the digits after it. -/
theorem parseBranchName_head {b p title : String} {n : Int}
    (h : parseBranchName b = some (p, n, title)) :
    ∃ ds rest, matchTaskHead b.data = some (p.data, ds, rest) ∧ atoiDigits ds = some n := by
  unfold parseBranchName at h
  cases h1 : matchReferencePattern b.data with
  | some r =>
    obtain ⟨p1, ds1, t1⟩ := r
    simp only [h1] at h
    cases ha : atoiDigits ds1 with
    | none => simp [ha] at h
    | some num =>
      simp only [ha, Option.some.injEq, Prod.mk.injEq] at h
      obtain ⟨rfl, rfl, rfl⟩ := h
      unfold matchReferencePattern at h1
      cases hh : matchTaskHead b.data with
      | none => simp [hh] at h1
      | some r =>
        obtain ⟨p2, ds2, rest2⟩ := r
        simp only [hh] at h1
        refine ⟨ds2, rest2, ?_, ?_⟩
        · split at h1
          · simp only [Option.some.injEq, Prod.mk.injEq] at h1
            rw [h1.1]
          · split at h1
            · simp only [Option.some.injEq, Prod.mk.injEq] at h1
              rw [h1.1]
            · cases h1
        · split at h1
          · simp only [Option.some.injEq, Prod.mk.injEq] at h1
            rw [h1.2.1]; exact ha
          · split at h1
            · simp only [Option.some.injEq, Prod.mk.injEq] at h1
              rw [h1.2.1]; exact ha
            · cases h1
  | none =>
    simp only [h1] at h
    cases h2 : matchSimplePattern b.data with
    | none => simp [h2] at h
    | some r =>
      obtain ⟨p1, ds1, t1⟩ := r
      simp only [h2] at h
      cases ha : atoiDigits ds1 with
      | none => simp [ha] at h
      | some num =>
        simp only [ha] at h
        have hp : String.mk p1 = p ∧ num = n := by
          split at h
          · split at h
            · simp only [Option.some.injEq, Prod.mk.injEq] at h
              exact ⟨h.1, h.2.1⟩
            · simp only [Option.some.injEq, Prod.mk.injEq] at h
              exact ⟨h.1, h.2.1⟩
          · simp only [Option.some.injEq, Prod.mk.injEq] at h
            exact ⟨h.1, h.2.1⟩
        obtain ⟨rfl, rfl⟩ := hp
        unfold matchSimplePattern at h2
        cases hh : matchTaskHead b.data with
        | none => simp [hh] at h2
        | some r =>
          obtain ⟨p2, ds2, rest2⟩ := r
          simp only [hh] at h2
          split at h2
          · simp only [Option.some.injEq, Prod.mk.injEq] at h2
            exact ⟨ds2, rest2, by rw [h2.1], by rw [h2.2.1]; exact ha⟩
          · cases h2

/-- The characters of a text joined from pieces with hyphens are those of the pieces,
and hyphens. -/
theorem mem_intercalate_hyphen (ls : List (List Char)) (c : Char)
    (h : c ∈ List.intercalate ['-'] ls) : c = '-' ∨ ∃ l ∈ ls, c ∈ l := by
  induction ls with
  | nil => simp [List.intercalate, List.intersperse] at h
  | cons l rest ih =>
    cases rest with
    | nil =>
      simp [List.intercalate, List.intersperse] at h
      exact Or.inr ⟨l, List.mem_cons_self _ _, h⟩
    | cons l2 rest2 =>
      have hs : List.intercalate ['-'] (l :: l2 :: rest2) =
          l ++ '-' :: List.intercalate ['-'] (l2 :: rest2) := by
        simp [List.intercalate, List.intersperse]
      rw [hs] at h
      rcases List.mem_append.mp h with h1 | h1
      · exact Or.inr ⟨l, List.mem_cons_self _ _, h1⟩
      · rcases List.mem_cons.mp h1 with h2 | h2
        · exact Or.inl h2
        · rcases ih h2 with h3 | ⟨l3, hl3, hc⟩
          · exact Or.inl h3
          · exact Or.inr ⟨l3, List.mem_cons_of_mem _ hl3, hc⟩

/-- A text in slug form has only characters of `[a-z0-9-]`. -/
theorem matchesSlugPattern_chars (s : String) (h : matchesSlugPattern s = true) :
    ∀ c ∈ s.data, isSlugChar c = true := by
  intro c hc
  unfold matchesSlugPattern at h
  rw [List.all_eq_true] at h
  have hjoin : List.intercalate ['-'] (s.data.splitOn '-') = s.data :=
    List.intercalate_splitOn s.data '-'
  rw [← hjoin] at hc
  rcases mem_intercalate_hyphen _ c hc with h1 | ⟨l, hl, hcl⟩
  · subst h1
    decide
  · have h2 := h l hl
    simp only [Bool.and_eq_true, List.all_eq_true] at h2
    simp [isSlugChar, h2.2 c hcl]

/-- A text that starts with an upper-case letter does not start with one of the branch
kinds. -/
theorem stripBranchKind_upper (a : Char) (r : List Char) (ha : isUpperLetter a = true) :
    stripBranchKind (a :: r) = none := by
  have h1 : a ≠ 'f' := by intro h; subst h; exact absurd ha (by decide)
  have h2 : a ≠ 'b' := by intro h; subst h; exact absurd ha (by decide)
  have h3 : a ≠ 'h' := by intro h; subst h; exact absurd ha (by decide)
  have h4 : a ≠ 'c' := by intro h; subst h; exact absurd ha (by decide)
  have h5 : a ≠ 'r' := by intro h; subst h; exact absurd ha (by decide)
  simp [stripBranchKind, branchKinds, List.isPrefixOf, h1, h2, h3, h4, h5,
    Ne.symm h1, Ne.symm h2, Ne.symm h3, Ne.symm h4, Ne.symm h5]

/-- C30, as stated, fails: from the branch
`FOR-001-rec-28-create-and-trigger-follow-up-templates` the git sync takes out the
reference `rec-28` and derives the ID with slug `create-and-trigger-follow-up-templates`,
while the time tracking keeps it in the slug. -/
theorem C30_counterexample :
    (parseBranchName "FOR-001-rec-28-create-and-trigger-follow-up-templates").map
      (fun r => (NewTaskID r.1 r.2.1 (slug.Generate asciiFold r.2.2)).toOption) =
      some (some ⟨"FOR", 1, "create-and-trigger-follow-up-templates"⟩) ∧
    extractTaskIDFromBranch "FOR-001-rec-28-create-and-trigger-follow-up-templates" =
      some ⟨"FOR", 1, "rec-28-create-and-trigger-follow-up-templates"⟩ := by
  decide

/-- C30, amended. For every branch name of the form `PREFIX-NUMBER-title` from which the
git sync derives a task ID (`parseBranchName`, then `NewTaskID` with the slug of the
parsed title), when the parsed title is the whole text after `PREFIX-NUMBER-` (no
reference was taken out) and is its own slug, the time tracking
(`extractTaskIDFromBranch`) derives a task ID as well, and it is the same ID. -/
theorem C30_same_task_id (fold : String → String) (b p title : String) (n : Int)
    (ds : List Char) (id1 : TaskID)
    (hparse : parseBranchName b = some (p, n, title))
    (hform : b.data = p.data ++ '-' :: (ds ++ '-' :: title.data))
    (hds : ∀ c ∈ ds, isDigit c = true)
    (hslug : slug.Generate fold title = title)
    (hid : NewTaskID p n (slug.Generate fold title) = .ok id1) :
    extractTaskIDFromBranch b = some id1 := by
  rw [hslug] at hid
  -- what `NewTaskID` checked
  have hnew : id1 = ⟨p, n, title⟩ ∧ title ≠ "" ∧ matchesSlugPattern title = true := by
    unfold NewTaskID at hid
    split at hid
    · cases hid
    · split at hid
      · cases hid
      · split at hid
        · cases hid
        · split at hid
          · cases hid
          · split at hid
            · cases hid
            · rename_i hne hm
              cases hid
              exact ⟨rfl, hne, by simpa using hm⟩
  obtain ⟨rfl, hne, hpat⟩ := hnew
  have hchars := matchesSlugPattern_chars title hpat
  have htne : title.data ≠ [] := by
    intro h0
    apply hne
    cases title
    simp_all
  -- the head of the branch name
  obtain ⟨ds1, rest1, hhead, hatoi⟩ := parseBranchName_head hparse
  obtain ⟨r, hr, hplen, hds1, hrest1⟩ := matchTaskHead_eq hhead
  obtain ⟨_, _, hup, _, _⟩ := matchTaskHead_some hhead
  have hreq : r = ds ++ '-' :: title.data := by
    rw [hform] at hr
    have := List.append_cancel_left hr
    simpa using this.symm
  have hrun := takeWhile_run (p := isDigit) ds title.data '-' hds (by decide)
  rw [hreq, hrun.1] at hds1
  rw [hreq, hrun.2] at hrest1
  subst hds1 hrest1
  -- the run of slug characters after the number is the title
  have htake : title.data.takeWhile isSlugChar = title.data :=
    List.takeWhile_eq_self_iff.mpr hchars
  have htext : matchTaskIDText b.data = some b.data := by
    simp only [matchTaskIDText, hhead, htake, beq_self_eq_true, Bool.true_and]
    have : title.data.isEmpty = false := by
      cases hd : title.data with
      | nil => exact absurd hd htne
      | cons _ _ => rfl
    simp [this, hform]
  have hnl : title.data.all (fun c => c != '\n') = true := by
    rw [List.all_eq_true]
    intro c hc
    have h1 := hchars c hc
    have : c ≠ '\n' := by intro h; subst h; exact absurd h1 (by decide)
    simpa using this
  have hsimple : matchSimplePattern b.data = some (p.data, ds1, title.data) := by
    have : title.data.isEmpty = false := by
      cases hd : title.data with
      | nil => exact absurd hd htne
      | cons _ _ => rfl
    simp [matchSimplePattern, hhead, matchTitle, this, hnl]
  have hparseID : ParseTaskID b = .ok ⟨p, n, title⟩ := by
    simp [ParseTaskID, hsimple, hatoi]
  -- the first pattern does not apply, the second matches at the start
  obtain ⟨a, tail, hcons⟩ : ∃ a tail, b.data = a :: tail ∧ isUpperLetter a = true := by
    match hp : p.data, hplen with
    | [x, y, z], _ =>
      refine ⟨x, y :: z :: '-' :: (ds1 ++ '-' :: title.data), ?_, ?_⟩
      · rw [hform, hp]; rfl
      · exact hup x (by rw [hp]; simp)
  unfold extractTaskIDFromBranch
  rw [hcons.1, stripBranchKind_upper a tail hcons.2]
  simp only [Option.bind_none]
  rw [← hcons.1]
  have hsearch : searchTaskIDText b.data = some b.data := by
    rw [hcons.1]
    unfold searchTaskIDText
    rw [← hcons.1, htext]
  rw [hsearch]
  have hb : String.mk b.data = b := rfl
  simp [hb, hparseID, Except.toOption]

/-- C30 amended, at the branch `FOR-002-simple-title`: both derive `FOR-002-simple-title`. -/
theorem C30_same_task_id_witness :
    parseBranchName "FOR-002-simple-title" = some ("FOR", 2, "simple-title") ∧
    NewTaskID "FOR" 2 (slug.Generate asciiFold "simple-title") =
      .ok ⟨"FOR", 2, "simple-title"⟩ ∧
    extractTaskIDFromBranch "FOR-002-simple-title" = some ⟨"FOR", 2, "simple-title"⟩ :=
  ⟨by decide, rfl,
    C30_same_task_id asciiFold "FOR-002-simple-title" "FOR" "simple-title" 2 ['0', '0', '2']
      ⟨"FOR", 2, "simple-title"⟩ (by decide) (by decide) (by decide) (by decide) rfl⟩

/-! ## Theorems: checkboxes in task descriptions -/

theorem splitOnChar_ne_nil (sep : Char) (s : List Char) : splitOnChar sep s ≠ [] := by
  induction s with
  | nil => simp [splitOnChar]
  | cons c rest ih =>
    unfold splitOnChar
    split
    · simp
    · split
      · simp
      · simp

/-- No piece of a split holds the separator. -/
theorem splitOnChar_no_sep (sep : Char) (s : List Char) :
    ∀ piece ∈ splitOnChar sep s, sep ∉ piece := by
  induction s with
  | nil => simp [splitOnChar]
  | cons c rest ih =>
    unfold splitOnChar
    split
    · intro piece hp
      rcases List.mem_cons.mp hp with h | h
      · subst h; simp
      · exact ih piece h
    · rename_i hne
      split
      · rename_i piece pieces heq
        intro q hq
        rw [heq] at ih
        rcases List.mem_cons.mp hq with h | h
        · subst h
          intro hmem
          rcases List.mem_cons.mp hmem with h1 | h1
          · exact hne h1.symm
          · exact ih piece (List.mem_cons_self _ _) h1
        · exact ih q (List.mem_cons_of_mem _ h)
      · rename_i heq
        exact absurd heq (splitOnChar_ne_nil sep rest)

/-- The lines of a text, joined with line feeds, are the text. -/
theorem joinLines_splitOnChar (s : List Char) : joinLines (splitOnChar '\n' s) = s := by
  induction s with
  | nil => simp [splitOnChar, joinLines]
  | cons c rest ih =>
    unfold splitOnChar
    split
    · rename_i hc
      subst hc
      cases hsp : splitOnChar '\n' rest with
      | nil => exact absurd hsp (splitOnChar_ne_nil _ _)
      | cons piece pieces =>
        rw [hsp] at ih
        simp [joinLines, ih]
    · split
      · rename_i piece pieces heq
        rw [heq] at ih
        cases pieces with
        | nil =>
          simp only [joinLines] at ih ⊢
          rw [ih]
        | cons q qs =>
          simp only [joinLines] at ih ⊢
          rw [← ih]
          simp
      · rename_i heq
        exact absurd heq (splitOnChar_ne_nil _ rest)

/-- A run of characters of a class at the start of a text goes to `takeWhile` whole. -/
theorem takeWhile_prefix {p : Char → Bool} (xs ys : List Char)
    (hall : ∀ x ∈ xs, p x = true) :
    (xs ++ ys).takeWhile p = xs ++ ys.takeWhile p ∧
      (xs ++ ys).dropWhile p = ys.dropWhile p := by
  induction xs with
  | nil => simp
  | cons x rest ih =>
    have hx := hall x (List.mem_cons_self _ _)
    have := ih (fun y hy => hall y (List.mem_cons_of_mem _ hy))
    simp [List.takeWhile, List.dropWhile, hx, this]

theorem isUnicodeSpace_of_regexSpace (c : Char) (h : isRegexSpace c = true) :
    isUnicodeSpace c = true := by
  simp only [isRegexSpace, Bool.or_eq_true, beq_iff_eq] at h
  rcases h with (((h | h) | h) | h) | h <;> subst h <;> decide

/-- Trimming after the whitespace of the pattern was dropped is trimming. -/
theorem TrimSpace_dropWhile (raw : List Char) :
    TrimSpace (raw.dropWhile isRegexSpace) = TrimSpace raw := by
  have h : (raw.dropWhile isRegexSpace).dropWhile isUnicodeSpace =
      raw.dropWhile isUnicodeSpace := by
    induction raw with
    | nil => rfl
    | cons c rest ih =>
      by_cases hc : isRegexSpace c = true
      · simp [List.dropWhile, hc, isUnicodeSpace_of_regexSpace c hc, ih]
      · simp [List.dropWhile, hc]
  simp [TrimSpace, h]

/-- The head of the checkbox patterns on a line of the shape they describe. -/
theorem matchCheckboxHead_form (indent ws1 ws2 raw : List Char) (st : Char)
    (hindent : ∀ c ∈ indent, isRegexSpace c = true)
    (hne1 : ws1 ≠ []) (hws1 : ∀ c ∈ ws1, isRegexSpace c = true)
    (hst : st = ' ' ∨ st = 'x' ∨ st = '~')
    (hne2 : ws2 ≠ []) (hws2 : ∀ c ∈ ws2, isRegexSpace c = true) :
    matchCheckboxHead (indent ++ '-' :: (ws1 ++ '[' :: st :: ']' :: (ws2 ++ raw))) =
      some (indent, st, raw.dropWhile isRegexSpace) := by
  have h1 := takeWhile_run (p := isRegexSpace) indent
    (ws1 ++ '[' :: st :: ']' :: (ws2 ++ raw)) '-' hindent (by decide)
  have h2 := takeWhile_run (p := isRegexSpace) ws1 (st :: ']' :: (ws2 ++ raw)) '['
    hws1 (by decide)
  have h3 := takeWhile_prefix (p := isRegexSpace) ws2 raw hws2
  have e1 : ws1.isEmpty = false := by
    cases ws1 with
    | nil => exact absurd rfl hne1
    | cons _ _ => rfl
  have e2 : (ws2 ++ List.takeWhile isRegexSpace raw).isEmpty = false := by
    cases ws2 with
    | nil => exact absurd rfl hne2
    | cons _ _ => rfl
  have e3 : (st == ' ' || st == 'x' || st == '~') = true := by
    rcases hst with h | h | h <;> subst h <;> decide
  simp only [matchCheckboxHead, h1.1, h1.2, h2.1, h2.2, h3.1, h3.2, e1, e2, e3,
    beq_self_eq_true, Bool.not_false, Bool.and_self, Bool.true_and, if_true]

/-- What the head of the checkbox patterns returns, as a shape of the line. -/
theorem matchCheckboxHead_some {line indent rest : List Char} {st : Char}
    (h : matchCheckboxHead line = some (indent, st, rest)) :
    ∃ ws1 ws2 : List Char,
      line = indent ++ '-' :: (ws1 ++ '[' :: st :: ']' :: (ws2 ++ rest)) ∧
      (∀ c ∈ indent, isRegexSpace c = true) ∧
      ws1 ≠ [] ∧ (∀ c ∈ ws1, isRegexSpace c = true) ∧
      (st = ' ' ∨ st = 'x' ∨ st = '~') ∧
      ws2 ≠ [] ∧ (∀ c ∈ ws2, isRegexSpace c = true) := by
  unfold matchCheckboxHead at h
  split at h
  · rename_i d r1 hd
    split at h
    · rename_i hc1
      split at h
      · rename_i open1 st1 close1 r2 hr
        split at h
        · rename_i hc2
          simp only [Option.some.injEq, Prod.mk.injEq] at h
          obtain ⟨rfl, rfl, rfl⟩ := h
          simp only [Bool.and_eq_true, beq_iff_eq, Bool.or_eq_true, Bool.not_eq_true',
            List.isEmpty_eq_false] at hc1 hc2
          obtain ⟨rfl, hn1⟩ := hc1
          obtain ⟨⟨⟨rfl, hst⟩, rfl⟩, hn2⟩ := hc2
          refine ⟨r1.takeWhile isRegexSpace, r2.takeWhile isRegexSpace, ?_,
            fun c hc => List.mem_takeWhile_imp hc, ?_, fun c hc => List.mem_takeWhile_imp hc,
            ?_, ?_, fun c hc => List.mem_takeWhile_imp hc⟩
          · have e1 := (List.takeWhile_append_dropWhile isRegexSpace line).symm
            have e2 := (List.takeWhile_append_dropWhile isRegexSpace r1).symm
            have e3 := List.takeWhile_append_dropWhile isRegexSpace r2
            rw [e3, ← hr, ← e2, ← hd]
            exact e1
          · intro h0
            simp [h0] at hn1
          · rcases hst with (h | h) | h
            · exact Or.inl h
            · exact Or.inr (Or.inl h)
            · exact Or.inr (Or.inr h)
          · intro h0
            simp [h0] at hn2
        · cases h
      · cases h
    · cases h
  · cases h

/-- The title a line gives is the one the words of the specification give: the line
is an unchecked checkbox item, and its trimmed content is not empty and holds no `](`. -/
theorem subtaskOfLine_iff (line : List Char) (hline : '\n' ∉ line) (title : String) :
    subtaskOfLine line = some title ↔
      ∃ raw, UncheckedItem line raw ∧ title = String.mk (TrimSpace raw) ∧
        TrimSpace raw ≠ [] ∧ hasSubstr (TrimSpace raw) "](".data = false := by
  constructor
  · intro h
    unfold subtaskOfLine matchCheckbox at h
    cases hh : matchCheckboxHead line with
    | none => simp [hh] at h
    | some r =>
      obtain ⟨indent, st, content⟩ := r
      simp only [hh] at h
      split at h
      · rename_i i2 s2 c2 heq
        split at heq
        · simp only [Option.some.injEq, Prod.mk.injEq] at heq
          obtain ⟨rfl, rfl, rfl⟩ := heq
          split at h
          · rename_i hc
            simp only [Bool.and_eq_true, beq_iff_eq, Bool.not_eq_true',
              List.isEmpty_eq_false] at hc
            obtain ⟨⟨rfl, hne⟩, hsub⟩ := hc
            simp only [Option.some.injEq] at h
            obtain ⟨ws1, ws2, hl, h1, h2, h3, _, h5, h6⟩ := matchCheckboxHead_some hh
            refine ⟨content, ⟨indent, ws1, ws2, hl, h1, h2, h3, h5, h6⟩, h.symm, ?_, hsub⟩
            intro h0
            simp [h0] at hne
          · cases h
        · cases heq
      · cases h
  · rintro ⟨raw, ⟨indent, ws1, ws2, hl, h1, h2, h3, h5, h6⟩, rfl, hne, hsub⟩
    have hh := matchCheckboxHead_form indent ws1 ws2 raw ' ' h1 h2 h3 (Or.inl rfl) h5 h6
    rw [← hl] at hh
    have hnl : (raw.dropWhile isRegexSpace).all (fun c => c != '\n') = true := by
      rw [List.all_eq_true]
      intro c hc
      have hc1 : c ∈ raw := (List.dropWhile_sublist _).subset hc
      have hc2 : c ∈ line := by
        rw [hl]
        simp [hc1]
      have : c ≠ '\n' := by
        intro h0
        subst h0
        exact hline hc2
      simpa using this
    have hemp : (TrimSpace raw).isEmpty = false := by
      cases ht : TrimSpace raw with
      | nil => exact absurd ht hne
      | cons _ _ => rfl
    simp [subtaskOfLine, matchCheckbox, hh, hnl, TrimSpace_dropWhile, hemp, hsub]

/-- What `ParseSubtasks` does, line by line. It goes through the lines of the description
in their order (the lines are the pieces between line feeds, and joined with line feeds
they are the description) and returns, for exactly the lines that are unchecked checkbox
items `- [ ] text` whose trimmed content is not empty and holds no `](`, that trimmed
content; every other line gives nothing. -/
theorem ParseSubtasks_lines (description : String) :
    ParseSubtasks description =
      (splitOnChar '\n' description.data).filterMap subtaskOfLine ∧
    joinLines (splitOnChar '\n' description.data) = description.data ∧
    ∀ line ∈ splitOnChar '\n' description.data, ∀ title : String,
      subtaskOfLine line = some title ↔
        ∃ raw, UncheckedItem line raw ∧ title = String.mk (TrimSpace raw) ∧
          TrimSpace raw ≠ [] ∧ hasSubstr (TrimSpace raw) "](".data = false :=
  ⟨rfl, joinLines_splitOnChar description.data, fun line hl title =>
    subtaskOfLine_iff line (splitOnChar_no_sep '\n' description.data line hl) title⟩

/-- C25, at a title that holds the two characters `](` without being a link: the line
`- [ ] a](b` is an unchecked checkbox with the content `a](b`, and by the pattern for
linked checkboxes it is not linked, yet `ParseSubtasks` returns nothing for it, because
it takes any content with `](` for a link. -/
theorem C25_bracket_text_dropped :
    matchCheckbox "- [ ] a](b".data = some ([], ' ', "a](b".data) ∧
    matchLinked "- [ ] a](b".data = none ∧
    ParseSubtasks "- [ ] a](b" = [] := by
  decide

/-- C22, at a description whose links go through the column `to-do`: both lines are
linked checkboxes, the first still `[ ]`; `GetCheckboxStates` files both under the key
`to-do`, the first part of the URL with a hyphen and more than three bytes, so the
second line overwrites the first and `AllCheckboxesComplete` returns true. -/
theorem C22_open_box_counted_done :
    (splitOnChar '\n' todoLinks.data).map (fun line =>
      (matchLinked line).map (fun m => checkboxStateOf m.2.1)) =
      [some CheckboxTodo, some CheckboxDone] ∧
    GetCheckboxStates todoLinks = [("to-do", CheckboxDone)] ∧
    AllCheckboxesComplete todoLinks = true := by
  decide

/-- C23, at the column `to-do`: the line `- [ ] Write tests` is an unchecked, unlinked
checkbox with the title `Write tests`; `AddSubtaskLink` writes the link
`../../to-do/FOR-002-write-tests/task.md`, and `GetCheckboxStates` reads it back under
the key `to-do`, with no entry for the task ID. -/
theorem C23_link_read_back_as_column :
    ParseSubtasks "- [ ] Write tests" = ["Write tests"] ∧
    AddSubtaskLink "- [ ] Write tests" "Write tests" "FOR-002-write-tests" "to-do" =
      "- [ ] [Write tests](../../to-do/FOR-002-write-tests/task.md)" ∧
    GetCheckboxStates
      (AddSubtaskLink "- [ ] Write tests" "Write tests" "FOR-002-write-tests" "to-do") =
      [("to-do", CheckboxTodo)] ∧
    (GetCheckboxStates
      (AddSubtaskLink "- [ ] Write tests" "Write tests" "FOR-002-write-tests" "to-do")).lookup
      "FOR-002-write-tests" = none := by
  decide

/-- C24, at a task ID that is the start of another: `UpdateCheckboxState` for
`FOR-001-fix` also checks the line linked to `FOR-001-fix-tests`, because it asks
whether the URL contains the ID. -/
theorem C24_other_line_changed :
    UpdateCheckboxState fixLinks "FOR-001-fix" CheckboxDone =
      "- [x] [Fix](../../to-do/FOR-001-fix/task.md)\n" ++
      "- [x] [Fix tests](../../to-do/FOR-001-fix-tests/task.md)" := by
  decide

/-! ## Theorems: a second sync on branch tasks in place -/

/-- After the first run on the full board of the counterexample of C18 the branch tasks
are not in place: the branch `feature-b` has no task. -/
theorem wipBoard_not_in_place :
    branchTasksInPlace
      (GitRepoSyncStrategy.Sync ⟨wipProvider⟩ asciiFold id sessionOne wipBoard 10).2
      ["feature-b", "feature-a"] "feature-b" = false := by
  decide

/-- A first run can end out of place without any limit: the new task of branch
`FOR-001-a` takes the ID of the task of a branch that is gone, the move to `Done` finds
the new task under that ID, and the second run moves the old task to `To Do`. -/
theorem goneBoard_not_in_place :
    (GitRepoSyncStrategy.Sync ⟨twinProvider⟩ asciiFold id sessionOne goneBoard 10).1 = none ∧
    branchTasksInPlace
      (GitRepoSyncStrategy.Sync ⟨twinProvider⟩ asciiFold id sessionOne goneBoard 10).2
      ["main", "FOR-001-a"] "main" = false ∧
    (GitRepoSyncStrategy.Sync ⟨twinProvider⟩ asciiFold id sessionOne goneBoard 10).2.layout =
      [("To Do", []), ("In Progress", ["FOR-001-a", "FOR-002-main"]), ("Done", ["FOR-001-a"])] ∧
    (GitRepoSyncStrategy.Sync ⟨twinProvider⟩ asciiFold id sessionOne
      (GitRepoSyncStrategy.Sync ⟨twinProvider⟩ asciiFold id sessionOne goneBoard 10).2 20).2.layout =
      [("To Do", ["FOR-001-a"]), ("In Progress", ["FOR-002-main"]), ("Done", ["FOR-001-a"])] := by
  decide

end MKanban
